import Mathlib

/-!
# MIXMAX pseudo-random number generator (`math/mathcore/src/mixmax.cxx`)

A shallow embedding of the numerical engine of `mixmax.cxx` and a verification of
its arithmetic kernel, its iteration step, its seeding routines and its extraction
paths.

Conventions of the embedding

* `myuint` (an unsigned 64-bit integer) is a `Nat` with an explicit `% 2^64` wherever
  the C code can wrap; `__uint128_t` is a `Nat` with an explicit `% 2^128`.
* C arrays are lists, read with `List.getD _ _ 0` and written with `List.set`.
* `for (i = lo; i < hi; i++) body` is `forLoop lo hi body`.
* Values of the header `mixmax.h`, which is not part of the sources at hand
  (`N`, `SPECIAL`/`MOD_MULSPEC`, the skip table), are fields of `Params`.
-/

namespace Mixmax

/-! ## Machine words -/

/-- The number of values of a `myuint` (64-bit unsigned). -/
def W64 : Nat := 2 ^ 64

/-- The number of values of a `__uint128_t`. -/
def W128 : Nat := 2 ^ 128

/-- Modelled from the spec: the exponent `BITS = 61` of the Mersenne modulus, a macro
of the header `mixmax.h` (absent from the sources). -/
def BITS : Nat := 61

/-- Modelled from the spec: the modulus `MERSBASE = 2^61 - 1 = 2305843009213693951`, a
macro of the header `mixmax.h` (absent from the sources). -/
def MERSBASE : Nat := 2305843009213693951

/-- Modelled from the spec: the macro `MOD_MERSENNE(k)` of the header `mixmax.h`
(absent from the sources), `(k & MERSBASE) + (k >> BITS)`, evaluated on a 64-bit
operand `k` with a 64-bit result. -/
def MOD_MERSENNE (k : Nat) : Nat :=
  ((k &&& MERSBASE) + (k >>> BITS)) % W64

/-- `modadd(foo, bar)`, line 149: `return MOD_MERSENNE(foo+bar);` with the sum
taken in 64 bits. -/
def modadd (foo bar : Nat) : Nat :=
  MOD_MERSENNE ((foo + bar) % W64)

/-- The value `s1` of `mod128` before it is truncated to 64 bits:
`(((myuint)s) & MERSBASE) + (((myuint)(s>>64)) * 8) + (((myuint)s) >> BITS)`,
the product `* 8` being a 64-bit product. -/
def mod128_s1_wide (s : Nat) : Nat :=
  ((s % W64) &&& MERSBASE) + ((((s >>> 64) % W64) * 8) % W64) + ((s % W64) >>> BITS)

/-- `mod128(s)`, lines 258-262. -/
def mod128 (s : Nat) : Nat :=
  let s1 := (((s % W64) &&& MERSBASE) + ((((s >>> 64) % W64) * 8) % W64)
              + ((s % W64) >>> BITS)) % W64
  MOD_MERSENNE s1

/-- `modmulM61(a, b)`, lines 264-269: the 128-bit product fed to `mod128`. -/
def modmulM61 (a b : Nat) : Nat :=
  let temp := (a * b) % W128
  mod128 temp

/-- `fmodmulM61(cum, a, b)`, lines 272-276: `a*b + cum` in 128 bits, then `mod128`. -/
def fmodmulM61 (cum a b : Nat) : Nat :=
  let temp := ((a * b) % W128 + cum) % W128
  mod128 temp

/-! ## Control structures and configuration -/

/-- Runs `body i` for `n` consecutive values of `i`, starting at `i`. -/
def forLoopAux {σ : Type} (body : Nat → σ → σ) : Nat → Nat → σ → σ
  | 0, _, s => s
  | n + 1, i, s => forLoopAux body n (i + 1) (body i s)

/-- The C loop `for (i = lo; i < hi; i++) body`. -/
def forLoop {σ : Type} (lo hi : Nat) (body : Nat → σ → σ) (s : σ) : σ :=
  forLoopAux body (hi - lo) lo s

/-- The compile-time and process-wide configuration that `mixmax.cxx` takes from
`mixmax.h` and from its global variable `nskip`.

* `N`: the dimension of the state vector (an `int` macro);
* `MOD_MULSPEC`: `none` when `SPECIAL == 0` (the `#if (SPECIAL != 0)` blocks are
  compiled out), `some f` when `SPECIAL != 0`, `f` being the macro `MOD_MULSPEC`;
* `nskip`: the global `int nskip` (default 2, changed by `set_skip_number`);
* `skipMat`: the table `skipMat[128][N]` included from `mixmax_skip_N*.c`, as a
  function of the row and the column. -/
structure Params where
  N : Nat
  MOD_MULSPEC : Option (Nat → Nat)
  nskip : Int
  skipMat : Nat → Nat → Nat

/-- The fields `V`, `sumtot` and `counter` of `rng_state_t` (the file handle `fh` is
used by the text output only). `counter` is only ever assigned non-negative values. -/
structure rng_state_t where
  V : List Nat
  sumtot : Nat
  counter : Nat
deriving DecidableEq, Repr

/-- The exit codes with which the seeding routines and `read_state` terminate the
process (failures to open or to scan the file, `ERROR_READING_STATE_FILE`, are
outside the model). -/
inductive ExitCode where
  | ARRAY_INDEX_OUT_OF_BOUNDS
  | SEED_WAS_ZERO
  | ERROR_READING_STATE_COUNTER
  | ERROR_READING_STATE_CHECKSUM
deriving DecidableEq, Repr

/-- The number of raw iterations of one logical iteration, `int niter = nskip + 1`,
as the trip count of `for (i = 0; i < niter; ++i)`. -/
def niter (P : Params) : Nat := (P.nskip + 1).toNat

/-- The cast `(int64_t)v` of a 64-bit unsigned value. -/
def int64_of (v : Nat) : Int :=
  if v % W64 < 2 ^ 63 then ((v % W64 : Nat) : Int) else ((v % W64 : Nat) : Int) - 2 ^ 64

/-- The 128-bit subtraction `a -= b`. -/
def sub128 (a b : Nat) : Nat := (a + (W128 - b % W128)) % W128

/-! ## Iteration engine -/

/-- The variables of the loop of `iterate_raw_vec`. -/
structure IterSt where
  Y : List Nat
  tempP : Nat
  tempV : Nat
  sumtot : Nat
deriving DecidableEq, Repr

/-- The body of the loop of `iterate_raw_vec`, lines 53-55. -/
def iterate_raw_vec_body (i : Nat) (s : IterSt) : IterSt :=
  let tempP := modadd s.tempP (s.Y.getD i 0)
  let tempV := modadd s.tempV tempP
  { Y := s.Y.set i tempV, tempP := tempP, tempV := tempV,
    sumtot := (s.sumtot + tempV) % W128 }

/-- `iterate_raw_vec(Y, sumtotOld)`, lines 42-63: the new vector and the returned
checksum. -/
def iterate_raw_vec (P : Params) (Y : List Nat) (sumtotOld : Nat) : List Nat × Nat :=
  let temp2 := Y.getD 1 0
  let tempV := modadd (Y.getD 0 0) sumtotOld
  let s := forLoop 1 P.N iterate_raw_vec_body
    { Y := Y.set 0 tempV, tempP := 0, tempV := tempV, sumtot := 0 }
  match P.MOD_MULSPEC with
  | none => (s.Y, mod128 s.sumtot)
  | some f =>
    let temp2 := f temp2
    ((s.Y).set 2 (modadd (s.Y.getD 2 0) temp2), mod128 ((s.sumtot + temp2) % W128))

/-- One pass of the loop bodies of `iterate` and `get_next`:
`X->sumtot = iterate_raw_vec(X->V, X->sumtot);`. -/
def iterate_step (P : Params) (X : rng_state_t) : rng_state_t :=
  let r := iterate_raw_vec P X.V X.sumtot
  { X with V := r.1, sumtot := r.2 }

/-- `iterate(X)`, lines 35-40. -/
def iterate (P : Params) (X : rng_state_t) : rng_state_t :=
  forLoop 0 (niter P) (fun _ X => iterate_step P X) X

/-! ## Output extraction -/

/-- `get_next(X)`, lines 65-79: the returned value and the state left behind. -/
def get_next (P : Params) (X : rng_state_t) : Nat × rng_state_t :=
  let i := X.counter
  if i < P.N then
    (X.V.getD i 0, { X with counter := X.counter + 1 })
  else
    let X := forLoop 0 (niter P) (fun _ X => iterate_step P X) X
    let X := { X with counter := 2 }
    (X.V.getD 1 0, X)

/-- `get_next_float(X)`, lines 81-99, up to the final scaling: the signed integer
`Z = (int64_t)get_next(X)`; the function returns the double `Z*INV_MERSBASE`. -/
def get_next_float (P : Params) (X : rng_state_t) : Int × rng_state_t :=
  let r := get_next P X
  (int64_of r.1, r.2)

/-- The variables of the loop of `iterate_and_fill_array`, with the output array.
An element of `array` is the integer `(int64_t)v` that the code multiplies by
`INV_MERSBASE`. -/
structure FillSt where
  Y : List Nat
  tempP : Nat
  tempV : Nat
  sumtot : Nat
  array : List Int
deriving DecidableEq, Repr

/-- The variables of `iterate_and_fill_array` that `iterate_raw_vec` has too. -/
def FillSt.toIterSt (s : FillSt) : IterSt :=
  { Y := s.Y, tempP := s.tempP, tempV := s.tempV, sumtot := s.sumtot }

/-- The body of the loop of `iterate_and_fill_array`, lines 135-138; `off` is the
offset of the pointer `array` in the caller's buffer. -/
def iterate_and_fill_array_body (off : Nat) (i : Nat) (s : FillSt) : FillSt :=
  let tempP := modadd s.tempP (s.Y.getD i 0)
  let tempV := modadd s.tempV tempP
  { Y := s.Y.set i tempV, tempP := tempP, tempV := tempV,
    sumtot := (s.sumtot + tempV) % W128,
    array := s.array.set (off + (i - 1)) (int64_of tempV) }

/-- `iterate_and_fill_array(X, array + off)`, lines 123-147. -/
def iterate_and_fill_array (P : Params) (X : rng_state_t) (array : List Int) (off : Nat) :
    rng_state_t × List Int :=
  let Y := X.V
  let temp2 := Y.getD 1 0
  let tempV := modadd (Y.getD 0 0) X.sumtot
  let s := forLoop 1 P.N (iterate_and_fill_array_body off)
    { Y := Y.set 0 tempV, tempP := 0, tempV := tempV, sumtot := 0, array := array }
  match P.MOD_MULSPEC with
  | none => ({ X with V := s.Y, sumtot := mod128 s.sumtot }, s.array)
  | some f =>
    let temp2 := f temp2
    let Y := (s.Y).set 2 (modadd (s.Y.getD 2 0) temp2)
    let array := s.array.set (off + 2) (int64_of (Y.getD 2 0))
    ({ X with V := Y, sumtot := mod128 ((s.sumtot + temp2) % W128) }, array)

/-- `fill_array(X, n, array)`, lines 101-121: the state left behind and the array. -/
def fill_array (P : Params) (X : rng_state_t) (n : Nat) (array : List Int) :
    rng_state_t × List Int :=
  let M := P.N - 1
  let s := forLoop 0 (n / M)
    (fun i s => forLoop 0 (niter P)
      (fun _ s => iterate_and_fill_array P s.1 s.2 (i * M)) s) (X, array)
  let i := n / M
  let rem := n % M
  if rem ≠ 0 then
    let X := iterate P s.1
    let array := forLoop 0 rem
      (fun j array => array.set (M * i + j) (int64_of (X.V.getD j 0))) s.2
    ({ X with counter := rem }, array)
  else
    ({ s.1 with counter := P.N }, s.2)

/-! ## Seeding -/

/-- `rng_copy(Y)`, lines 179-199; the freshly allocated vector is modelled as zeros,
every element of it is overwritten. -/
def rng_copy (P : Params) (Y : List Nat) : rng_state_t :=
  let V := (List.replicate P.N 0).set 0 (Y.getD 0 0)
  let s := forLoop 1 P.N
    (fun i (s : List Nat × Nat) =>
      let V := s.1.set i (Y.getD i 0)
      (V, (s.2 + V.getD i 0) % W128)) (V, 0)
  { V := s.1, sumtot := mod128 s.2, counter := 2 }

/-- `seed_vielbein(X, index)`, lines 201-216. -/
def seed_vielbein (P : Params) (X : rng_state_t) (index : Nat) :
    Except ExitCode rng_state_t :=
  if index < P.N then
    let V := forLoop 0 P.N (fun i V => V.set i 0) X.V
    let V := V.set index 1
    .ok { V := V, counter := P.N, sumtot := if index ≠ 0 then 1 else 0 }
  else
    .error ExitCode.ARRAY_INDEX_OUT_OF_BOUNDS

/-- The constant `MULT64` of `seed_spbox`. -/
def MULT64 : Nat := 6364136223846793005

/-- The body of the loop of `seed_spbox`, lines 234-236, on `(V, l, sumtmp)`. -/
def seed_spbox_body (i : Nat) (s : List Nat × Nat × Nat) : List Nat × Nat × Nat :=
  let l := (s.2.1 * MULT64) % W64
  let l := ((l <<< 32) % W64) ^^^ (l >>> 32)
  let V := s.1.set i (l &&& MERSBASE)
  (V, l, (s.2.2 + V.getD i 0) % W128)

/-- `seed_spbox(X, seed)`, lines 218-240. -/
def seed_spbox (P : Params) (X : rng_state_t) (seed : Nat) :
    Except ExitCode rng_state_t :=
  if seed = 0 then
    .error ExitCode.SEED_WAS_ZERO
  else
    let l := seed
    let V := X.V.set 0 (l &&& MERSBASE)
    let s := forLoop 1 P.N seed_spbox_body (V, l, 0)
    .ok { V := s.1, counter := P.N, sumtot := mod128 s.2.2 }

/-- `precalc(X)`, lines 242-251: the returned value and the state. -/
def precalc (P : Params) (X : rng_state_t) : Nat × rng_state_t :=
  let temp := forLoop 1 P.N
    (fun i temp => MOD_MERSENNE ((temp + X.V.getD i 0) % W64)) 0
  (temp, { X with sumtot := temp })

/-! ## Skip-ahead -/

/-- Modelled from the spec: the width in bits, `8*sizeof(myID_t)`, of an identifier;
the type `myID_t` is declared in `mixmax.h` (absent from the sources) and is a
32-bit unsigned integer. -/
def ID_BITS : Nat := 32

/-- The working variables `Y`, `cum` and `sumtot` of `apply_bigskip`. -/
structure SkipSt where
  Y : List Nat
  cum : List Nat
  sumtot : Nat
deriving DecidableEq, Repr

/-- The loop `for (i...) { dst[i] = src[i]; sumtot += src[i]; }` of lines 410, 427
and 433, on `(dst, sumtot)`. -/
def copy_and_sum (N : Nat) (src : List Nat) (s : List Nat × Nat) : List Nat × Nat :=
  forLoop 0 N (fun i s => (s.1.set i (src.getD i 0), (s.2 + src.getD i 0) % W128)) s

/-- The macro `FUSEDMODMULVEC`, lines 347-350. -/
def FUSEDMODMULVEC (N : Nat) (coeff : Nat) (Y cum : List Nat) : List Nat :=
  forLoop 0 N (fun i cum => cum.set i (fmodmulM61 (cum.getD i 0) coeff (Y.getD i 0))) cum

/-- The body of `if (id & 1) { ... }`, lines 417-427, for the row `row` of the table.
The 128-bit variable `sumtot` holds a 64-bit value (a result of `mod128` or of
`iterate_raw_vec`) wherever it is passed as the `myuint` argument of
`iterate_raw_vec`. -/
def apply_bigskip_row (P : Params) (row : Nat) (s : SkipSt) : SkipSt :=
  let cum := forLoop 0 P.N (fun i cum => cum.set i 0) s.cum
  let s := forLoop 0 P.N
    (fun j (s : SkipSt) =>
      let coeff := P.skipMat row j
      let cum := FUSEDMODMULVEC P.N coeff s.Y s.cum
      let r := iterate_raw_vec P s.Y s.sumtot
      { Y := r.1, cum := cum, sumtot := r.2 })
    { s with cum := cum }
  let c := copy_and_sum P.N s.cum (s.Y, 0)
  { Y := c.1, cum := s.cum, sumtot := mod128 (sub128 c.2 (c.1.getD 0 0)) }

/-- The loop `while (id) { ... id = (id >> 1); r++; }`, lines 415-430. -/
def apply_bigskip_bits (P : Params) (IDindex : Nat) (id r : Nat) (s : SkipSt) : SkipSt :=
  if _h : id = 0 then s
  else
    apply_bigskip_bits P IDindex (id >>> 1) (r + 1)
      (if id &&& 1 ≠ 0 then apply_bigskip_row P (r + IDindex * ID_BITS) s else s)
termination_by id
decreasing_by
  rw [Nat.shiftRight_eq_div_pow]
  omega

/-- `apply_bigskip(Vout, Vin, clusterID, machineID, runID, streamID)`, lines 366-435:
the vector left in `Vout` and the returned checksum; the local arrays `Y` and `cum`
start as zeros (`Y` is overwritten at once, `cum` before its first use). -/
def apply_bigskip (P : Params) (Vout Vin : List Nat)
    (clusterID machineID runID streamID : Nat) : List Nat × Nat :=
  let IDvec := [streamID, runID, machineID, clusterID]
  let c := copy_and_sum P.N Vin (List.replicate P.N 0, 0)
  let s : SkipSt :=
    { Y := c.1, cum := List.replicate P.N 0,
      sumtot := mod128 (sub128 c.2 (Vin.getD 0 0)) }
  let s := forLoop 0 4
    (fun IDindex s => apply_bigskip_bits P IDindex (IDvec.getD IDindex 0) 0 s) s
  let c := copy_and_sum P.N s.Y (Vout, 0)
  (c.1, mod128 (sub128 c.2 (s.Y.getD 0 0)))

/-- `branch_inplace(Xin, IDvec)`, lines 362-364. -/
def branch_inplace (P : Params) (Xin : rng_state_t) (IDvec : List Nat) : rng_state_t :=
  let r := apply_bigskip P Xin.V Xin.V (IDvec.getD 3 0) (IDvec.getD 2 0)
    (IDvec.getD 1 0) (IDvec.getD 0 0)
  { Xin with V := r.1, sumtot := r.2 }

/-- `seed_uniquestream(Xin, clusterID, machineID, runID, streamID)`, lines 356-360. -/
def seed_uniquestream (P : Params) (Xin : rng_state_t)
    (clusterID machineID runID streamID : Nat) : Except ExitCode rng_state_t :=
  match seed_vielbein P Xin 0 with
  | .error e => .error e
  | .ok Xin =>
    let r := apply_bigskip P Xin.V Xin.V clusterID machineID runID streamID
    .ok { Xin with V := r.1, sumtot := r.2 }

/-! ## Specification-level notions used in the statements -/

/-- The value of `tempP` in `iterate_raw_vec` after the loop iteration `i`
(`0` before the loop), as a function of the old vector `Y`. -/
def tempP_at (Y : List Nat) : Nat → Nat
  | 0 => 0
  | i + 1 => modadd (tempP_at Y i) (Y.getD (i + 1) 0)

/-- The value of `tempV` in `iterate_raw_vec` after the loop iteration `i`
(the new `Y[0]` before the loop), as a function of the old vector and checksum. -/
def tempV_at (Y : List Nat) (S : Nat) : Nat → Nat
  | 0 => modadd (Y.getD 0 0) S
  | i + 1 => modadd (tempV_at Y S i) (tempP_at Y (i + 1))

/-- The correction that the `SPECIAL` term adds to the component `i` of the new
vector: `MOD_MULSPEC(old Y[1])` at `i = 2` when `SPECIAL != 0`, nothing otherwise. -/
def special_term (P : Params) (Y : List Nat) (i : Nat) : Nat :=
  match P.MOD_MULSPEC with
  | none => 0
  | some f => if i = 2 then f (Y.getD 1 0) else 0

/-- The invariant of the loop of `iterate_raw_vec` on entry to the iteration `k`:
the components below `k` hold their new values, the others the old ones, `tempP` and
`tempV` are those of the iteration `k - 1`, and `sumtot` is the sum of the new
components `1..k-1`. -/
def IterInv (Y : List Nat) (S N : Nat) (k : Nat) (t : IterSt) : Prop :=
  t.Y.length = N ∧
  (∀ j, t.Y.getD j 0 = if j < k then tempV_at Y S j else Y.getD j 0) ∧
  t.tempP = tempP_at Y (k - 1) ∧ t.tempV = tempV_at Y S (k - 1) ∧
  t.sumtot = (∑ j in Finset.Ico 1 k, tempV_at Y S j) % W128

/-- The component `j` of the vector that `iterate_raw_vec` leaves, as a function of
the old vector and checksum: `tempV` of iteration `j`, and at `j = 2`, when
`SPECIAL != 0`, `modadd` of it and of `MOD_MULSPEC(old Y[1])`. -/
def Y_new (P : Params) (Y : List Nat) (S : Nat) (j : Nat) : Nat :=
  match P.MOD_MULSPEC with
  | none => tempV_at Y S j
  | some f => if j = 2 then modadd (tempV_at Y S 2) (f (Y.getD 1 0)) else tempV_at Y S j

/-- The entry `A[i][k]` of the matrix of the recurrence: `1` in column `0`,
`i - k + 2` for `1 <= k <= i`, and `1` for `k > i`. -/
def matA (i k : Nat) : Nat :=
  if k = 0 then 1 else if k ≤ i then i - k + 2 else 1

/-- All elements of a vector are residues in `[0, MERSBASE]`. -/
def Residues (V : List Nat) : Prop := ∀ v ∈ V, v ≤ MERSBASE

instance (V : List Nat) : Decidable (Residues V) := by
  unfold Residues; infer_instance

/-- The configuration is one the code can be built with: `N` is a positive `int`
(below `2^31`) and, when `SPECIAL != 0`, `MOD_MULSPEC` maps residues to residues. -/
def Params.ok (P : Params) : Prop :=
  P.N < 2 ^ 31 ∧ ∀ f, P.MOD_MULSPEC = some f → ∀ k, k ≤ MERSBASE → f k ≤ MERSBASE

/-- Invariants I2 and I3 on a state of the configured dimension: `V` has `N`
elements, each in `[0, MERSBASE]`, `sumtot` is in `[0, MERSBASE]` and `counter` is in
`[0, N]`. -/
def Valid (P : Params) (X : rng_state_t) : Prop :=
  X.V.length = P.N ∧ Residues X.V ∧ X.sumtot ≤ MERSBASE ∧ X.counter ≤ P.N

/-- The checksum invariant of the code: `sumtot` is congruent modulo `MERSBASE` to
the sum of `V[1..N)`, element 0 excluded. -/
def ChecksumInv (X : rng_state_t) : Prop :=
  X.sumtot % MERSBASE = X.V.tail.sum % MERSBASE

/-- All entries of the skip table are residues in `[0, MERSBASE]`. -/
def TableOk (P : Params) : Prop := ∀ r j, P.skipMat r j ≤ MERSBASE

/-- The value of `l` in `seed_spbox` after the loop iteration `i` (`seed` before the
loop): `l_i = swap32(l_{i-1} * MULT64 mod 2^64)`. -/
def lcg_at (seed : Nat) : Nat → Nat
  | 0 => seed
  | i + 1 =>
    ((((lcg_at seed i * MULT64) % W64) <<< 32) % W64)
      ^^^ (((lcg_at seed i * MULT64) % W64) >>> 32)

/-- The vector that `seed_spbox` leaves: `V[i] = l_i & MERSBASE` (`l_0 = seed`). -/
def spbox_vector (N seed : Nat) : List Nat :=
  (List.range N).map (fun i => lcg_at seed i &&& MERSBASE)

/-- The invariant of the working variables of `apply_bigskip` between two rows:
`Y` and `cum` have `N` elements, `Y` consists of residues and `sumtot` is
`mod128` of the sum of `Y[1..N)`. -/
def SkipInv (P : Params) (s : SkipSt) : Prop :=
  s.Y.length = P.N ∧ s.cum.length = P.N ∧ Residues s.Y ∧ s.sumtot = mod128 s.Y.tail.sum

/-- The states that the seeding routines `seed_vielbein` and `seed_spbox` produce and
that `get_next`, `fill_array`, `iterate` and the skip `branch_inplace` (the in-place
`apply_bigskip`) then lead to. -/
inductive Reachable (P : Params) : rng_state_t → Prop where
  | seed_vielbein (X0 : rng_state_t) (index : Nat) (X : rng_state_t) :
      X0.V.length = P.N → seed_vielbein P X0 index = .ok X → Reachable P X
  | seed_spbox (X0 : rng_state_t) (seed : Nat) (X : rng_state_t) :
      X0.V.length = P.N → seed < W64 → seed_spbox P X0 seed = .ok X → Reachable P X
  | get_next (X : rng_state_t) : Reachable P X → Reachable P (get_next P X).2
  | fill_array (X : rng_state_t) (n : Nat) (array : List Int) :
      Reachable P X → Reachable P (fill_array P X n array).1
  | iterate (X : rng_state_t) : Reachable P X → Reachable P (iterate P X)
  | skip (X : rng_state_t) (IDvec : List Nat) :
      Reachable P X → Reachable P (branch_inplace P X IDvec)

/-- The outputs of `n` sequential calls of `get_next_float` (the integers `Z`, in the
order of the calls) and the state left behind. -/
def get_next_float_seq (P : Params) : Nat → rng_state_t → List Int × rng_state_t
  | 0, X => ([], X)
  | n + 1, X =>
    let r := get_next_float P X
    let rest := get_next_float_seq P n r.2
    (r.1 :: rest.1, rest.2)

/-- The vector of the state after `b` calls of `iterate`. -/
def block_vector (P : Params) (X : rng_state_t) (b : Nat) : List Nat :=
  ((iterate P)^[b] X).V

/-! ## Concrete configurations and states used as instances -/

/-- A configuration with `N = 4` and a `SPECIAL` term `MOD_MULSPEC(k) = MERSBASE - k`. -/
def exampleParams : Params :=
  { N := 4, MOD_MULSPEC := some (fun k => MERSBASE - k), nskip := 2,
    skipMat := fun _ _ => 1 }

/-- A configuration with `N = 3` and `SPECIAL == 0`. -/
def smallParams : Params :=
  { N := 3, MOD_MULSPEC := none, nskip := 2, skipMat := fun _ _ => 1 }

/-- A state of `exampleParams` whose counter is exhausted. -/
def exampleState : rng_state_t := { V := [1, 2, 3, 4], sumtot := 9, counter := 4 }

/-- A state of `smallParams`, as allocated before seeding. -/
def smallState : rng_state_t := { V := [0, 0, 0], sumtot := 0, counter := 0 }

/-- The representative that the checksum routines return for an exact sum `s`: `0`
for `s = 0`, and otherwise the number in `[1, MERSBASE]` congruent to `s` modulo
`MERSBASE` (so `MERSBASE` itself for a non-zero multiple of `MERSBASE`). -/
def canon (s : Nat) : Nat :=
  if s = 0 then 0 else (s - 1) % MERSBASE + 1

/-! ## Persistence -/

/-- The numbers of a state file, in the order in which `print_state` writes them and
`read_state` scans them: `N=%u`, the values between the braces, `counter=%u` and
`sumtot=%llu`. The text around the numbers is not modelled. -/
structure StateFile where
  N : Nat
  V : List Nat
  counter : Nat
  sumtot : Nat
deriving DecidableEq, Repr

/-- `print_state(X)`, lines 278-289: `N`, then `V[0], ..., V[N-2]` and `V[N-1]`, the
counter and the checksum. -/
def print_state (P : Params) (X : rng_state_t) : StateFile :=
  { N := P.N,
    V := (forLoop 0 (P.N - 1) (fun j out => out ++ [X.V.getD j 0]) [])
          ++ [X.V.getD (P.N - 1) 0],
    counter := X.counter,
    sumtot := X.sumtot }

/-- `read_state(X, filename)`, lines 291-344, on the numbers of a file that opens
and scans. `N=` in the file is skipped (the text is passed over up to the opening
brace); `V[0]` is stored as scanned; for `i >= 1` a value `<= MERSBASE` is stored and
any other value only gets a message on `stderr`, after which the loop goes on. -/
def read_state (P : Params) (X : rng_state_t) (f : StateFile) :
    Except ExitCode rng_state_t :=
  let V := X.V.set 0 (f.V.getD 0 0)
  let V := forLoop 1 P.N
    (fun i V =>
      let vecVal := f.V.getD i 0
      if vecVal ≤ MERSBASE then V.set i vecVal else V) V
  if f.counter ≤ P.N then
    let X := (precalc P { X with V := V, counter := f.counter }).2
    if X.sumtot ≠ f.sumtot then
      .error ExitCode.ERROR_READING_STATE_CHECKSUM
    else
      .ok X
  else
    .error ExitCode.ERROR_READING_STATE_COUNTER

/-- The legally constructed states: those that `seed_vielbein` and `seed_spbox`
produce and that `iterate`, `get_next` and `fill_array` then lead to. -/
inductive Legal (P : Params) : rng_state_t → Prop where
  | seed_vielbein (X0 : rng_state_t) (index : Nat) (X : rng_state_t) :
      X0.V.length = P.N → seed_vielbein P X0 index = .ok X → Legal P X
  | seed_spbox (X0 : rng_state_t) (seed : Nat) (X : rng_state_t) :
      X0.V.length = P.N → seed < W64 → seed_spbox P X0 seed = .ok X → Legal P X
  | iterate (X : rng_state_t) : Legal P X → Legal P (iterate P X)
  | get_next (X : rng_state_t) : Legal P X → Legal P (get_next P X).2
  | fill_array (X : rng_state_t) (n : Nat) (array : List Int) :
      Legal P X → Legal P (fill_array P X n array).1

/-- The exact checksum invariant: `sumtot` is the representative `canon` of the sum
of `V[1..N)`, the value that `precalc` recomputes. -/
def ExactInv (X : rng_state_t) : Prop := X.sumtot = canon X.V.tail.sum

/-- The pair `(Y, sumtot)` after `j` successive `iterate_raw_vec` steps: `T^j`. -/
def raw_iter (P : Params) (j : Nat) (Y : List Nat) (S : Nat) : List Nat × Nat :=
  (fun p : List Nat × Nat => iterate_raw_vec P p.1 p.2)^[j] (Y, S)

/-- An output integer `Z` that is in `[1, MERSBASE]`. -/
def Positive (z : Int) : Prop := 1 ≤ z ∧ z ≤ (MERSBASE : Int)

/-- The state does not iterate to the zero vector: `V[0]` or `sumtot` is not zero. -/
def Nondegenerate (X : rng_state_t) : Prop := X.V.getD 0 0 ≠ 0 ∨ X.sumtot ≠ 0

/-- A valid, non-degenerate state whose vector has no zero element whenever its
counter says that elements are still to be returned. -/
def Live (P : Params) (X : rng_state_t) : Prop :=
  Valid P X ∧ Nondegenerate X ∧ (X.counter < P.N → ∀ i, i < P.N → X.V.getD i 0 ≠ 0)

/-! ## Arithmetic kernel: auxiliary facts -/

theorem and_MERSBASE (k : Nat) : k &&& MERSBASE = k % 2 ^ 61 := by
  have h : MERSBASE = 2 ^ 61 - 1 := by decide
  rw [h, Nat.and_pow_two_sub_one_eq_mod]

theorem W64_eq : W64 = 2 ^ 64 := rfl

theorem W128_eq : W128 = 2 ^ 128 := rfl

theorem MERSBASE_eq : MERSBASE = 2 ^ 61 - 1 := by decide

theorem MOD_MERSENNE_eq (k : Nat) (hk : k < 2 ^ 64) :
    MOD_MERSENNE k = k % 2 ^ 61 + k / 2 ^ 61 := by
  unfold MOD_MERSENNE
  rw [and_MERSBASE, BITS, Nat.shiftRight_eq_div_pow, W64_eq]
  omega

theorem MOD_MERSENNE_congr (k : Nat) (hk : k < 2 ^ 64) :
    MOD_MERSENNE k % MERSBASE = k % MERSBASE := by
  rw [ MOD_MERSENNE_eq k hk, MERSBASE_eq]
  omega

theorem mod128_s1_wide_eq (s : Nat) :
    mod128_s1_wide s
      = (s % 2 ^ 64) % 2 ^ 61 + (((s / 2 ^ 64) % 2 ^ 64) * 8) % 2 ^ 64
          + (s % 2 ^ 64) / 2 ^ 61 := by
  unfold mod128_s1_wide
  rw [and_MERSBASE, BITS, Nat.shiftRight_eq_div_pow, Nat.shiftRight_eq_div_pow]
  rfl

theorem mod128_eq (s : Nat) : mod128 s = MOD_MERSENNE (mod128_s1_wide s % 2 ^ 64) := rfl

/-- For a 128-bit value below `2^124` nothing wraps in `mod128` and the result is
congruent to the argument. -/
theorem mod128_congr (s : Nat) (hs : s < 2 ^ 124) :
    mod128_s1_wide s < 2 ^ 64 ∧ mod128 s % MERSBASE = s % MERSBASE := by
  have hw := mod128_s1_wide_eq s
  have hlt : mod128_s1_wide s < 2 ^ 64 := by
    rw [hw]; omega
  refine ⟨hlt, ?_⟩
  rw [mod128_eq, Nat.mod_eq_of_lt hlt, MOD_MERSENNE_congr _ hlt]
  have hsplit : s = mod128_s1_wide s + MERSBASE * (8 * (s / 2 ^ 64) + (s % 2 ^ 64) / 2 ^ 61) := by
    rw [hw, MERSBASE_eq]; omega
  conv_rhs => rw [hsplit]
  rw [Nat.add_mul_mod_self_left]

/-- For `s <= MERSBASE * MERSBASE + MERSBASE` the result of `mod128` is a residue. -/
theorem mod128_le (s : Nat) (hs : s ≤ MERSBASE * MERSBASE + MERSBASE) :
    mod128_s1_wide s < 2 ^ 64 ∧ mod128 s ≤ MERSBASE := by
  have hw := mod128_s1_wide_eq s
  have hs' : s ≤ 5316911983139663489309385231907684352 := by
    have : MERSBASE * MERSBASE + MERSBASE = 5316911983139663489309385231907684352 := by
      decide
    omega
  have hlt : mod128_s1_wide s < 2 ^ 62 - 1 := by
    rw [hw]; omega
  have hlt64 : mod128_s1_wide s < 2 ^ 64 := by omega
  refine ⟨hlt64, ?_⟩
  rw [mod128_eq, Nat.mod_eq_of_lt hlt64, MOD_MERSENNE_eq _ hlt64, MERSBASE_eq]
  omega

theorem modadd_eq (a b : Nat) (ha : a ≤ MERSBASE) (hb : b ≤ MERSBASE) :
    modadd a b = (a + b) % 2 ^ 61 + (a + b) / 2 ^ 61 := by
  rw [MERSBASE_eq] at ha hb
  unfold modadd
  have h : (a + b) % W64 = a + b := by rw [W64_eq]; omega
  rw [h, MOD_MERSENNE_eq _ (by omega)]

theorem modadd_le (a b : Nat) (ha : a ≤ MERSBASE) (hb : b ≤ MERSBASE) :
    modadd a b ≤ MERSBASE := by
  rw [modadd_eq a b ha hb]
  rw [MERSBASE_eq] at *
  omega

theorem modadd_congr (a b : Nat) (ha : a ≤ MERSBASE) (hb : b ≤ MERSBASE) :
    modadd a b % MERSBASE = (a + b) % MERSBASE := by
  rw [modadd_eq a b ha hb]
  rw [MERSBASE_eq] at *
  omega

theorem fmodmulM61_bound (cum a b : Nat) (hc : cum ≤ MERSBASE) (ha : a ≤ MERSBASE)
    (hb : b ≤ MERSBASE) :
    a * b + cum ≤ MERSBASE * MERSBASE + MERSBASE ∧
    ((a * b) % W128 + cum) % W128 = a * b + cum := by
  have h1 : a * b ≤ MERSBASE * MERSBASE := Nat.mul_le_mul ha hb
  have h2 : MERSBASE * MERSBASE + MERSBASE = 5316911983139663489309385231907684352 := by
    decide
  have h3 : a * b + cum ≤ MERSBASE * MERSBASE + MERSBASE := by omega
  refine ⟨h3, ?_⟩
  rw [W128_eq]
  omega

theorem fmodmulM61_le (cum a b : Nat) (hc : cum ≤ MERSBASE) (ha : a ≤ MERSBASE)
    (hb : b ≤ MERSBASE) : fmodmulM61 cum a b ≤ MERSBASE := by
  obtain ⟨h1, h2⟩ := fmodmulM61_bound cum a b hc ha hb
  unfold fmodmulM61
  simp only [h2]
  exact (mod128_le _ h1).2

theorem fmodmulM61_congr (cum a b : Nat) (hc : cum ≤ MERSBASE) (ha : a ≤ MERSBASE)
    (hb : b ≤ MERSBASE) : fmodmulM61 cum a b % MERSBASE = (cum + a * b) % MERSBASE := by
  obtain ⟨h1, h2⟩ := fmodmulM61_bound cum a b hc ha hb
  have h3 : MERSBASE * MERSBASE + MERSBASE = 5316911983139663489309385231907684352 := by
    decide
  unfold fmodmulM61
  simp only [h2]
  rw [(mod128_congr _ (by omega)).2, Nat.add_comm]

/-! ## Loops and arrays: auxiliary facts -/

theorem forLoopAux_inv {σ : Type} (body : Nat → σ → σ) (Inv : Nat → σ → Prop) :
    ∀ (n i : Nat) (s : σ), Inv i s →
      (∀ k t, i ≤ k → k < i + n → Inv k t → Inv (k + 1) (body k t)) →
      Inv (i + n) (forLoopAux body n i s)
  | 0, _, _, h0, _ => h0
  | n + 1, i, s, h0, hstep => by
    have h1 : Inv (i + 1) (body i s) := hstep i s (Nat.le_refl _) (by omega) h0
    have h2 := forLoopAux_inv body Inv n (i + 1) (body i s) h1
      (fun k t hk1 hk2 hI => hstep k t (by omega) (by omega) hI)
    have e : i + (n + 1) = i + 1 + n := by omega
    rw [e]
    exact h2

/-- The loop rule: an invariant that holds on entry and is kept by every iteration
holds on exit. -/
theorem forLoop_inv {σ : Type} (lo hi : Nat) (body : Nat → σ → σ) (Inv : Nat → σ → Prop)
    (s : σ) (hle : lo ≤ hi) (h0 : Inv lo s)
    (hstep : ∀ k t, lo ≤ k → k < hi → Inv k t → Inv (k + 1) (body k t)) :
    Inv hi (forLoop lo hi body s) := by
  have h := forLoopAux_inv body Inv (hi - lo) lo s h0
    (fun k t hk1 hk2 hI => hstep k t hk1 (by omega) hI)
  have e : lo + (hi - lo) = hi := by omega
  rw [e] at h
  exact h

theorem forLoopAux_map {σ τ : Type} (g : σ → τ) (b1 : Nat → σ → σ) (b2 : Nat → τ → τ)
    (hcomm : ∀ i s, g (b1 i s) = b2 i (g s)) :
    ∀ (n i : Nat) (s : σ), g (forLoopAux b1 n i s) = forLoopAux b2 n i (g s)
  | 0, _, _ => rfl
  | n + 1, i, s => by
    show g (forLoopAux b1 n (i + 1) (b1 i s)) = forLoopAux b2 n (i + 1) (b2 i (g s))
    rw [forLoopAux_map g b1 b2 hcomm n (i + 1) (b1 i s), hcomm]

/-- Two loops whose bodies commute with a projection stay related by it. -/
theorem forLoop_map {σ τ : Type} (g : σ → τ) (b1 : Nat → σ → σ) (b2 : Nat → τ → τ)
    (hcomm : ∀ i s, g (b1 i s) = b2 i (g s)) (lo hi : Nat) (s : σ) :
    g (forLoop lo hi b1 s) = forLoop lo hi b2 (g s) :=
  forLoopAux_map g b1 b2 hcomm (hi - lo) lo s

theorem getD_set (l : List Nat) (i j v : Nat) :
    (l.set i v).getD j 0 = if i = j ∧ i < l.length then v else l.getD j 0 := by
  simp only [List.getD_eq_getElem?_getD, List.getElem?_set]
  by_cases hij : i = j
  · subst hij
    by_cases hlt : i < l.length
    · simp [hlt]
    · simp [hlt, List.getElem?_eq_none (Nat.le_of_not_lt hlt)]
  · simp [hij]

theorem getD_set_int (l : List Int) (i j : Nat) (v : Int) :
    (l.set i v).getD j 0 = if i = j ∧ i < l.length then v else l.getD j 0 := by
  simp only [List.getD_eq_getElem?_getD, List.getElem?_set]
  by_cases hij : i = j
  · subst hij
    by_cases hlt : i < l.length
    · simp [hlt]
    · simp [hlt, List.getElem?_eq_none (Nat.le_of_not_lt hlt)]
  · simp [hij]

theorem list_ext_getD_int (l1 l2 : List Int) (hlen : l1.length = l2.length)
    (h : ∀ j, j < l1.length → l1.getD j 0 = l2.getD j 0) : l1 = l2 := by
  apply List.ext_getElem hlen
  intro j h1 h2
  have := h j h1
  rwa [List.getD_eq_getElem?_getD, List.getD_eq_getElem?_getD,
    List.getElem?_eq_getElem h1, List.getElem?_eq_getElem h2] at this

theorem getD_le_of_residues (V : List Nat) (hV : Residues V) (j : Nat) :
    V.getD j 0 ≤ MERSBASE := by
  rw [List.getD_eq_getElem?_getD]
  by_cases hj : j < V.length
  · rw [List.getElem?_eq_getElem hj]
    exact hV _ (List.getElem_mem hj)
  · rw [List.getElem?_eq_none (by omega)]
    exact Nat.zero_le _

theorem residues_of_getD (V : List Nat) (h : ∀ j, j < V.length → V.getD j 0 ≤ MERSBASE) :
    Residues V := by
  intro v hv
  obtain ⟨j, hj, rfl⟩ := List.getElem_of_mem hv
  have := h j hj
  rwa [List.getD_eq_getElem?_getD, List.getElem?_eq_getElem hj] at this

theorem sum_eq_sum_range (l : List Nat) :
    l.sum = ∑ j in Finset.range l.length, l.getD j 0 := by
  induction l with
  | nil => simp
  | cons a t ih =>
    rw [List.sum_cons, List.length_cons, Finset.sum_range_succ', ih]
    simp [Nat.add_comm]

/-- The sum of `V[1..N)` as an indexed sum. -/
theorem tail_sum_eq (l : List Nat) :
    l.tail.sum = ∑ j in Finset.Ico 1 l.length, l.getD j 0 := by
  cases l with
  | nil => simp
  | cons a t =>
    rw [List.tail_cons, sum_eq_sum_range, List.length_cons, Finset.sum_Ico_eq_sum_range]
    simp [Nat.add_comm]

theorem list_ext_getD (l1 l2 : List Nat) (hlen : l1.length = l2.length)
    (h : ∀ j, j < l1.length → l1.getD j 0 = l2.getD j 0) : l1 = l2 := by
  apply List.ext_getElem hlen
  intro j h1 h2
  have := h j h1
  rwa [List.getD_eq_getElem?_getD, List.getD_eq_getElem?_getD,
    List.getElem?_eq_getElem h1, List.getElem?_eq_getElem h2] at this

/-! ## The loop of `iterate_raw_vec` -/

theorem iterInv_init (Y : List Nat) (S N : Nat) (hN : 1 ≤ N) (hlen : Y.length = N) :
    IterInv Y S N 1
      { Y := Y.set 0 (tempV_at Y S 0), tempP := 0, tempV := tempV_at Y S 0, sumtot := 0 } := by
  refine ⟨by simp [hlen], ?_, rfl, rfl, by simp [W128_eq]⟩
  intro j
  show (Y.set 0 (tempV_at Y S 0)).getD j 0 = _
  rw [getD_set]
  by_cases hj : j = 0
  · subst hj; simp [hlen]; omega
  · have h1 : ¬ (0 = j ∧ 0 < Y.length) := by omega
    have h2 : ¬ j < 1 := by omega
    rw [if_neg h1, if_neg h2]

theorem iterInv_step (Y : List Nat) (S N : Nat) (k : Nat) (t : IterSt) (hk1 : 1 ≤ k)
    (hk2 : k < N) (hI : IterInv Y S N k t) :
    IterInv Y S N (k + 1) (iterate_raw_vec_body k t) ∧
    (iterate_raw_vec_body k t).tempV = tempV_at Y S k := by
  obtain ⟨h1, h2, h3, h4, h5⟩ := hI
  obtain ⟨m, rfl⟩ : ∃ m, k = m + 1 := ⟨k - 1, by omega⟩
  have hYk : t.Y.getD (m + 1) 0 = Y.getD (m + 1) 0 := by
    rw [h2 (m + 1), if_neg (Nat.lt_irrefl _)]
  have hP : modadd t.tempP (t.Y.getD (m + 1) 0) = tempP_at Y (m + 1) := by
    rw [h3, hYk]; rfl
  have hV : modadd t.tempV (modadd t.tempP (t.Y.getD (m + 1) 0)) = tempV_at Y S (m + 1) := by
    rw [hP, h4]; rfl
  refine ⟨⟨?_, ?_, ?_, ?_, ?_⟩, hV⟩
  · show (t.Y.set (m + 1) _).length = N
    rw [List.length_set]; exact h1
  · intro j
    show (t.Y.set (m + 1) (modadd t.tempV (modadd t.tempP (t.Y.getD (m + 1) 0)))).getD j 0 = _
    rw [getD_set, hV, h2 j]
    by_cases hj : m + 1 = j
    · subst hj
      rw [if_pos ⟨rfl, by omega⟩, if_pos (by omega)]
    · have h1 : ¬ (m + 1 = j ∧ m + 1 < t.Y.length) := fun h => hj h.1
      rw [if_neg h1]
      by_cases hj2 : j < m + 1
      · rw [if_pos hj2, if_pos (by omega)]
      · rw [if_neg hj2, if_neg (by omega)]
  · exact hP
  · exact hV
  · show (t.sumtot + modadd t.tempV (modadd t.tempP (t.Y.getD (m + 1) 0))) % W128 = _
    rw [hV, h5, Finset.sum_Ico_succ_top (by omega : 1 ≤ m + 1), Nat.mod_add_mod]

theorem iterate_loop_spec (Y : List Nat) (S N : Nat) (hN : 1 ≤ N) (hlen : Y.length = N) :
    (forLoop 1 N iterate_raw_vec_body
      { Y := Y.set 0 (tempV_at Y S 0), tempP := 0, tempV := tempV_at Y S 0,
        sumtot := 0 }).Y.length = N ∧
    (∀ j, j < N → (forLoop 1 N iterate_raw_vec_body
      { Y := Y.set 0 (tempV_at Y S 0), tempP := 0, tempV := tempV_at Y S 0,
        sumtot := 0 }).Y.getD j 0 = tempV_at Y S j) ∧
    (forLoop 1 N iterate_raw_vec_body
      { Y := Y.set 0 (tempV_at Y S 0), tempP := 0, tempV := tempV_at Y S 0,
        sumtot := 0 }).sumtot = (∑ j in Finset.Ico 1 N, tempV_at Y S j) % W128 := by
  have key := forLoop_inv 1 N iterate_raw_vec_body (IterInv Y S N)
    { Y := Y.set 0 (tempV_at Y S 0), tempP := 0, tempV := tempV_at Y S 0, sumtot := 0 }
    hN (iterInv_init Y S N hN hlen)
    (fun k t hk1 hk2 hI => (iterInv_step Y S N k t hk1 hk2 hI).1)
  obtain ⟨h1, h2, _, _, h5⟩ := key
  refine ⟨h1, ?_, h5⟩
  intro j hj
  rw [h2 j, if_pos hj]

theorem tempP_at_le (Y : List Nat) (hY : Residues Y) : ∀ i, tempP_at Y i ≤ MERSBASE
  | 0 => Nat.zero_le _
  | i + 1 => modadd_le _ _ (tempP_at_le Y hY i) (getD_le_of_residues Y hY _)

theorem tempV_at_le (Y : List Nat) (S : Nat) (hY : Residues Y) (hS : S ≤ MERSBASE) :
    ∀ i, tempV_at Y S i ≤ MERSBASE
  | 0 => modadd_le _ _ (getD_le_of_residues Y hY _) hS
  | i + 1 => modadd_le _ _ (tempV_at_le Y S hY hS i) (tempP_at_le Y hY _)

theorem sum_tempV_le (Y : List Nat) (S : Nat) (hY : Residues Y) (hS : S ≤ MERSBASE)
    (N : Nat) : ∑ j in Finset.Ico 1 N, tempV_at Y S j ≤ (N - 1) * MERSBASE := by
  have h := Finset.sum_le_card_nsmul (Finset.Ico 1 N) (fun j => tempV_at Y S j) MERSBASE
    (fun j _ => tempV_at_le Y S hY hS j)
  simpa using h

/-! ## `iterate_raw_vec` as a function of the old vector -/

theorem special_term_le (P : Params) (hP : P.ok) (Y : List Nat) (hY : Residues Y) (i : Nat) :
    special_term P Y i ≤ MERSBASE := by
  unfold special_term
  cases hf : P.MOD_MULSPEC with
  | none => exact Nat.zero_le _
  | some f =>
    show (if i = 2 then f (Y.getD 1 0) else 0) ≤ MERSBASE
    split
    · exact hP.2 f hf _ (getD_le_of_residues Y hY 1)
    · exact Nat.zero_le _

theorem special_term_of_ne (P : Params) (Y : List Nat) (i : Nat) (hi : i ≠ 2) :
    special_term P Y i = 0 := by
  unfold special_term
  cases P.MOD_MULSPEC with
  | none => rfl
  | some f => simp [hi]

theorem Y_new_le (P : Params) (hP : P.ok) (Y : List Nat) (S : Nat) (hY : Residues Y)
    (hS : S ≤ MERSBASE) (j : Nat) : Y_new P Y S j ≤ MERSBASE := by
  unfold Y_new
  cases hf : P.MOD_MULSPEC with
  | none => exact tempV_at_le Y S hY hS j
  | some f =>
    show (if j = 2 then modadd (tempV_at Y S 2) (f (Y.getD 1 0)) else tempV_at Y S j) ≤ _
    split
    · exact modadd_le _ _ (tempV_at_le Y S hY hS 2)
        (hP.2 f hf _ (getD_le_of_residues Y hY 1))
    · exact tempV_at_le Y S hY hS j

theorem Y_new_congr (P : Params) (hP : P.ok) (Y : List Nat) (S : Nat) (hY : Residues Y)
    (hS : S ≤ MERSBASE) (j : Nat) :
    Y_new P Y S j % MERSBASE = (tempV_at Y S j + special_term P Y j) % MERSBASE := by
  unfold Y_new special_term
  cases hf : P.MOD_MULSPEC with
  | none => rfl
  | some f =>
    show (if j = 2 then modadd (tempV_at Y S 2) (f (Y.getD 1 0)) else tempV_at Y S j)
        % MERSBASE
      = (tempV_at Y S j + (if j = 2 then f (Y.getD 1 0) else 0)) % MERSBASE
    by_cases hj : j = 2
    · subst hj
      rw [if_pos rfl, if_pos rfl]
      exact modadd_congr _ _ (tempV_at_le Y S hY hS 2)
        (hP.2 f hf _ (getD_le_of_residues Y hY 1))
    · rw [if_neg hj, if_neg hj, Nat.add_zero]

/-- The vector and the checksum that `iterate_raw_vec` returns. -/
theorem iterate_raw_vec_spec (P : Params) (Y : List Nat) (S : Nat) (hN : 3 ≤ P.N)
    (hlen : Y.length = P.N) :
    (iterate_raw_vec P Y S).1.length = P.N ∧
    (∀ j, j < P.N → (iterate_raw_vec P Y S).1.getD j 0 = Y_new P Y S j) ∧
    (iterate_raw_vec P Y S).2
      = mod128 (((∑ j in Finset.Ico 1 P.N, tempV_at Y S j) % W128
          + special_term P Y 2) % W128) := by
  obtain ⟨h1, h2, h3⟩ := iterate_loop_spec Y S P.N (by omega) hlen
  unfold iterate_raw_vec Y_new special_term
  cases hf : P.MOD_MULSPEC with
  | none =>
    refine ⟨h1, h2, ?_⟩
    show mod128 _ = _
    have e : tempV_at Y S 0 = modadd (Y.getD 0 0) S := rfl
    rw [← e, h3]
    simp
  | some f =>
    have e : tempV_at Y S 0 = modadd (Y.getD 0 0) S := rfl
    simp only [← e]
    refine ⟨?_, ?_, ?_⟩
    · rw [List.length_set]; exact h1
    · intro j hj
      rw [getD_set, h1]
      by_cases hj2 : j = 2
      · subst hj2
        rw [if_pos ⟨rfl, by omega⟩, if_pos rfl, h2 2 hj]
      · have hne : ¬ (2 = j ∧ 2 < P.N) := fun h => hj2 h.1.symm
        rw [if_neg hne, if_neg hj2]
        exact h2 j hj
    · rw [h3]
      simp

theorem N_mul_MERSBASE_lt (N : Nat) (hN : N < 2 ^ 31) (x y : Nat)
    (hx : x ≤ (N - 1) * MERSBASE) (hy : y ≤ MERSBASE) :
    x + y < 2 ^ 92 := by
  have h1 : (N - 1) * MERSBASE ≤ (2 ^ 31 - 1) * MERSBASE :=
    Nat.mul_le_mul_right _ (by omega)
  have h2 : (2 ^ 31 - 1) * MERSBASE + MERSBASE < 2 ^ 92 := by decide
  omega

theorem mod128_small (s : Nat) (hs : s < 2 ^ 92) :
    mod128 s ≤ MERSBASE ∧ mod128 s % MERSBASE = s % MERSBASE := by
  have h : MERSBASE * MERSBASE + MERSBASE = 5316911983139663489309385231907684352 := by
    decide
  exact ⟨(mod128_le s (by omega)).2, (mod128_congr s (by omega)).2⟩

/-- The checksum returned by `iterate_raw_vec` is a residue congruent to the sum of
the new `Y[1..N)`, and the new vector consists of residues. -/
theorem iterate_raw_vec_valid (P : Params) (hP : P.ok) (Y : List Nat) (S : Nat)
    (hN : 3 ≤ P.N) (hlen : Y.length = P.N) (hY : Residues Y) (hS : S ≤ MERSBASE) :
    (iterate_raw_vec P Y S).1.length = P.N ∧
    Residues (iterate_raw_vec P Y S).1 ∧
    (iterate_raw_vec P Y S).2 ≤ MERSBASE ∧
    (iterate_raw_vec P Y S).2 % MERSBASE
      = (iterate_raw_vec P Y S).1.tail.sum % MERSBASE := by
  obtain ⟨h1, h2, h3⟩ := iterate_raw_vec_spec P Y S hN hlen
  have hsum := sum_tempV_le Y S hY hS P.N
  have hsp := special_term_le P hP Y hY 2
  have hlt := N_mul_MERSBASE_lt P.N hP.1 _ _ hsum hsp
  have hnowrap : ((∑ j in Finset.Ico 1 P.N, tempV_at Y S j) % W128
      + special_term P Y 2) % W128
      = (∑ j in Finset.Ico 1 P.N, tempV_at Y S j) + special_term P Y 2 := by
    rw [Nat.mod_add_mod, W128_eq]
    exact Nat.mod_eq_of_lt (by omega)
  rw [hnowrap] at h3
  obtain ⟨hle, hcongr⟩ := mod128_small _ hlt
  refine ⟨h1, ?_, ?_, ?_⟩
  · apply residues_of_getD
    intro j hj
    rw [h2 j (by omega)]
    exact Y_new_le P hP Y S hY hS j
  · rw [h3]; exact hle
  · rw [h3, hcongr, tail_sum_eq, h1]
    have e1 : ∑ j in Finset.Ico 1 P.N, (iterate_raw_vec P Y S).1.getD j 0
        = ∑ j in Finset.Ico 1 P.N, Y_new P Y S j :=
      Finset.sum_congr rfl (fun j hj => h2 j (Finset.mem_Ico.mp hj).2)
    rw [e1]
    have e2 : (∑ j in Finset.Ico 1 P.N, Y_new P Y S j) % MERSBASE
        = (∑ j in Finset.Ico 1 P.N, (tempV_at Y S j + special_term P Y j)) % MERSBASE := by
      rw [Finset.sum_nat_mod]
      conv_rhs => rw [Finset.sum_nat_mod]
      congr 1
      exact Finset.sum_congr rfl (fun j _ => Y_new_congr P hP Y S hY hS j)
    rw [e2, Finset.sum_add_distrib]
    have e3 : ∑ j in Finset.Ico 1 P.N, special_term P Y j = special_term P Y 2 := by
      rw [Finset.sum_eq_single 2]
      · intro j _ hj; exact special_term_of_ne P Y j hj
      · intro h; exact absurd (Finset.mem_Ico.mpr ⟨by omega, by omega⟩) h
    rw [e3]

/-! ## The recurrence in closed form -/

theorem sum_Icc_succ (f : Nat → Nat) (i : Nat) :
    ∑ k in Finset.Icc 1 (i + 1), f k = ∑ k in Finset.Icc 1 i, f k + f (i + 1) := by
  have e : Finset.Icc 1 (i + 1) = insert (i + 1) (Finset.Icc 1 i) := by
    ext k; simp only [Finset.mem_Icc, Finset.mem_insert]; omega
  rw [e, Finset.sum_insert (by simp), Nat.add_comm]

theorem tempP_at_congr (Y : List Nat) (hY : Residues Y) :
    ∀ i, tempP_at Y i % MERSBASE = (∑ k in Finset.Icc 1 i, Y.getD k 0) % MERSBASE
  | 0 => by simp [tempP_at]
  | i + 1 => by
    show modadd (tempP_at Y i) (Y.getD (i + 1) 0) % MERSBASE = _
    rw [modadd_congr _ _ (tempP_at_le Y hY i) (getD_le_of_residues Y hY _), sum_Icc_succ,
      Nat.add_mod, tempP_at_congr Y hY i, ← Nat.add_mod]

theorem weighted_sum_succ (Y : List Nat) (i : Nat) :
    ∑ k in Finset.Icc 1 (i + 1), (i + 1 - k + 1) * Y.getD k 0
      = ∑ k in Finset.Icc 1 i, (i - k + 1) * Y.getD k 0
        + ∑ k in Finset.Icc 1 (i + 1), Y.getD k 0 := by
  rw [sum_Icc_succ, sum_Icc_succ]
  have e : ∑ k in Finset.Icc 1 i, (i + 1 - k + 1) * Y.getD k 0
      = ∑ k in Finset.Icc 1 i, ((i - k + 1) * Y.getD k 0 + Y.getD k 0) := by
    apply Finset.sum_congr rfl
    intro k hk
    have hk2 : k ≤ i := (Finset.mem_Icc.mp hk).2
    have e2 : i + 1 - k + 1 = (i - k + 1) + 1 := by omega
    rw [e2, Nat.add_mul, Nat.one_mul]
  rw [e, Finset.sum_add_distrib]
  have e3 : i + 1 - (i + 1) + 1 = 1 := by omega
  rw [e3, Nat.one_mul]
  omega

theorem tempV_at_congr (Y : List Nat) (S : Nat) (hY : Residues Y) (hS : S ≤ MERSBASE) :
    ∀ i, tempV_at Y S i % MERSBASE
      = (Y.getD 0 0 + S + ∑ k in Finset.Icc 1 i, (i - k + 1) * Y.getD k 0) % MERSBASE
  | 0 => by
    show modadd (Y.getD 0 0) S % MERSBASE = _
    rw [modadd_congr _ _ (getD_le_of_residues Y hY _) hS]
    simp
  | i + 1 => by
    show modadd (tempV_at Y S i) (tempP_at Y (i + 1)) % MERSBASE = _
    rw [modadd_congr _ _ (tempV_at_le Y S hY hS i) (tempP_at_le Y hY _), Nat.add_mod,
      tempV_at_congr Y S hY hS i, tempP_at_congr Y hY (i + 1), ← Nat.add_mod,
      weighted_sum_succ, Nat.add_assoc (Y.getD 0 0 + S)]

theorem matA_sum (Y : List Nat) (N i : Nat) (hi : i < N) :
    ∑ k in Finset.range N, matA i k * Y.getD k 0
      = Y.getD 0 0 + ∑ k in Finset.Icc 1 (N - 1), Y.getD k 0
        + ∑ k in Finset.Icc 1 i, (i - k + 1) * Y.getD k 0 := by
  have e0 : Finset.range N = insert 0 (Finset.Icc 1 (N - 1)) := by
    ext k; simp only [Finset.mem_range, Finset.mem_insert, Finset.mem_Icc]; omega
  rw [e0, Finset.sum_insert (by simp)]
  have e1 : matA i 0 * Y.getD 0 0 = Y.getD 0 0 := by simp [matA]
  have e2 : ∑ k in Finset.Icc 1 (N - 1), matA i k * Y.getD k 0
      = ∑ k in Finset.Icc 1 (N - 1),
          (Y.getD k 0 + (if k ≤ i then (i - k + 1) * Y.getD k 0 else 0)) := by
    apply Finset.sum_congr rfl
    intro k hk
    have hk1 : 1 ≤ k := (Finset.mem_Icc.mp hk).1
    have hk0 : k ≠ 0 := by omega
    unfold matA
    rw [if_neg hk0]
    by_cases hki : k ≤ i
    · rw [if_pos hki, if_pos hki]
      have e : i - k + 2 = 1 + (i - k + 1) := by omega
      rw [e, Nat.add_mul, Nat.one_mul]
    · rw [if_neg hki, if_neg hki, Nat.one_mul, Nat.add_zero]
  have e3 : ∑ k in Finset.Icc 1 (N - 1), (if k ≤ i then (i - k + 1) * Y.getD k 0 else 0)
      = ∑ k in Finset.Icc 1 i, (i - k + 1) * Y.getD k 0 := by
    rw [← Finset.sum_filter]
    apply Finset.sum_congr _ (fun _ _ => rfl)
    ext k
    simp only [Finset.mem_filter, Finset.mem_Icc]
    omega
  rw [e1, e2, Finset.sum_add_distrib, e3, Nat.add_assoc]

/-! ## C4 -/

/-- C4: for a vector `Y` of `N >= 3` residues and a residue `S`, `iterate_raw_vec`
leaves `Y'[0]` congruent to `Y[0] + S` and, for `1 <= i < N`, `Y'[i]` congruent to
`Y[0] + S + sum_{k=1..i} (i-k+1)*Y[k]` modulo `MERSBASE`, plus, when `SPECIAL != 0`,
the term `MOD_MULSPEC(old Y[1])` at `i = 2` only (`special_term`). Hence, when `S` is
congruent to `sum_{k=1..N-1} Y[k]`, `Y'` is congruent to the matrix-vector product
`A*Y` with `A = matA` (plus the same `SPECIAL` term). `MOD_MULSPEC` is assumed to
map residues to residues (`Params.ok`). -/
theorem iterate_raw_vec_linear (P : Params) (hP : P.ok) (Y : List Nat) (S : Nat)
    (hN : 3 ≤ P.N) (hlen : Y.length = P.N) (hY : Residues Y) (hS : S ≤ MERSBASE) :
    (iterate_raw_vec P Y S).1.getD 0 0 % MERSBASE = (Y.getD 0 0 + S) % MERSBASE ∧
    (∀ i, 1 ≤ i → i < P.N →
      (iterate_raw_vec P Y S).1.getD i 0 % MERSBASE
        = (Y.getD 0 0 + S + ∑ k in Finset.Icc 1 i, (i - k + 1) * Y.getD k 0
            + special_term P Y i) % MERSBASE) ∧
    (S % MERSBASE = (∑ k in Finset.Icc 1 (P.N - 1), Y.getD k 0) % MERSBASE →
      ∀ i, i < P.N →
        (iterate_raw_vec P Y S).1.getD i 0 % MERSBASE
          = (∑ k in Finset.range P.N, matA i k * Y.getD k 0 + special_term P Y i)
              % MERSBASE) := by
  obtain ⟨_, h2, _⟩ := iterate_raw_vec_spec P Y S hN hlen
  have hall : ∀ i, i < P.N →
      (iterate_raw_vec P Y S).1.getD i 0 % MERSBASE
        = (Y.getD 0 0 + S + ∑ k in Finset.Icc 1 i, (i - k + 1) * Y.getD k 0
            + special_term P Y i) % MERSBASE := by
    intro i hi
    rw [h2 i hi, Y_new_congr P hP Y S hY hS i, Nat.add_mod, tempV_at_congr Y S hY hS i,
      ← Nat.add_mod]
  refine ⟨?_, fun i _ hi => hall i hi, ?_⟩
  · rw [hall 0 (by omega), special_term_of_ne P Y 0 (by omega)]
    simp
  · intro hSsum i hi
    rw [hall i hi, matA_sum Y P.N i hi]
    have e : (Y.getD 0 0 + S) % MERSBASE
        = (Y.getD 0 0 + ∑ k in Finset.Icc 1 (P.N - 1), Y.getD k 0) % MERSBASE := by
      rw [Nat.add_mod, hSsum, ← Nat.add_mod]
    rw [Nat.add_assoc (Y.getD 0 0 + S), Nat.add_mod, e, ← Nat.add_mod]
    congr 1
    omega

/-! ## Seeding routines -/

theorem zero_loop (N : Nat) (V0 : List Nat) (hlen : V0.length = N) :
    forLoop 0 N (fun i V => V.set i 0) V0 = List.replicate N 0 := by
  have key := forLoop_inv 0 N (fun i (V : List Nat) => V.set i 0)
    (fun k V => V.length = N ∧ ∀ j, j < k → V.getD j 0 = 0) V0 (Nat.zero_le _)
    ⟨hlen, fun j hj => absurd hj (Nat.not_lt_zero _)⟩ ?_
  · apply list_ext_getD _ _ (by simp [key.1])
    intro j hj
    rw [key.2 j (by omega)]
    simp [List.getD_eq_getElem?_getD]
  · intro k t _ hk ⟨h1, h2⟩
    refine ⟨by simp [h1], ?_⟩
    intro j hj
    show (t.set k 0).getD j 0 = 0
    rw [getD_set]
    by_cases hjk : k = j ∧ k < t.length
    · rw [if_pos hjk]
    · rw [if_neg hjk]
      exact h2 j (by omega)

theorem seed_vielbein_eq (P : Params) (X : rng_state_t) (index : Nat)
    (hlen : X.V.length = P.N) :
    seed_vielbein P X index
      = if index < P.N then
          Except.ok { V := (List.replicate P.N 0).set index 1,
                      sumtot := if index = 0 then 0 else 1, counter := P.N }
        else Except.error ExitCode.ARRAY_INDEX_OUT_OF_BOUNDS := by
  unfold seed_vielbein
  rw [zero_loop P.N X.V hlen]
  by_cases h : index < P.N
  · simp only [if_pos h]
    by_cases h0 : index = 0 <;> simp [h0]
  · simp only [if_neg h]

theorem getD_basis (N index i : Nat) :
    ((List.replicate N 0).set index 1).getD i 0 = if i = index ∧ index < N then 1 else 0 := by
  rw [getD_set, List.length_replicate]
  by_cases h : index = i ∧ index < N
  · rw [if_pos h, if_pos ⟨h.1.symm, h.2⟩]
  · rw [if_neg h, if_neg (fun h2 => h ⟨h2.1.symm, h2.2⟩)]
    simp [List.getD_eq_getElem?_getD]

theorem basis_tail_sum (N index : Nat) (h : index < N) :
    ((List.replicate N 0).set index 1).tail.sum = if index = 0 then 0 else 1 := by
  rw [tail_sum_eq, List.length_set, List.length_replicate]
  have e : ∑ j in Finset.Ico 1 N, ((List.replicate N 0).set index 1).getD j 0
      = ∑ j in Finset.Ico 1 N, if index = j then 1 else 0 := by
    apply Finset.sum_congr rfl
    intro j _
    rw [getD_basis]
    by_cases hj : j = index
    · subst hj; simp [h]
    · have hj2 : ¬ index = j := fun e => hj e.symm
      simp [hj, hj2]
  rw [e, Finset.sum_ite_eq]
  by_cases h0 : index = 0
  · subst h0; simp
  · have : index ∈ Finset.Ico 1 N := Finset.mem_Ico.mpr ⟨by omega, h⟩
    simp [this, h0]

theorem basis_residues (N index : Nat) : Residues ((List.replicate N 0).set index 1) := by
  apply residues_of_getD
  intro j _
  rw [getD_basis]
  split
  · decide
  · exact Nat.zero_le _

theorem and_MERSBASE_le (k : Nat) : k &&& MERSBASE ≤ MERSBASE := by
  rw [and_MERSBASE, MERSBASE_eq]
  omega

theorem getD_map_range (N : Nat) (f : Nat → Nat) (j : Nat) (hj : j < N) :
    ((List.range N).map f).getD j 0 = f j := by
  simp [List.getD_eq_getElem?_getD, hj]

theorem spbox_vector_residues (N seed : Nat) : Residues (spbox_vector N seed) := by
  intro v hv
  unfold spbox_vector at hv
  obtain ⟨i, _, rfl⟩ := List.mem_map.mp hv
  exact and_MERSBASE_le _

theorem residues_sum_le (V : List Nat) (hV : Residues V) :
    V.tail.sum ≤ (V.length - 1) * MERSBASE := by
  rw [tail_sum_eq]
  have h := Finset.sum_le_card_nsmul (Finset.Ico 1 V.length) (fun j => V.getD j 0) MERSBASE
    (fun j _ => getD_le_of_residues V hV j)
  simpa using h

theorem residues_sum_lt (N : Nat) (hN : N < 2 ^ 31) (V : List Nat) (hlen : V.length = N)
    (hV : Residues V) : V.tail.sum < 2 ^ 92 := by
  have h := residues_sum_le V hV
  rw [hlen] at h
  have := N_mul_MERSBASE_lt N hN _ 0 h (Nat.zero_le _)
  omega

theorem mod128_tail_sum (N : Nat) (hN : N < 2 ^ 31) (V : List Nat) (hlen : V.length = N)
    (hV : Residues V) :
    mod128 V.tail.sum ≤ MERSBASE ∧ mod128 V.tail.sum % MERSBASE = V.tail.sum % MERSBASE :=
  mod128_small _ (residues_sum_lt N hN V hlen hV)

theorem seed_spbox_loop (N seed : Nat) (V0 : List Nat) (hN : 1 ≤ N) (hlen : V0.length = N) :
    (forLoop 1 N seed_spbox_body (V0.set 0 (seed &&& MERSBASE), seed, 0)).1
        = spbox_vector N seed ∧
    (forLoop 1 N seed_spbox_body (V0.set 0 (seed &&& MERSBASE), seed, 0)).2.2
        = (∑ j in Finset.Ico 1 N, (lcg_at seed j &&& MERSBASE)) % W128 := by
  have key := forLoop_inv 1 N seed_spbox_body
    (fun k t => t.1.length = N ∧
      (∀ j, j < k → t.1.getD j 0 = lcg_at seed j &&& MERSBASE) ∧
      t.2.1 = lcg_at seed (k - 1) ∧
      t.2.2 = (∑ j in Finset.Ico 1 k, (lcg_at seed j &&& MERSBASE)) % W128)
    (V0.set 0 (seed &&& MERSBASE), seed, 0) hN ?_ ?_
  · obtain ⟨h1, h2, _, h4⟩ := key
    refine ⟨?_, h4⟩
    apply list_ext_getD _ _ (by simp [h1, spbox_vector])
    intro j hj
    rw [h2 j (by omega)]
    unfold spbox_vector
    rw [getD_map_range N _ j (by omega)]
  · refine ⟨by simp [hlen], ?_, rfl, by simp [W128_eq]⟩
    intro j hj
    have hj0 : j = 0 := by omega
    subst hj0
    show (V0.set 0 (seed &&& MERSBASE)).getD 0 0 = _
    rw [getD_set, if_pos ⟨rfl, by omega⟩]
    rfl
  · intro k t hk1 hk2 ⟨h1, h2, h3, h4⟩
    obtain ⟨m, rfl⟩ : ∃ m, k = m + 1 := ⟨k - 1, by omega⟩
    have hl : ((((t.2.1 * MULT64) % W64) <<< 32) % W64) ^^^ (((t.2.1 * MULT64) % W64) >>> 32)
        = lcg_at seed (m + 1) := by
      rw [h3]; rfl
    have hget : (t.1.set (m + 1) (lcg_at seed (m + 1) &&& MERSBASE)).getD (m + 1) 0
        = lcg_at seed (m + 1) &&& MERSBASE := by
      rw [getD_set, if_pos ⟨rfl, by omega⟩]
    refine ⟨?_, ?_, ?_, ?_⟩
    · show (t.1.set (m + 1) _).length = N
      rw [List.length_set]; exact h1
    · intro j hj
      show (t.1.set (m + 1) ((((((t.2.1 * MULT64) % W64) <<< 32) % W64)
        ^^^ (((t.2.1 * MULT64) % W64) >>> 32)) &&& MERSBASE)).getD j 0 = _
      rw [hl]
      by_cases hjm : j = m + 1
      · subst hjm; exact hget
      · rw [getD_set, if_neg (fun h => hjm h.1.symm)]
        exact h2 j (by omega)
    · exact hl
    · show (t.2.2 + (t.1.set (m + 1) ((((((t.2.1 * MULT64) % W64) <<< 32) % W64)
        ^^^ (((t.2.1 * MULT64) % W64) >>> 32)) &&& MERSBASE)).getD (m + 1) 0) % W128 = _
      rw [hl, hget, h4, Finset.sum_Ico_succ_top (by omega : 1 ≤ m + 1), Nat.mod_add_mod]

theorem spbox_vector_tail_sum (N seed : Nat) :
    (spbox_vector N seed).tail.sum = ∑ j in Finset.Ico 1 N, (lcg_at seed j &&& MERSBASE) := by
  rw [tail_sum_eq]
  have hl : (spbox_vector N seed).length = N := by simp [spbox_vector]
  rw [hl]
  apply Finset.sum_congr rfl
  intro j hj
  unfold spbox_vector
  rw [getD_map_range N _ j (Finset.mem_Ico.mp hj).2]

/-- The state that `seed_spbox` leaves. -/
theorem seed_spbox_eq (P : Params) (X : rng_state_t) (seed : Nat) (hN : 1 ≤ P.N)
    (hN2 : P.N < 2 ^ 31) (hlen : X.V.length = P.N) :
    seed_spbox P X seed
      = if seed = 0 then Except.error ExitCode.SEED_WAS_ZERO
        else Except.ok { V := spbox_vector P.N seed,
                         sumtot := mod128 (spbox_vector P.N seed).tail.sum,
                         counter := P.N } := by
  unfold seed_spbox
  by_cases h : seed = 0
  · simp only [if_pos h]
  · simp only [if_neg h]
    obtain ⟨h1, h2⟩ := seed_spbox_loop P.N seed X.V hN hlen
    rw [h1, h2, ← spbox_vector_tail_sum, W128_eq]
    have hlt := residues_sum_lt P.N hN2 (spbox_vector P.N seed) (by simp [spbox_vector])
      (spbox_vector_residues P.N seed)
    rw [Nat.mod_eq_of_lt (by omega)]

theorem map_range_getD (N : Nat) (Y : List Nat) (hlen : Y.length = N) :
    (List.range N).map (fun j => Y.getD j 0) = Y := by
  apply list_ext_getD _ _ (by simp [hlen])
  intro j hj
  rw [getD_map_range N _ j (by simpa using hj)]

theorem iterate_step_valid (P : Params) (hP : P.ok) (hN : 3 ≤ P.N) (X : rng_state_t)
    (hX : Valid P X) : Valid P (iterate_step P X) ∧ ChecksumInv (iterate_step P X) := by
  obtain ⟨h1, h2, h3, h4⟩ := hX
  obtain ⟨g1, g2, g3, g4⟩ := iterate_raw_vec_valid P hP X.V X.sumtot hN h1 h2 h3
  exact ⟨⟨g1, g2, g3, h4⟩, g4⟩

theorem iterate_loop_valid (P : Params) (hP : P.ok) (hN : 3 ≤ P.N) (n : Nat)
    (X : rng_state_t) (hX : Valid P X) :
    Valid P (forLoop 0 n (fun _ X => iterate_step P X) X) ∧
    (ChecksumInv X → ChecksumInv (forLoop 0 n (fun _ X => iterate_step P X) X)) ∧
    (forLoop 0 n (fun _ X => iterate_step P X) X).counter = X.counter :=
  forLoop_inv 0 n (fun _ X => iterate_step P X)
    (fun _ t => Valid P t ∧ (ChecksumInv X → ChecksumInv t) ∧ t.counter = X.counter) X
    (Nat.zero_le _) ⟨hX, id, rfl⟩
    (fun _ t _ _ ⟨h1, _, h3⟩ =>
      ⟨(iterate_step_valid P hP hN t h1).1, fun _ => (iterate_step_valid P hP hN t h1).2, h3⟩)

theorem iterate_valid (P : Params) (hP : P.ok) (hN : 3 ≤ P.N) (X : rng_state_t)
    (hX : Valid P X) :
    Valid P (iterate P X) ∧ (ChecksumInv X → ChecksumInv (iterate P X)) ∧
    (iterate P X).counter = X.counter :=
  iterate_loop_valid P hP hN (niter P) X hX

theorem get_next_valid (P : Params) (hP : P.ok) (hN : 3 ≤ P.N) (X : rng_state_t)
    (hX : Valid P X) :
    Valid P (get_next P X).2 ∧ (ChecksumInv X → ChecksumInv (get_next P X).2) := by
  unfold get_next
  by_cases hc : X.counter < P.N
  · simp only [if_pos hc]
    exact ⟨⟨hX.1, hX.2.1, hX.2.2.1, hc⟩, id⟩
  · simp only [if_neg hc]
    obtain ⟨⟨g1, g2, g3, _⟩, g5, _⟩ := iterate_loop_valid P hP hN (niter P) X hX
    exact ⟨⟨g1, g2, g3, by show 2 ≤ P.N; omega⟩, g5⟩

/-- The state that `iterate_and_fill_array` leaves is the one of `iterate_step`. -/
theorem iterate_and_fill_array_fst (P : Params) (X : rng_state_t) (array : List Int)
    (off : Nat) : (iterate_and_fill_array P X array off).1 = iterate_step P X := by
  have hmap := forLoop_map FillSt.toIterSt
    (iterate_and_fill_array_body off) iterate_raw_vec_body (fun _ _ => rfl) 1 P.N
    { Y := X.V.set 0 (modadd (X.V.getD 0 0) X.sumtot), tempP := 0,
      tempV := modadd (X.V.getD 0 0) X.sumtot, sumtot := 0, array := array }
  have hY := congrArg IterSt.Y hmap
  have hS := congrArg IterSt.sumtot hmap
  simp only [FillSt.toIterSt] at hY hS
  unfold iterate_and_fill_array iterate_step iterate_raw_vec
  cases P.MOD_MULSPEC with
  | none => simp only [hY, hS]
  | some f => simp only [hY, hS]

/-- The state that `fill_array` leaves: one `iterate` per block of `N-1` values, one
more for a final partial block, and the counter set to the remainder or to `N`. -/
theorem fill_array_state (P : Params) (X : rng_state_t) (n : Nat) (array : List Int) :
    (fill_array P X n array).1
      = if n % (P.N - 1) ≠ 0 then
          { iterate P (forLoop 0 (n / (P.N - 1)) (fun _ X => iterate P X) X) with
            counter := n % (P.N - 1) }
        else
          { forLoop 0 (n / (P.N - 1)) (fun _ X => iterate P X) X with counter := P.N } := by
  have hinner : ∀ (i : Nat) (t : rng_state_t × List Int),
      (forLoop 0 (niter P)
        (fun _ s => iterate_and_fill_array P s.1 s.2 (i * (P.N - 1))) t).1
        = iterate P t.1 := by
    intro i t
    exact forLoop_map Prod.fst
      (fun _ s => iterate_and_fill_array P s.1 s.2 (i * (P.N - 1)))
      (fun _ X => iterate_step P X)
      (fun _ s => iterate_and_fill_array_fst P s.1 s.2 _) 0 (niter P) t
  have houter := forLoop_map Prod.fst
    (fun i s => forLoop 0 (niter P)
      (fun _ s => iterate_and_fill_array P s.1 s.2 (i * (P.N - 1))) s)
    (fun _ X => iterate P X) hinner 0 (n / (P.N - 1)) (X, array)
  unfold fill_array
  by_cases hrem : n % (P.N - 1) ≠ 0
  · simp only [if_pos hrem]
    rw [houter]
  · simp only [if_neg hrem]
    rw [houter]

theorem fill_array_valid (P : Params) (hP : P.ok) (hN : 3 ≤ P.N) (X : rng_state_t)
    (n : Nat) (array : List Int) (hX : Valid P X) :
    Valid P (fill_array P X n array).1 ∧
    (ChecksumInv X → ChecksumInv (fill_array P X n array).1) := by
  have hblocks := forLoop_inv 0 (n / (P.N - 1)) (fun _ X => iterate P X)
    (fun _ t => Valid P t ∧ (ChecksumInv X → ChecksumInv t)) X (Nat.zero_le _) ⟨hX, id⟩
    (fun _ t _ _ ⟨h1, h2⟩ =>
      ⟨(iterate_valid P hP hN t h1).1, fun h => (iterate_valid P hP hN t h1).2.1 (h2 h)⟩)
  rw [fill_array_state]
  by_cases hrem : n % (P.N - 1) ≠ 0
  · rw [if_pos hrem]
    obtain ⟨⟨g1, g2, g3, _⟩, g5, _⟩ := iterate_valid P hP hN _ hblocks.1
    have hlt : n % (P.N - 1) < P.N - 1 := Nat.mod_lt _ (by omega)
    exact ⟨⟨g1, g2, g3, by show n % (P.N - 1) ≤ P.N; omega⟩, fun h => g5 (hblocks.2 h)⟩
  · rw [if_neg hrem]
    obtain ⟨⟨g1, g2, g3, _⟩, g5⟩ := hblocks
    exact ⟨⟨g1, g2, g3, Nat.le_refl _⟩, g5⟩

theorem fill_array_counter (P : Params) (X : rng_state_t) (n : Nat) (array : List Int) :
    (fill_array P X n array).1.counter
      = if n % (P.N - 1) ≠ 0 then n % (P.N - 1) else P.N := by
  rw [fill_array_state]
  by_cases hrem : n % (P.N - 1) ≠ 0
  · rw [if_pos hrem, if_pos hrem]
  · rw [if_neg hrem, if_neg hrem]

theorem seed_vielbein_valid (P : Params) (X0 : rng_state_t) (index : Nat)
    (hlen : X0.V.length = P.N) (hindex : index < P.N) :
    ∃ X, seed_vielbein P X0 index = Except.ok X ∧ Valid P X ∧ ChecksumInv X := by
  rw [seed_vielbein_eq P X0 index hlen, if_pos hindex]
  refine ⟨_, rfl, ⟨by simp, basis_residues _ _, ?_, Nat.le_refl _⟩, ?_⟩
  · show (if index = 0 then 0 else 1) ≤ MERSBASE
    split <;> decide
  · show (if index = 0 then 0 else 1) % MERSBASE = _
    rw [basis_tail_sum P.N index hindex]

theorem seed_spbox_valid (P : Params) (hP : P.ok) (hN : 3 ≤ P.N) (X0 : rng_state_t)
    (seed : Nat) (hlen : X0.V.length = P.N) (hseed : seed ≠ 0) :
    ∃ X, seed_spbox P X0 seed = Except.ok X ∧ Valid P X ∧ ChecksumInv X := by
  rw [seed_spbox_eq P X0 seed (by omega) hP.1 hlen, if_neg hseed]
  obtain ⟨h1, h2⟩ := mod128_tail_sum P.N hP.1 (spbox_vector P.N seed)
    (by simp [spbox_vector]) (spbox_vector_residues P.N seed)
  exact ⟨_, rfl, ⟨by simp [spbox_vector], spbox_vector_residues _ _, h1, Nat.le_refl _⟩, h2⟩

theorem copy_and_sum_spec (N : Nat) (src dst : List Nat) (hs : src.length = N)
    (hd : dst.length = N) :
    (copy_and_sum N src (dst, 0)).1 = src ∧
    (copy_and_sum N src (dst, 0)).2 = src.sum % W128 := by
  have key := forLoop_inv 0 N
    (fun i (s : List Nat × Nat) => (s.1.set i (src.getD i 0), (s.2 + src.getD i 0) % W128))
    (fun k t => t.1.length = N ∧ (∀ j, j < k → t.1.getD j 0 = src.getD j 0) ∧
      t.2 = (∑ j in Finset.range k, src.getD j 0) % W128)
    (dst, 0) (Nat.zero_le _)
    ⟨hd, fun j hj => absurd hj (Nat.not_lt_zero _), by simp [W128_eq]⟩ ?_
  · obtain ⟨h1, h2, h3⟩ := key
    refine ⟨?_, ?_⟩
    · apply list_ext_getD _ _ (by rw [hs]; exact h1)
      intro j hj
      exact h2 j (by have := h1; unfold copy_and_sum at hj; omega)
    · rw [sum_eq_sum_range, hs]; exact h3
  · intro k t _ hk ⟨h1, h2, h3⟩
    refine ⟨?_, ?_, ?_⟩
    · show (t.1.set k _).length = N
      rw [List.length_set]; exact h1
    · intro j hj
      show (t.1.set k (src.getD k 0)).getD j 0 = _
      rw [getD_set]
      by_cases hjk : k = j ∧ k < t.1.length
      · rw [if_pos hjk, hjk.1]
      · rw [if_neg hjk]
        exact h2 j (by omega)
    · show (t.2 + src.getD k 0) % W128 = _
      rw [h3, Finset.sum_range_succ, Nat.mod_add_mod]

theorem sum_eq_head_add_tail (l : List Nat) : l.sum = l.getD 0 0 + l.tail.sum := by
  cases l with
  | nil => rfl
  | cons a t => simp

theorem residues_head_tail_lt (N : Nat) (hN : N < 2 ^ 31) (V : List Nat)
    (hlen : V.length = N) (hV : Residues V) :
    V.getD 0 0 + V.tail.sum < 2 ^ 92 := by
  have h := residues_sum_le V hV
  rw [hlen] at h
  have := N_mul_MERSBASE_lt N hN _ _ h (getD_le_of_residues V hV 0)
  omega

/-- The checksum `mod128(sumtot - V[0])` computed from the full sum of a vector of
residues is `mod128` of the sum of `V[1..N)`. -/
theorem sub128_sum (N : Nat) (hN : N < 2 ^ 31) (V : List Nat) (hlen : V.length = N)
    (hV : Residues V) : sub128 (V.sum % W128) (V.getD 0 0) = V.tail.sum := by
  have h := residues_head_tail_lt N hN V hlen hV
  have e := sum_eq_head_add_tail V
  unfold sub128
  rw [W128_eq, e]
  omega

theorem FUSEDMODMULVEC_spec (N coeff : Nat) (Y cum : List Nat) (hc : cum.length = N) :
    (FUSEDMODMULVEC N coeff Y cum).length = N ∧
    ∀ j, j < N → (FUSEDMODMULVEC N coeff Y cum).getD j 0
      = fmodmulM61 (cum.getD j 0) coeff (Y.getD j 0) := by
  have key := forLoop_inv 0 N
    (fun i (c : List Nat) => c.set i (fmodmulM61 (c.getD i 0) coeff (Y.getD i 0)))
    (fun k t => t.length = N ∧
      ∀ j, t.getD j 0 = if j < k then fmodmulM61 (cum.getD j 0) coeff (Y.getD j 0)
        else cum.getD j 0)
    cum (Nat.zero_le _) ⟨hc, fun j => by simp⟩ ?_
  · obtain ⟨k1, k2⟩ := key
    refine ⟨k1, fun j hj => ?_⟩
    unfold FUSEDMODMULVEC
    rw [k2 j, if_pos hj]
  · intro k t _ hk ⟨h1, h2⟩
    refine ⟨?_, ?_⟩
    · show (t.set k _).length = N
      rw [List.length_set]; exact h1
    · intro j
      show (t.set k (fmodmulM61 (t.getD k 0) coeff (Y.getD k 0))).getD j 0 = _
      rw [getD_set]
      by_cases hjk : k = j
      · subst hjk
        rw [if_pos ⟨rfl, by omega⟩, if_pos (by omega), h2 k, if_neg (Nat.lt_irrefl _)]
      · rw [if_neg (fun h => hjk h.1), h2 j]
        by_cases hj2 : j < k
        · rw [if_pos hj2, if_pos (by omega)]
        · rw [if_neg hj2, if_neg (by omega)]

theorem FUSEDMODMULVEC_residues (N coeff : Nat) (Y cum : List Nat) (hc : cum.length = N)
    (hco : coeff ≤ MERSBASE) (hY : Residues Y) (hcum : Residues cum) :
    Residues (FUSEDMODMULVEC N coeff Y cum) := by
  obtain ⟨h1, h2⟩ := FUSEDMODMULVEC_spec N coeff Y cum hc
  apply residues_of_getD
  intro j hj
  rw [h2 j (by omega)]
  exact fmodmulM61_le _ _ _ (getD_le_of_residues cum hcum j) hco (getD_le_of_residues Y hY j)

theorem replicate_zero_residues (N : Nat) : Residues (List.replicate N 0) := by
  intro v hv
  rw [List.eq_of_mem_replicate hv]
  exact Nat.zero_le _

theorem apply_bigskip_row_inv (P : Params) (hP : P.ok) (hT : TableOk P) (hN : 3 ≤ P.N)
    (row : Nat) (s : SkipSt) (hs : SkipInv P s) : SkipInv P (apply_bigskip_row P row s) := by
  obtain ⟨h1, h2, h3, h4⟩ := hs
  have hS : s.sumtot ≤ MERSBASE := by
    rw [h4]; exact (mod128_tail_sum P.N hP.1 s.Y h1 h3).1
  have key := forLoop_inv 0 P.N
    (fun j (s : SkipSt) =>
      ({ Y := (iterate_raw_vec P s.Y s.sumtot).1,
         cum := FUSEDMODMULVEC P.N (P.skipMat row j) s.Y s.cum,
         sumtot := (iterate_raw_vec P s.Y s.sumtot).2 } : SkipSt))
    (fun _ t => t.Y.length = P.N ∧ Residues t.Y ∧ t.sumtot ≤ MERSBASE ∧
      t.cum.length = P.N ∧ Residues t.cum)
    { s with cum := forLoop 0 P.N (fun i cum => cum.set i 0) s.cum } (Nat.zero_le _)
    ⟨h1, h3, hS, by show (forLoop 0 P.N _ s.cum).length = P.N; rw [zero_loop P.N s.cum h2]; simp,
      by show Residues (forLoop 0 P.N _ s.cum); rw [zero_loop P.N s.cum h2];
         exact replicate_zero_residues _⟩
    (fun j t _ _ ⟨g1, g2, g3, g4, g5⟩ => by
      obtain ⟨k1, k2, k3, _⟩ := iterate_raw_vec_valid P hP t.Y t.sumtot hN g1 g2 g3
      exact ⟨k1, k2, k3, (FUSEDMODMULVEC_spec P.N _ t.Y t.cum g4).1,
        FUSEDMODMULVEC_residues P.N _ t.Y t.cum g4 (hT row j) g2 g5⟩)
  obtain ⟨g1, _, _, g4, g5⟩ := key
  obtain ⟨c1, c2⟩ := copy_and_sum_spec P.N _ _ g4 g1
  unfold apply_bigskip_row
  simp only []
  refine ⟨?_, g4, ?_, ?_⟩
  · rw [c1]; exact g4
  · rw [c1]; exact g5
  · rw [c1, c2, sub128_sum P.N hP.1 _ g4 g5]

theorem apply_bigskip_bits_inv (P : Params) (hP : P.ok) (hT : TableOk P) (hN : 3 ≤ P.N)
    (IDindex : Nat) :
    ∀ (id r : Nat) (s : SkipSt), SkipInv P s →
      SkipInv P (apply_bigskip_bits P IDindex id r s) := by
  intro id
  induction id using Nat.strong_induction_on with
  | _ id ih =>
    intro r s hs
    rw [apply_bigskip_bits]
    by_cases h0 : id = 0
    · simp only [dif_pos h0]; exact hs
    · simp only [dif_neg h0]
      apply ih (id >>> 1) (by rw [Nat.shiftRight_eq_div_pow]; omega)
      by_cases hb : id &&& 1 ≠ 0
      · rw [if_pos hb]
        exact apply_bigskip_row_inv P hP hT hN _ s hs
      · rw [if_neg hb]; exact hs

/-- The vector that `apply_bigskip` leaves has `N` residues and the returned checksum
is `mod128` of the sum of `Vout[1..N)`. -/
theorem apply_bigskip_valid (P : Params) (hP : P.ok) (hT : TableOk P) (hN : 3 ≤ P.N)
    (Vout Vin : List Nat) (c m r st : Nat) (hVout : Vout.length = P.N)
    (hVin : Vin.length = P.N) (hR : Residues Vin) :
    (apply_bigskip P Vout Vin c m r st).1.length = P.N ∧
    Residues (apply_bigskip P Vout Vin c m r st).1 ∧
    (apply_bigskip P Vout Vin c m r st).2
      = mod128 (apply_bigskip P Vout Vin c m r st).1.tail.sum := by
  obtain ⟨c1, c2⟩ := copy_and_sum_spec P.N Vin (List.replicate P.N 0) hVin (by simp)
  have h0 : SkipInv P
      { Y := (copy_and_sum P.N Vin (List.replicate P.N 0, 0)).1,
        cum := List.replicate P.N 0,
        sumtot := mod128 (sub128 (copy_and_sum P.N Vin (List.replicate P.N 0, 0)).2
          (Vin.getD 0 0)) } := by
    refine ⟨?_, by simp, ?_, ?_⟩
    · show (copy_and_sum P.N Vin (List.replicate P.N 0, 0)).1.length = P.N
      rw [c1]; exact hVin
    · show Residues (copy_and_sum P.N Vin (List.replicate P.N 0, 0)).1
      rw [c1]; exact hR
    · show mod128 _ = mod128 (copy_and_sum P.N Vin (List.replicate P.N 0, 0)).1.tail.sum
      rw [c1, c2, sub128_sum P.N hP.1 Vin hVin hR]
  have key := forLoop_inv 0 4
    (fun IDindex s => apply_bigskip_bits P IDindex ([st, r, m, c].getD IDindex 0) 0 s)
    (fun _ t => SkipInv P t) _ (by omega) h0
    (fun k t _ _ ht => apply_bigskip_bits_inv P hP hT hN k _ 0 t ht)
  obtain ⟨g1, _, g3, g4⟩ := key
  obtain ⟨d1, d2⟩ := copy_and_sum_spec P.N _ Vout g1 hVout
  unfold apply_bigskip
  simp only []
  refine ⟨?_, ?_, ?_⟩
  · rw [d1]; exact g1
  · rw [d1]; exact g3
  · rw [d1, d2, sub128_sum P.N hP.1 _ g1 g3]

theorem branch_inplace_valid (P : Params) (hP : P.ok) (hT : TableOk P) (hN : 3 ≤ P.N)
    (X : rng_state_t) (IDvec : List Nat) (hX : Valid P X) :
    Valid P (branch_inplace P X IDvec) ∧ ChecksumInv (branch_inplace P X IDvec) := by
  obtain ⟨h1, h2, _, h4⟩ := hX
  obtain ⟨g1, g2, g3⟩ := apply_bigskip_valid P hP hT hN X.V X.V (IDvec.getD 3 0)
    (IDvec.getD 2 0) (IDvec.getD 1 0) (IDvec.getD 0 0) h1 h1 h2
  obtain ⟨k1, k2⟩ := mod128_tail_sum P.N hP.1 _ g1 g2
  unfold branch_inplace ChecksumInv
  simp only []
  refine ⟨⟨g1, g2, ?_, h4⟩, ?_⟩
  · rw [g3]; exact k1
  · rw [g3]; exact k2

/-! ## The instances are well formed -/

theorem exampleParams_ok : exampleParams.ok :=
  ⟨by decide, fun f hf k _ => by
    have e : f = fun k => MERSBASE - k := by cases hf; rfl
    subst e
    exact Nat.sub_le _ _⟩

theorem exampleParams_table : TableOk exampleParams := fun _ _ => by
  show (1 : Nat) ≤ MERSBASE
  decide

theorem smallParams_ok : smallParams.ok :=
  ⟨by decide, fun f hf => by cases hf⟩

theorem smallParams_table : TableOk smallParams := fun _ _ => by
  show (1 : Nat) ≤ MERSBASE
  decide

theorem exampleState_valid : Valid exampleParams exampleState :=
  ⟨by decide, by decide, by decide, by decide⟩

theorem forLoopAux_iterate {σ : Type} (f : σ → σ) :
    ∀ (n i : Nat) (s : σ), forLoopAux (fun _ s => f s) n i s = f^[n] s
  | 0, _, _ => rfl
  | n + 1, i, s => by
    show forLoopAux (fun _ s => f s) n (i + 1) (f s) = f^[n + 1] s
    rw [forLoopAux_iterate f n (i + 1) (f s), Function.iterate_succ_apply]

theorem forLoop_iterate {σ : Type} (f : σ → σ) (n : Nat) (s : σ) :
    forLoop 0 n (fun _ s => f s) s = f^[n] s :=
  forLoopAux_iterate f n 0 s

/-! ## Sequential extraction -/

theorem iterate_step_counter (P : Params) (X : rng_state_t) (c : Nat) :
    iterate_step P { X with counter := c } = { iterate_step P X with counter := c } := rfl

theorem iterate_eq (P : Params) (X : rng_state_t) :
    iterate P X = (iterate_step P)^[niter P] X :=
  forLoop_iterate (iterate_step P) (niter P) X

theorem iterate_step_iter_counter (P : Params) (c : Nat) :
    ∀ (k : Nat) (X : rng_state_t),
      (iterate_step P)^[k] { X with counter := c }
        = { (iterate_step P)^[k] X with counter := c }
  | 0, _ => rfl
  | k + 1, X => by
    rw [Function.iterate_succ_apply, Function.iterate_succ_apply, iterate_step_counter,
      iterate_step_iter_counter P c k]

theorem iterate_counter (P : Params) (X : rng_state_t) (c : Nat) :
    iterate P { X with counter := c } = { iterate P X with counter := c } := by
  rw [iterate_eq, iterate_eq, iterate_step_iter_counter]

theorem iterate_iter_counter (P : Params) (c : Nat) :
    ∀ (k : Nat) (X : rng_state_t),
      (iterate P)^[k] { X with counter := c } = { (iterate P)^[k] X with counter := c }
  | 0, _ => rfl
  | k + 1, X => by
    rw [Function.iterate_succ_apply, Function.iterate_succ_apply, iterate_counter,
      iterate_iter_counter P c k]

theorem get_next_float_lt (P : Params) (X : rng_state_t) (h : X.counter < P.N) :
    get_next_float P X
      = (int64_of (X.V.getD X.counter 0), { X with counter := X.counter + 1 }) := by
  unfold get_next_float get_next
  simp only [if_pos h]

theorem get_next_float_ge (P : Params) (X : rng_state_t) (h : ¬ X.counter < P.N) :
    get_next_float P X
      = (int64_of ((iterate P X).V.getD 1 0), { iterate P X with counter := 2 }) := by
  unfold get_next_float get_next
  simp only [if_neg h]
  rfl

/-- The outputs of `n` sequential `get_next_float` calls and the state they leave, from
a state whose counter is in `[2, N]`. -/
theorem get_next_float_seq_spec (P : Params) (hN : 2 ≤ P.N) :
    ∀ (n : Nat) (Z : rng_state_t), 2 ≤ Z.counter → Z.counter ≤ P.N →
      get_next_float_seq P n Z
        = ((List.range n).map (fun j =>
              int64_of ((block_vector P Z ((Z.counter - 1 + j) / (P.N - 1))).getD
                ((Z.counter - 1 + j) % (P.N - 1) + 1) 0)),
            { (iterate P)^[(Z.counter - 2 + n) / (P.N - 1)] Z with
              counter := (Z.counter - 2 + n) % (P.N - 1) + 2 })
  | 0, Z, h2, hle => by
    have e1 : (Z.counter - 2 + 0) / (P.N - 1) = 0 := Nat.div_eq_of_lt (by omega)
    have e2 : (Z.counter - 2 + 0) % (P.N - 1) + 2 = Z.counter := by
      rw [Nat.mod_eq_of_lt (by omega)]; omega
    rw [e1, e2]
    rfl
  | n + 1, Z, h2, hle => by
    show ((get_next_float P Z).1 :: (get_next_float_seq P n (get_next_float P Z).2).1,
      (get_next_float_seq P n (get_next_float P Z).2).2) = _
    rw [List.range_succ_eq_map, List.map_cons, List.map_map]
    by_cases hc : Z.counter < P.N
    · rw [get_next_float_lt P Z hc]
      rw [get_next_float_seq_spec P hN n { Z with counter := Z.counter + 1 }
        (by show 2 ≤ Z.counter + 1; omega) (by show Z.counter + 1 ≤ P.N; omega)]
      have e0 : (Z.counter - 1 + 0) / (P.N - 1) = 0 := Nat.div_eq_of_lt (by omega)
      have e1 : (Z.counter - 1 + 0) % (P.N - 1) + 1 = Z.counter := by
        rw [Nat.mod_eq_of_lt (by omega)]; omega
      have e2 : Z.counter + 1 - 2 + n = Z.counter - 2 + (n + 1) := by omega
      simp only [e0, e1, e2, block_vector, iterate_iter_counter, Function.iterate_zero, id_eq]
      refine congrArg₂ Prod.mk (congrArg (List.cons _) (List.map_congr_left ?_)) rfl
      intro j _
      have e3 : Z.counter + 1 - 1 + j = Z.counter - 1 + (j + 1) := by omega
      simp only [Function.comp, e3]
    · rw [get_next_float_ge P Z hc]
      have hcN : Z.counter = P.N := by omega
      rw [get_next_float_seq_spec P hN n { iterate P Z with counter := 2 }
        (Nat.le_refl _) (by show 2 ≤ P.N; exact hN)]
      have e0 : (Z.counter - 1 + 0) / (P.N - 1) = 1 := by
        rw [hcN, Nat.add_zero]; exact Nat.div_self (by omega)
      have e1 : (Z.counter - 1 + 0) % (P.N - 1) + 1 = 1 := by
        rw [hcN]; simp
      have e2 : (Z.counter - 2 + (n + 1)) = (2 - 2 + n) + (P.N - 1) := by omega
      have e4 : (2 - 2 + n + (P.N - 1)) / (P.N - 1) = (2 - 2 + n) / (P.N - 1) + 1 :=
        Nat.add_div_right _ (by omega)
      have e5 : (2 - 2 + n + (P.N - 1)) % (P.N - 1) = (2 - 2 + n) % (P.N - 1) :=
        Nat.add_mod_right _ _
      simp only [e0, e1, e2, e4, e5, block_vector, iterate_iter_counter,
        Function.iterate_succ_apply, Function.iterate_zero, id_eq]
      refine congrArg₂ Prod.mk (congrArg (List.cons _) (List.map_congr_left ?_)) rfl
      intro j _
      have e6 : Z.counter - 1 + (j + 1) = (2 - 1 + j) + (P.N - 1) := by omega
      have e7 : (2 - 1 + j + (P.N - 1)) / (P.N - 1) = (2 - 1 + j) / (P.N - 1) + 1 :=
        Nat.add_div_right _ (by omega)
      have e8 : (2 - 1 + j + (P.N - 1)) % (P.N - 1) = (2 - 1 + j) % (P.N - 1) :=
        Nat.add_mod_right _ _
      simp only [Function.comp, e6, e7, e8, Function.iterate_succ_apply]

/-! ## Bulk extraction -/

theorem fill_loop_array (Y : List Nat) (S N off : Nat) (array : List Int) (hN : 1 ≤ N)
    (hlen : Y.length = N) :
    (forLoop 1 N (iterate_and_fill_array_body off)
      { Y := Y.set 0 (tempV_at Y S 0), tempP := 0, tempV := tempV_at Y S 0, sumtot := 0,
        array := array }).array.length = array.length ∧
    ∀ j, (forLoop 1 N (iterate_and_fill_array_body off)
      { Y := Y.set 0 (tempV_at Y S 0), tempP := 0, tempV := tempV_at Y S 0, sumtot := 0,
        array := array }).array.getD j 0
      = if off ≤ j ∧ j < off + (N - 1) ∧ j < array.length then
          int64_of (tempV_at Y S (j - off + 1))
        else array.getD j 0 := by
  have key := forLoop_inv 1 N (iterate_and_fill_array_body off)
    (fun k t => IterInv Y S N k t.toIterSt ∧ t.array.length = array.length ∧
      ∀ j, t.array.getD j 0
        = if off ≤ j ∧ j < off + (k - 1) ∧ j < array.length then
            int64_of (tempV_at Y S (j - off + 1))
          else array.getD j 0)
    { Y := Y.set 0 (tempV_at Y S 0), tempP := 0, tempV := tempV_at Y S 0, sumtot := 0,
      array := array }
    hN ⟨iterInv_init Y S N hN hlen, rfl, fun j => by
      have h : ¬ (off ≤ j ∧ j < off + (1 - 1) ∧ j < array.length) := by omega
      rw [if_neg h]⟩ ?_
  · exact ⟨key.2.1, key.2.2⟩
  · intro k t hk1 hk2 ⟨h1, h2, h3⟩
    obtain ⟨g1, g2⟩ := iterInv_step Y S N k t.toIterSt hk1 hk2 h1
    refine ⟨g1, ?_, ?_⟩
    · show (t.array.set _ _).length = array.length
      rw [List.length_set]; exact h2
    · intro j
      show (t.array.set (off + (k - 1)) (int64_of (iterate_raw_vec_body k t.toIterSt).tempV)).getD
        j 0 = _
      rw [getD_set_int, g2, h3 j, h2]
      by_cases hj : off + (k - 1) = j
      · subst hj
        by_cases hl : off + (k - 1) < array.length
        · rw [if_pos ⟨rfl, hl⟩, if_pos ⟨by omega, by omega, hl⟩]
          have e : off + (k - 1) - off + 1 = k := by omega
          rw [e]
        · rw [if_neg (fun h => hl h.2), if_neg (fun h => hl h.2.2), if_neg (fun h => hl h.2.2)]
      · rw [if_neg (fun h => hj h.1)]
        by_cases hw : off ≤ j ∧ j < off + (k - 1) ∧ j < array.length
        · rw [if_pos hw, if_pos ⟨hw.1, by omega, hw.2.2⟩]
        · rw [if_neg hw, if_neg (by omega)]

/-- The array that `iterate_and_fill_array` leaves when `SPECIAL == 0`: the `N-1`
positions from `off` on hold the new `V[1..N)`, the others are unchanged. -/
theorem iterate_and_fill_array_snd (P : Params) (hnone : P.MOD_MULSPEC = none)
    (hN : 3 ≤ P.N) (X : rng_state_t) (hlen : X.V.length = P.N) (array : List Int)
    (off : Nat) :
    (iterate_and_fill_array P X array off).2.length = array.length ∧
    ∀ j, (iterate_and_fill_array P X array off).2.getD j 0
      = if off ≤ j ∧ j < off + (P.N - 1) ∧ j < array.length then
          int64_of ((iterate_step P X).V.getD (j - off + 1) 0)
        else array.getD j 0 := by
  obtain ⟨h1, h2⟩ := fill_loop_array X.V X.sumtot P.N off array (by omega) hlen
  obtain ⟨_, g2, _⟩ := iterate_raw_vec_spec P X.V X.sumtot hN hlen
  have hY : ∀ i, i < P.N → (iterate_step P X).V.getD i 0 = tempV_at X.V X.sumtot i := by
    intro i hi
    show (iterate_raw_vec P X.V X.sumtot).1.getD i 0 = _
    rw [g2 i hi]
    unfold Y_new
    rw [hnone]
  have e : tempV_at X.V X.sumtot 0 = modadd (X.V.getD 0 0) X.sumtot := rfl
  unfold iterate_and_fill_array
  simp only [hnone, ← e]
  refine ⟨h1, ?_⟩
  intro j
  rw [h2 j]
  by_cases hw : off ≤ j ∧ j < off + (P.N - 1) ∧ j < array.length
  · rw [if_pos hw, if_pos hw, hY _ (by omega)]
  · rw [if_neg hw, if_neg hw]

theorem iterate_step_length (P : Params) (hN : 3 ≤ P.N) (X : rng_state_t)
    (hlen : X.V.length = P.N) : (iterate_step P X).V.length = P.N :=
  (iterate_raw_vec_spec P X.V X.sumtot hN hlen).1

theorem iterate_length (P : Params) (hN : 3 ≤ P.N) (X : rng_state_t)
    (hlen : X.V.length = P.N) : (iterate P X).V.length = P.N :=
  forLoop_inv 0 (niter P) (fun _ X => iterate_step P X) (fun _ t => t.V.length = P.N) X
    (Nat.zero_le _) hlen (fun _ t _ _ h => iterate_step_length P hN t h)

/-- One block of `fill_array`: `niter >= 1` calls of `iterate_and_fill_array` on the
same window of the array leave the state of `iterate` and, in the window, its
`V[1..N)`. -/
theorem fill_block (P : Params) (hnone : P.MOD_MULSPEC = none) (hk : 1 ≤ niter P)
    (hN : 3 ≤ P.N) (Z : rng_state_t) (hlen : Z.V.length = P.N) (arr : List Int) (off : Nat) :
    (forLoop 0 (niter P) (fun _ s => iterate_and_fill_array P s.1 s.2 off) (Z, arr)).1
      = iterate P Z ∧
    (forLoop 0 (niter P) (fun _ s => iterate_and_fill_array P s.1 s.2 off) (Z, arr)).2.length
      = arr.length ∧
    ∀ j, (forLoop 0 (niter P)
        (fun _ s => iterate_and_fill_array P s.1 s.2 off) (Z, arr)).2.getD j 0
      = if off ≤ j ∧ j < off + (P.N - 1) ∧ j < arr.length then
          int64_of ((iterate P Z).V.getD (j - off + 1) 0)
        else arr.getD j 0 := by
  have hfst : (forLoop 0 (niter P) (fun _ s => iterate_and_fill_array P s.1 s.2 off) (Z, arr)).1
      = iterate P Z :=
    forLoop_map Prod.fst (fun _ s => iterate_and_fill_array P s.1 s.2 off)
      (fun _ X => iterate_step P X)
      (fun _ s => iterate_and_fill_array_fst P s.1 s.2 _) 0 (niter P) (Z, arr)
  have key := forLoop_inv 0 (niter P) (fun _ s => iterate_and_fill_array P s.1 s.2 off)
    (fun i (t : rng_state_t × List Int) => t.1.V.length = P.N ∧ t.2.length = arr.length ∧
      ∀ j, t.2.getD j 0
        = if 1 ≤ i ∧ off ≤ j ∧ j < off + (P.N - 1) ∧ j < arr.length then
            int64_of (t.1.V.getD (j - off + 1) 0)
          else arr.getD j 0)
    (Z, arr) (Nat.zero_le _)
    ⟨hlen, rfl, fun j => by
      have h : ¬ (1 ≤ 0 ∧ off ≤ j ∧ j < off + (P.N - 1) ∧ j < arr.length) := by omega
      rw [if_neg h]⟩ ?_
  · obtain ⟨_, k2, k3⟩ := key
    refine ⟨hfst, k2, ?_⟩
    intro j
    rw [k3 j, hfst]
    by_cases hw : off ≤ j ∧ j < off + (P.N - 1) ∧ j < arr.length
    · rw [if_pos hw, if_pos ⟨hk, hw⟩]
    · rw [if_neg hw, if_neg (fun h => hw h.2)]
  · intro i t _ _ ⟨h1, h2, h3⟩
    obtain ⟨g1, g2⟩ := iterate_and_fill_array_snd P hnone hN t.1 h1 t.2 off
    have hf := iterate_and_fill_array_fst P t.1 t.2 off
    refine ⟨?_, ?_, ?_⟩
    · show (iterate_and_fill_array P t.1 t.2 off).1.V.length = P.N
      rw [hf]; exact iterate_step_length P hN t.1 h1
    · show (iterate_and_fill_array P t.1 t.2 off).2.length = arr.length
      rw [g1]; exact h2
    · intro j
      show (iterate_and_fill_array P t.1 t.2 off).2.getD j 0
        = if 1 ≤ i + 1 ∧ off ≤ j ∧ j < off + (P.N - 1) ∧ j < arr.length then
            int64_of ((iterate_and_fill_array P t.1 t.2 off).1.V.getD (j - off + 1) 0)
          else arr.getD j 0
      rw [g2 j, hf, h2]
      by_cases hw : off ≤ j ∧ j < off + (P.N - 1) ∧ j < arr.length
      · rw [if_pos hw, if_pos ⟨by omega, hw⟩]
      · rw [if_neg hw, if_neg (fun h => hw h.2), h3 j, if_neg (fun h => hw h.2)]

theorem window_div_mod (M i j : Nat) (h1 : i * M ≤ j) (h2 : j < i * M + M) :
    j / M = i ∧ j % M = j - i * M := by
  have hd : j / M = i := Nat.div_eq_of_lt_le h1 (by rw [Nat.add_mul, Nat.one_mul]; exact h2)
  refine ⟨hd, ?_⟩
  have := Nat.mod_add_div j M
  rw [hd, Nat.mul_comm] at this
  omega

/-- The blocks of `fill_array`: after `q` blocks the state is the one after `q` calls
of `iterate` and the first `q*(N-1)` positions of the array hold, block after block,
`V[1..N)` of the successive states. -/
theorem fill_blocks (P : Params) (hnone : P.MOD_MULSPEC = none) (hk : 1 ≤ niter P)
    (hN : 3 ≤ P.N) (X : rng_state_t) (hlen : X.V.length = P.N) (array : List Int) (q : Nat) :
    (forLoop 0 q (fun i s => forLoop 0 (niter P)
        (fun _ s => iterate_and_fill_array P s.1 s.2 (i * (P.N - 1))) s) (X, array)).1
      = (iterate P)^[q] X ∧
    (forLoop 0 q (fun i s => forLoop 0 (niter P)
        (fun _ s => iterate_and_fill_array P s.1 s.2 (i * (P.N - 1))) s) (X, array)).2.length
      = array.length ∧
    ∀ j, (forLoop 0 q (fun i s => forLoop 0 (niter P)
        (fun _ s => iterate_and_fill_array P s.1 s.2 (i * (P.N - 1))) s) (X, array)).2.getD j 0
      = if j < q * (P.N - 1) ∧ j < array.length then
          int64_of ((block_vector P X (j / (P.N - 1) + 1)).getD (j % (P.N - 1) + 1) 0)
        else array.getD j 0 := by
  have key := forLoop_inv 0 q (fun i s => forLoop 0 (niter P)
        (fun _ s => iterate_and_fill_array P s.1 s.2 (i * (P.N - 1))) s)
    (fun i (t : rng_state_t × List Int) => t.1 = (iterate P)^[i] X ∧ t.1.V.length = P.N ∧
      t.2.length = array.length ∧
      ∀ j, t.2.getD j 0
        = if j < i * (P.N - 1) ∧ j < array.length then
            int64_of ((block_vector P X (j / (P.N - 1) + 1)).getD (j % (P.N - 1) + 1) 0)
          else array.getD j 0)
    (X, array) (Nat.zero_le _)
    ⟨rfl, hlen, rfl, fun j => by
      have h : ¬ (j < 0 * (P.N - 1) ∧ j < array.length) := by omega
      rw [if_neg h]⟩ ?_
  · exact ⟨key.1, key.2.2.1, key.2.2.2⟩
  · intro i t _ _ ⟨h1, h2, h3, h4⟩
    obtain ⟨g1, g2, g3⟩ := fill_block P hnone hk hN t.1 h2 t.2 (i * (P.N - 1))
    have hnext : iterate P t.1 = (iterate P)^[i + 1] X := by
      rw [Function.iterate_succ_apply', h1]
    refine ⟨?_, ?_, ?_, ?_⟩
    · exact g1.trans hnext
    · show (forLoop 0 (niter P) _ t).1.V.length = P.N
      rw [g1]; exact iterate_length P hN t.1 h2
    · exact g2.trans h3
    · intro j
      show (forLoop 0 (niter P) _ t).2.getD j 0 = _
      rw [g3 j, h3, hnext]
      have hsucc : (i + 1) * (P.N - 1) = i * (P.N - 1) + (P.N - 1) := by
        rw [Nat.add_mul, Nat.one_mul]
      by_cases hw : i * (P.N - 1) ≤ j ∧ j < i * (P.N - 1) + (P.N - 1) ∧ j < array.length
      · obtain ⟨d1, d2⟩ := window_div_mod (P.N - 1) i j hw.1 hw.2.1
        rw [if_pos hw, if_pos ⟨by omega, hw.2.2⟩, d1, d2]
        rfl
      · rw [if_neg hw, h4 j]
        by_cases hj : j < i * (P.N - 1) ∧ j < array.length
        · rw [if_pos hj, if_pos ⟨by omega, hj.2⟩]
        · rw [if_neg hj, if_neg (by omega)]

theorem fill_rem_loop (V : List Nat) (base rem : Nat) (arr : List Int) :
    (forLoop 0 rem (fun j a => a.set (base + j) (int64_of (V.getD j 0))) arr).length
      = arr.length ∧
    ∀ j, (forLoop 0 rem (fun j a => a.set (base + j) (int64_of (V.getD j 0))) arr).getD j 0
      = if base ≤ j ∧ j < base + rem ∧ j < arr.length then int64_of (V.getD (j - base) 0)
        else arr.getD j 0 := by
  refine forLoop_inv 0 rem (fun j (a : List Int) => a.set (base + j) (int64_of (V.getD j 0)))
    (fun k (t : List Int) => t.length = arr.length ∧
      ∀ j, t.getD j 0
        = if base ≤ j ∧ j < base + k ∧ j < arr.length then int64_of (V.getD (j - base) 0)
          else arr.getD j 0)
    arr (Nat.zero_le _)
    ⟨rfl, fun j => by
      have h : ¬ (base ≤ j ∧ j < base + 0 ∧ j < arr.length) := by omega
      rw [if_neg h]⟩ ?_
  intro k t _ _ ⟨h1, h2⟩
  refine ⟨?_, ?_⟩
  · show (t.set _ _).length = arr.length
    rw [List.length_set]; exact h1
  · intro j
    show (t.set (base + k) (int64_of (V.getD k 0))).getD j 0 = _
    rw [getD_set_int, h1, h2 j]
    by_cases hj : base + k = j
    · subst hj
      by_cases hl : base + k < arr.length
      · rw [if_pos ⟨rfl, hl⟩, if_pos ⟨by omega, by omega, hl⟩]
        have e : base + k - base = k := by omega
        rw [e]
      · rw [if_neg (fun h => hl h.2), if_neg (fun h => hl h.2.2), if_neg (fun h => hl h.2.2)]
    · rw [if_neg (fun h => hj h.1)]
      by_cases hw : base ≤ j ∧ j < base + k ∧ j < arr.length
      · rw [if_pos hw, if_pos ⟨hw.1, by omega, hw.2.2⟩]
      · rw [if_neg hw, if_neg (by omega)]

theorem getD_map_range_int (n : Nat) (f : Nat → Int) (j : Nat) (hj : j < n) :
    ((List.range n).map f).getD j 0 = f j := by
  simp [List.getD_eq_getElem?_getD, hj]

/-- The array that `fill_array` leaves when `SPECIAL == 0` and `nskip >= 0`: the
first `n - n mod (N-1)` positions hold `V[1..N)` of the successive iterated vectors,
the last `n mod (N-1)` positions hold `V[0..)` of the next one. -/
theorem fill_array_snd (P : Params) (hnone : P.MOD_MULSPEC = none) (hk : 1 ≤ niter P)
    (hN : 3 ≤ P.N) (X : rng_state_t) (hlen : X.V.length = P.N) (n : Nat)
    (array : List Int) (harr : array.length = n) :
    (fill_array P X n array).2
      = (List.range n).map (fun j =>
          if j < n - n % (P.N - 1) then
            int64_of ((block_vector P X (j / (P.N - 1) + 1)).getD (j % (P.N - 1) + 1) 0)
          else
            int64_of ((block_vector P X (j / (P.N - 1) + 1)).getD (j % (P.N - 1)) 0)) := by
  obtain ⟨b1, b2, b3⟩ := fill_blocks P hnone hk hN X hlen array (n / (P.N - 1))
  have hdm := Nat.div_add_mod n (P.N - 1)
  have hcomm : (P.N - 1) * (n / (P.N - 1)) = n / (P.N - 1) * (P.N - 1) := Nat.mul_comm _ _
  have hmlt : n % (P.N - 1) < P.N - 1 := Nat.mod_lt _ (by omega)
  unfold fill_array
  by_cases hrem : n % (P.N - 1) ≠ 0
  · simp only [if_pos hrem]
    rw [b1]
    obtain ⟨r1, r2⟩ := fill_rem_loop (iterate P ((iterate P)^[n / (P.N - 1)] X)).V
      ((P.N - 1) * (n / (P.N - 1))) (n % (P.N - 1))
      (forLoop 0 (n / (P.N - 1)) (fun i s => forLoop 0 (niter P)
        (fun _ s => iterate_and_fill_array P s.1 s.2 (i * (P.N - 1))) s) (X, array)).2
    apply list_ext_getD_int _ _ (by rw [r1, b2, harr]; simp)
    intro j hj
    rw [r1, b2, harr] at hj
    rw [r2 j, b2, b3 j, harr, getD_map_range_int n _ j hj]
    by_cases hw : j < n / (P.N - 1) * (P.N - 1)
    · rw [if_neg (by omega), if_pos ⟨hw, hj⟩, if_pos (by omega)]
    · obtain ⟨d1, d2⟩ := window_div_mod (P.N - 1) (n / (P.N - 1)) j (by omega) (by omega)
      rw [if_pos ⟨by omega, by omega, hj⟩, if_neg (by omega), d1, d2, hcomm]
      unfold block_vector
      rw [Function.iterate_succ_apply']
  · simp only [if_neg hrem]
    apply list_ext_getD_int _ _ (by rw [b2, harr]; simp)
    intro j hj
    rw [b2, harr] at hj
    rw [b3 j, harr, getD_map_range_int n _ j hj, if_pos ⟨by omega, hj⟩, if_pos (by omega)]

/-! ## The canonical representative of a checksum -/

theorem canon_le (s : Nat) : canon s ≤ MERSBASE := by
  unfold canon
  rw [MERSBASE_eq]
  split <;> omega

theorem canon_congr (s : Nat) : canon s % MERSBASE = s % MERSBASE := by
  unfold canon
  rw [MERSBASE_eq]
  split <;> omega

theorem canon_eq_zero_iff (s : Nat) : canon s = 0 ↔ s = 0 := by
  unfold canon
  split <;> omega

/-- A residue congruent to `s` that vanishes exactly when `s` does is `canon s`. -/
theorem canon_unique (x s : Nat) (hle : x ≤ MERSBASE) (hc : x % MERSBASE = s % MERSBASE)
    (hz : x = 0 ↔ s = 0) : x = canon s := by
  unfold canon
  rw [MERSBASE_eq] at *
  split
  · omega
  · omega

theorem mod128_eq_zero_iff (s : Nat) (hs : s < 2 ^ 124) : mod128 s = 0 ↔ s = 0 := by
  have hw := mod128_s1_wide_eq s
  have hlt := (mod128_congr s hs).1
  rw [mod128_eq, Nat.mod_eq_of_lt hlt, MOD_MERSENNE_eq _ hlt, hw]
  omega

theorem mod128_canon (s : Nat) (hs : s < 2 ^ 92) : mod128 s = canon s :=
  canon_unique _ _ (mod128_small s hs).1 (mod128_small s hs).2
    (mod128_eq_zero_iff s (by omega))

theorem modadd_eq_zero_iff (a b : Nat) (ha : a ≤ MERSBASE) (hb : b ≤ MERSBASE) :
    modadd a b = 0 ↔ a = 0 ∧ b = 0 := by
  rw [modadd_eq a b ha hb]
  rw [MERSBASE_eq] at ha hb
  omega

theorem modadd_canon (A v : Nat) (hv : v ≤ MERSBASE) :
    modadd (canon A) v = canon (A + v) := by
  apply canon_unique _ _ (modadd_le _ _ (canon_le A) hv)
  · rw [modadd_congr _ _ (canon_le A) hv, Nat.add_mod, canon_congr, ← Nat.add_mod]
  · rw [modadd_eq_zero_iff _ _ (canon_le A) hv, canon_eq_zero_iff]
    omega

theorem precalc_loop_canon (N : Nat) (V : List Nat) (hN : 1 ≤ N) (hV : Residues V) :
    forLoop 1 N (fun i temp => MOD_MERSENNE ((temp + V.getD i 0) % W64)) 0
      = canon (∑ j in Finset.Ico 1 N, V.getD j 0) := by
  refine forLoop_inv 1 N (fun i temp => MOD_MERSENNE ((temp + V.getD i 0) % W64))
    (fun k t => t = canon (∑ j in Finset.Ico 1 k, V.getD j 0))
    0 hN (by simp [canon]) ?_
  intro k t hk1 _ h
  show modadd t (V.getD k 0) = _
  rw [h, modadd_canon _ _ (getD_le_of_residues V hV k), Finset.sum_Ico_succ_top hk1]

/-- The value of `precalc` on a vector of `N` residues. -/
theorem precalc_eq (P : Params) (hN : 1 ≤ P.N) (X : rng_state_t) (hlen : X.V.length = P.N)
    (hV : Residues X.V) :
    precalc P X = (canon X.V.tail.sum, { X with sumtot := canon X.V.tail.sum }) := by
  have h := precalc_loop_canon P.N X.V hN hV
  rw [← hlen, ← tail_sum_eq] at h
  unfold precalc
  simp only [hlen] at h ⊢
  rw [h]

/-! ## Skip-ahead with no bit set -/

theorem apply_bigskip_bits_zero (P : Params) (IDindex r : Nat) (s : SkipSt) :
    apply_bigskip_bits P IDindex 0 r s = s := by
  rw [apply_bigskip_bits]
  simp

theorem canon_eq_of_congr (A B : Nat) (hc : A % MERSBASE = B % MERSBASE)
    (hz : A = 0 ↔ B = 0) : canon A = canon B :=
  canon_unique _ _ (canon_le A) ((canon_congr A).trans hc)
    ((canon_eq_zero_iff A).trans hz)

theorem sum_Y_new_zero_iff (P : Params) (hP : P.ok) (Y : List Nat) (S : Nat) (hN : 3 ≤ P.N)
    (hY : Residues Y) (hS : S ≤ MERSBASE) :
    (∑ j in Finset.Ico 1 P.N, tempV_at Y S j) + special_term P Y 2 = 0
      ↔ ∑ j in Finset.Ico 1 P.N, Y_new P Y S j = 0 := by
  have h2 : 2 ∈ Finset.Ico 1 P.N := Finset.mem_Ico.mpr ⟨by omega, by omega⟩
  have hsp := special_term_le P hP Y hY 2
  have hne : ∀ j, j ≠ 2 → Y_new P Y S j = tempV_at Y S j := by
    intro j hj
    unfold Y_new
    cases P.MOD_MULSPEC with
    | none => rfl
    | some f => simp [hj]
  have h2z : Y_new P Y S 2 = 0 ↔ tempV_at Y S 2 = 0 ∧ special_term P Y 2 = 0 := by
    unfold Y_new special_term
    cases hf : P.MOD_MULSPEC with
    | none => simp
    | some f =>
      simp only [if_true]
      exact modadd_eq_zero_iff _ _ (tempV_at_le Y S hY hS 2)
        (hP.2 f hf _ (getD_le_of_residues Y hY 1))
  rw [Nat.add_eq_zero_iff, Finset.sum_eq_zero_iff, Finset.sum_eq_zero_iff]
  constructor
  · rintro ⟨h1, h3⟩ j hj
    by_cases hj2 : j = 2
    · subst hj2; exact h2z.mpr ⟨h1 2 h2, h3⟩
    · rw [hne j hj2]; exact h1 j hj
  · intro h
    refine ⟨fun j hj => ?_, (h2z.mp (h 2 h2)).2⟩
    by_cases hj2 : j = 2
    · subst hj2; exact (h2z.mp (h 2 h2)).1
    · rw [← hne j hj2]; exact h j hj

/-- The checksum that `iterate_raw_vec` returns is exactly the representative of the
sum of the new `Y[1..N)`. -/
theorem iterate_raw_vec_exact (P : Params) (hP : P.ok) (Y : List Nat) (S : Nat)
    (hN : 3 ≤ P.N) (hlen : Y.length = P.N) (hY : Residues Y) (hS : S ≤ MERSBASE) :
    (iterate_raw_vec P Y S).2 = canon (iterate_raw_vec P Y S).1.tail.sum := by
  obtain ⟨h1, h2, h3⟩ := iterate_raw_vec_spec P Y S hN hlen
  obtain ⟨_, _, _, hc⟩ := iterate_raw_vec_valid P hP Y S hN hlen hY hS
  have hsum := sum_tempV_le Y S hY hS P.N
  have hsp := special_term_le P hP Y hY 2
  have hlt := N_mul_MERSBASE_lt P.N hP.1 _ _ hsum hsp
  have hnowrap : ((∑ j in Finset.Ico 1 P.N, tempV_at Y S j) % W128
      + special_term P Y 2) % W128
      = (∑ j in Finset.Ico 1 P.N, tempV_at Y S j) + special_term P Y 2 := by
    rw [Nat.mod_add_mod, W128_eq]
    exact Nat.mod_eq_of_lt (by omega)
  rw [hnowrap] at h3
  have hB : (iterate_raw_vec P Y S).1.tail.sum = ∑ j in Finset.Ico 1 P.N, Y_new P Y S j := by
    rw [tail_sum_eq, h1]
    exact Finset.sum_congr rfl (fun j hj => h2 j (Finset.mem_Ico.mp hj).2)
  have hcong : ((∑ j in Finset.Ico 1 P.N, tempV_at Y S j) + special_term P Y 2) % MERSBASE
      = (iterate_raw_vec P Y S).1.tail.sum % MERSBASE := by
    rw [← hc, h3, (mod128_small _ hlt).2]
  rw [h3, mod128_canon _ hlt]
  apply canon_eq_of_congr _ _ hcong
  rw [hB]
  exact sum_Y_new_zero_iff P hP Y S hN hY hS

theorem iterate_step_exact (P : Params) (hP : P.ok) (hN : 3 ≤ P.N) (X : rng_state_t)
    (hX : Valid P X) : ExactInv (iterate_step P X) :=
  iterate_raw_vec_exact P hP X.V X.sumtot hN hX.1 hX.2.1 hX.2.2.1

/-- A property of `(V, sumtot)` that every raw iteration of a valid state establishes
is preserved by `iterate`, `get_next` and `fill_array`. -/
theorem ops_preserve (P : Params) (hP : P.ok) (hN : 3 ≤ P.N) (Q : rng_state_t → Prop)
    (hQc : ∀ X c, Q X → Q { X with counter := c })
    (hQs : ∀ X, Valid P X → Q (iterate_step P X)) (X : rng_state_t) (hX : Valid P X)
    (hQ : Q X) :
    Q (iterate P X) ∧ Q (get_next P X).2 ∧ ∀ n array, Q (fill_array P X n array).1 := by
  have hloop : ∀ (n : Nat) (Z : rng_state_t), Valid P Z → Q Z →
      Q (forLoop 0 n (fun _ X => iterate_step P X) Z) := by
    intro n Z hZ hQZ
    exact (forLoop_inv 0 n (fun _ X => iterate_step P X) (fun _ t => Valid P t ∧ Q t) Z
      (Nat.zero_le _) ⟨hZ, hQZ⟩
      (fun _ t _ _ ⟨h1, _⟩ => ⟨(iterate_step_valid P hP hN t h1).1, hQs t h1⟩)).2
  refine ⟨hloop _ X hX hQ, ?_, ?_⟩
  · unfold get_next
    by_cases hc : X.counter < P.N
    · simp only [if_pos hc]
      exact hQc X _ hQ
    · simp only [if_neg hc]
      exact hQc _ 2 (hloop _ X hX hQ)
  · intro n array
    have hblocks := forLoop_inv 0 (n / (P.N - 1)) (fun _ X => iterate P X)
      (fun _ t => Valid P t ∧ Q t) X (Nat.zero_le _) ⟨hX, hQ⟩
      (fun _ t _ _ ⟨h1, h2⟩ => ⟨(iterate_valid P hP hN t h1).1, hloop _ t h1 h2⟩)
    rw [fill_array_state]
    by_cases hrem : n % (P.N - 1) ≠ 0
    · rw [if_pos hrem]
      exact hQc _ _ (hloop _ _ hblocks.1 hblocks.2)
    · rw [if_neg hrem]
      exact hQc _ _ hblocks.2

/-- Every legally constructed state is valid and carries the exact checksum. -/
theorem legal_valid (P : Params) (hP : P.ok) (hN : 3 ≤ P.N) (X : rng_state_t)
    (hL : Legal P X) : Valid P X ∧ ExactInv X := by
  have hQc : ∀ (X : rng_state_t) (c : Nat), ExactInv X → ExactInv { X with counter := c } :=
    fun _ _ h => h
  induction hL with
  | seed_vielbein X0 index X hlen heq =>
    by_cases hi : index < P.N
    · obtain ⟨X1, e1, v1, _⟩ := seed_vielbein_valid P X0 index hlen hi
      rw [heq] at e1
      cases e1
      refine ⟨v1, ?_⟩
      rw [seed_vielbein_eq P X0 index hlen, if_pos hi] at heq
      cases heq
      show (if index = 0 then 0 else 1) = canon _
      rw [basis_tail_sum P.N index hi]
      split <;> rfl
    · rw [seed_vielbein_eq P X0 index hlen, if_neg hi] at heq
      cases heq
  | seed_spbox X0 seed X hlen _ heq =>
    by_cases hs : seed = 0
    · rw [seed_spbox_eq P X0 seed (by omega) hP.1 hlen, if_pos hs] at heq
      cases heq
    · obtain ⟨X1, e1, v1, _⟩ := seed_spbox_valid P hP hN X0 seed hlen hs
      rw [heq] at e1
      cases e1
      refine ⟨v1, ?_⟩
      rw [seed_spbox_eq P X0 seed (by omega) hP.1 hlen, if_neg hs] at heq
      cases heq
      exact mod128_canon _ (residues_sum_lt P.N hP.1 _ (by simp [spbox_vector])
        (spbox_vector_residues P.N seed))
  | iterate X _ ih =>
    exact ⟨(iterate_valid P hP hN X ih.1).1,
      (ops_preserve P hP hN ExactInv hQc (iterate_step_exact P hP hN) X ih.1 ih.2).1⟩
  | get_next X _ ih =>
    exact ⟨(get_next_valid P hP hN X ih.1).1,
      (ops_preserve P hP hN ExactInv hQc (iterate_step_exact P hP hN) X ih.1 ih.2).2.1⟩
  | fill_array X n array _ ih =>
    exact ⟨(fill_array_valid P hP hN X n array ih.1).1,
      (ops_preserve P hP hN ExactInv hQc (iterate_step_exact P hP hN) X ih.1 ih.2).2.2 n array⟩

/-! ## Persistence: what is written and what is read -/

theorem print_loop (N : Nat) (V : List Nat) :
    forLoop 0 N (fun j (out : List Nat) => out ++ [V.getD j 0]) []
      = (List.range N).map (fun j => V.getD j 0) :=
  forLoop_inv 0 N (fun j (out : List Nat) => out ++ [V.getD j 0])
    (fun k t => t = (List.range k).map (fun j => V.getD j 0)) [] (Nat.zero_le _) rfl
    (fun k t _ _ ht => by
      show t ++ [V.getD k 0] = _
      rw [ht, List.range_succ, List.map_append]
      rfl)

/-- The numbers that `print_state` writes for a state of `N` elements. -/
theorem print_state_eq (P : Params) (hN : 1 ≤ P.N) (X : rng_state_t)
    (hlen : X.V.length = P.N) :
    print_state P X = { N := P.N, V := X.V, counter := X.counter, sumtot := X.sumtot } := by
  unfold print_state
  rw [print_loop]
  have e : (List.range (P.N - 1)).map (fun j => X.V.getD j 0) ++ [X.V.getD (P.N - 1) 0]
      = (List.range P.N).map (fun j => X.V.getD j 0) := by
    obtain ⟨m, hm⟩ : ∃ m, P.N = m + 1 := ⟨P.N - 1, by omega⟩
    rw [hm, List.range_succ, List.map_append]
    rfl
  rw [e, map_range_getD P.N X.V hlen]

theorem read_loop (N : Nat) (V0 fV : List Nat) (hN : 1 ≤ N) (hlen0 : V0.length = N)
    (hlenf : fV.length = N) (hres : ∀ i, 1 ≤ i → i < N → fV.getD i 0 ≤ MERSBASE) :
    forLoop 1 N (fun i (V : List Nat) =>
        if fV.getD i 0 ≤ MERSBASE then V.set i (fV.getD i 0) else V)
      (V0.set 0 (fV.getD 0 0)) = fV := by
  have key := forLoop_inv 1 N (fun i (V : List Nat) =>
        if fV.getD i 0 ≤ MERSBASE then V.set i (fV.getD i 0) else V)
    (fun k t => t.length = N ∧ ∀ j, j < k → t.getD j 0 = fV.getD j 0)
    (V0.set 0 (fV.getD 0 0)) hN
    ⟨by simp [hlen0], fun j hj => by
      have hj0 : j = 0 := by omega
      subst hj0
      rw [getD_set, if_pos ⟨rfl, by omega⟩]⟩ ?_
  · apply list_ext_getD _ _ (by rw [key.1, hlenf])
    intro j hj
    exact key.2 j (by rw [key.1] at hj; exact hj)
  · intro k t hk1 hk2 ⟨h1, h2⟩
    have hk := hres k hk1 hk2
    refine ⟨?_, ?_⟩
    · show (if fV.getD k 0 ≤ MERSBASE then t.set k (fV.getD k 0) else t).length = N
      rw [if_pos hk, List.length_set]; exact h1
    · intro j hj
      show (if fV.getD k 0 ≤ MERSBASE then t.set k (fV.getD k 0) else t).getD j 0 = _
      rw [if_pos hk, getD_set]
      by_cases hjk : k = j
      · subst hjk
        rw [if_pos ⟨rfl, by omega⟩]
      · rw [if_neg (fun h => hjk h.1)]
        exact h2 j (by omega)

/-- The result of `read_state` on a file that holds `N` residues. -/
theorem read_state_eq (P : Params) (hN : 1 ≤ P.N) (X0 : rng_state_t) (f : StateFile)
    (hlen0 : X0.V.length = P.N) (hlenf : f.V.length = P.N) (hres : Residues f.V) :
    read_state P X0 f
      = if f.counter ≤ P.N then
          (if canon f.V.tail.sum ≠ f.sumtot then
            Except.error ExitCode.ERROR_READING_STATE_CHECKSUM
          else
            Except.ok { V := f.V, sumtot := canon f.V.tail.sum, counter := f.counter })
        else Except.error ExitCode.ERROR_READING_STATE_COUNTER := by
  have hl := read_loop P.N X0.V f.V hN hlen0 hlenf
    (fun i _ _ => getD_le_of_residues f.V hres i)
  unfold read_state
  simp only [hl]
  by_cases hc : f.counter ≤ P.N
  · simp only [if_pos hc]
    rw [precalc_eq P hN { V := f.V, sumtot := X0.sumtot, counter := f.counter } hlenf hres]
  · simp only [if_neg hc]

/-! ## Skip-ahead with one bit set -/

theorem apply_bigskip_bits_pow2 (P : Params) (IDindex : Nat) :
    ∀ (k r0 : Nat) (s : SkipSt),
      apply_bigskip_bits P IDindex (2 ^ k) r0 s
        = apply_bigskip_row P (r0 + k + IDindex * ID_BITS) s
  | 0, r0, s => by
    rw [apply_bigskip_bits]
    have h1 : ¬ ((2 : Nat) ^ 0 = 0) := by decide
    have h2 : (2 : Nat) ^ 0 &&& 1 ≠ 0 := by decide
    have h3 : (2 : Nat) ^ 0 >>> 1 = 0 := by decide
    simp only [dif_neg h1, if_pos h2, h3, apply_bigskip_bits_zero, Nat.add_zero]
  | k + 1, r0, s => by
    rw [apply_bigskip_bits]
    have h1 : ¬ ((2 : Nat) ^ (k + 1) = 0) := by positivity
    have h2 : ¬ ((2 : Nat) ^ (k + 1) &&& 1 ≠ 0) := by
      rw [Nat.and_one_is_mod, Nat.pow_succ, Nat.mul_mod_left]
      exact fun h => h rfl
    have h3 : (2 : Nat) ^ (k + 1) >>> 1 = 2 ^ k := by
      rw [Nat.shiftRight_eq_div_pow, Nat.pow_succ, Nat.pow_one,
        Nat.mul_div_cancel _ (by decide : 0 < 2)]
    simp only [dif_neg h1, if_neg h2, h3]
    rw [apply_bigskip_bits_pow2 P IDindex k (r0 + 1) s]
    have e : r0 + 1 + k = r0 + (k + 1) := by omega
    rw [e]

theorem forLoop_four {σ : Type} (body : Nat → σ → σ) (s : σ) :
    forLoop 0 4 body s = body 3 (body 2 (body 1 (body 0 s))) := rfl

/-- With exactly one bit set, bit `r` of the identifier of level `L`, the loops over
the levels and the bits apply the row `r + L * ID_BITS` once. -/
theorem apply_bigskip_levels_one_bit (P : Params) (IDvec : List Nat) (L r : Nat) (hL : L < 4)
    (hbit : IDvec.getD L 0 = 2 ^ r) (hzero : ∀ k, k ≠ L → IDvec.getD k 0 = 0) (s : SkipSt) :
    forLoop 0 4 (fun IDindex s => apply_bigskip_bits P IDindex (IDvec.getD IDindex 0) 0 s) s
      = apply_bigskip_row P (r + L * ID_BITS) s := by
  rw [forLoop_four]
  have hrow : apply_bigskip_bits P L (IDvec.getD L 0) 0 = apply_bigskip_row P (r + L * ID_BITS) := by
    funext t
    rw [hbit, apply_bigskip_bits_pow2, Nat.zero_add]
  have hid : ∀ k, k ≠ L → apply_bigskip_bits P k (IDvec.getD k 0) 0 = id := by
    intro k hk
    funext t
    rw [hzero k hk, apply_bigskip_bits_zero]
    rfl
  interval_cases L
  · rw [hid 3 (by decide), hid 2 (by decide), hid 1 (by decide), hrow]; rfl
  · rw [hid 3 (by decide), hid 2 (by decide), hrow, hid 0 (by decide)]; rfl
  · rw [hid 3 (by decide), hrow, hid 1 (by decide), hid 0 (by decide)]; rfl
  · rw [hrow, hid 2 (by decide), hid 1 (by decide), hid 0 (by decide)]; rfl

theorem raw_iter_succ (P : Params) (j : Nat) (Y : List Nat) (S : Nat) :
    raw_iter P (j + 1) Y S
      = iterate_raw_vec P (raw_iter P j Y S).1 (raw_iter P j Y S).2 := by
  unfold raw_iter
  rw [Function.iterate_succ_apply']

/-- The accumulator of one row of the skip table: after the loop over the lags, `cum[i]`
is a residue congruent to `sum_j row[j] * (T^j Y)[i]`. -/
theorem apply_bigskip_row_loop (P : Params) (hP : P.ok) (hT : TableOk P) (hN : 3 ≤ P.N)
    (row : Nat) (Y cum0 : List Nat) (S : Nat) (hlen : Y.length = P.N) (hY : Residues Y)
    (hS : S ≤ MERSBASE) (hc0 : cum0.length = P.N) (hz : ∀ i, cum0.getD i 0 = 0) :
    (forLoop 0 P.N
      (fun j (s : SkipSt) =>
        ({ Y := (iterate_raw_vec P s.Y s.sumtot).1,
           cum := FUSEDMODMULVEC P.N (P.skipMat row j) s.Y s.cum,
           sumtot := (iterate_raw_vec P s.Y s.sumtot).2 } : SkipSt))
      { Y := Y, cum := cum0, sumtot := S }).cum.length = P.N ∧
    Residues (forLoop 0 P.N
      (fun j (s : SkipSt) =>
        ({ Y := (iterate_raw_vec P s.Y s.sumtot).1,
           cum := FUSEDMODMULVEC P.N (P.skipMat row j) s.Y s.cum,
           sumtot := (iterate_raw_vec P s.Y s.sumtot).2 } : SkipSt))
      { Y := Y, cum := cum0, sumtot := S }).cum ∧
    (forLoop 0 P.N
      (fun j (s : SkipSt) =>
        ({ Y := (iterate_raw_vec P s.Y s.sumtot).1,
           cum := FUSEDMODMULVEC P.N (P.skipMat row j) s.Y s.cum,
           sumtot := (iterate_raw_vec P s.Y s.sumtot).2 } : SkipSt))
      { Y := Y, cum := cum0, sumtot := S }).Y.length = P.N ∧
    ∀ i, i < P.N →
      (forLoop 0 P.N
        (fun j (s : SkipSt) =>
          ({ Y := (iterate_raw_vec P s.Y s.sumtot).1,
             cum := FUSEDMODMULVEC P.N (P.skipMat row j) s.Y s.cum,
             sumtot := (iterate_raw_vec P s.Y s.sumtot).2 } : SkipSt))
        { Y := Y, cum := cum0, sumtot := S }).cum.getD i 0 % MERSBASE
        = (∑ j in Finset.range P.N, P.skipMat row j * (raw_iter P j Y S).1.getD i 0)
            % MERSBASE := by
  have key := forLoop_inv 0 P.N
    (fun j (s : SkipSt) =>
      ({ Y := (iterate_raw_vec P s.Y s.sumtot).1,
         cum := FUSEDMODMULVEC P.N (P.skipMat row j) s.Y s.cum,
         sumtot := (iterate_raw_vec P s.Y s.sumtot).2 } : SkipSt))
    (fun k t => (t.Y, t.sumtot) = raw_iter P k Y S ∧
      t.Y.length = P.N ∧ Residues t.Y ∧ t.sumtot ≤ MERSBASE ∧
      t.cum.length = P.N ∧ Residues t.cum ∧
      ∀ i, i < P.N → t.cum.getD i 0 % MERSBASE
        = (∑ j in Finset.range k, P.skipMat row j * (raw_iter P j Y S).1.getD i 0)
            % MERSBASE)
    { Y := Y, cum := cum0, sumtot := S } (Nat.zero_le _)
    ⟨rfl, hlen, hY, hS, hc0,
      residues_of_getD cum0 (fun j _ => by rw [hz j]; exact Nat.zero_le _),
      fun i _ => by rw [hz i]; simp⟩ ?_
  · exact ⟨key.2.2.2.2.1, key.2.2.2.2.2.1, key.2.1, key.2.2.2.2.2.2⟩
  · intro k t _ _ ⟨g0, g1, g2, g3, g4, g5, g6⟩
    obtain ⟨k1, k2, k3, _⟩ := iterate_raw_vec_valid P hP t.Y t.sumtot hN g1 g2 g3
    obtain ⟨f1, f2⟩ := FUSEDMODMULVEC_spec P.N (P.skipMat row k) t.Y t.cum g4
    have hYk : t.Y = (raw_iter P k Y S).1 := congrArg Prod.fst g0
    have hSk : t.sumtot = (raw_iter P k Y S).2 := congrArg Prod.snd g0
    refine ⟨?_, k1, k2, k3, f1,
      FUSEDMODMULVEC_residues P.N _ t.Y t.cum g4 (hT row k) g2 g5, ?_⟩
    · rw [raw_iter_succ, ← hYk, ← hSk]
    · intro i hi
      show (FUSEDMODMULVEC P.N (P.skipMat row k) t.Y t.cum).getD i 0 % MERSBASE = _
      rw [f2 i hi, fmodmulM61_congr _ _ _ (getD_le_of_residues t.cum g5 i) (hT row k)
        (getD_le_of_residues t.Y g2 i), Finset.sum_range_succ, Nat.add_mod, g6 i hi,
        ← Nat.add_mod, hYk]

/-- The effect of one row of the skip table on the working variables. -/
theorem apply_bigskip_row_spec (P : Params) (hP : P.ok) (hT : TableOk P) (hN : 3 ≤ P.N)
    (row : Nat) (s : SkipSt) (hs : SkipInv P s) :
    SkipInv P (apply_bigskip_row P row s) ∧
    ∀ i, i < P.N →
      (apply_bigskip_row P row s).Y.getD i 0 % MERSBASE
        = (∑ j in Finset.range P.N, P.skipMat row j * (raw_iter P j s.Y s.sumtot).1.getD i 0)
            % MERSBASE := by
  refine ⟨apply_bigskip_row_inv P hP hT hN row s hs, ?_⟩
  obtain ⟨h1, h2, h3, h4⟩ := hs
  have hS : s.sumtot ≤ MERSBASE := by
    rw [h4]; exact (mod128_tail_sum P.N hP.1 s.Y h1 h3).1
  have hz0 := zero_loop P.N s.cum h2
  obtain ⟨g1, _, g3, g4⟩ := apply_bigskip_row_loop P hP hT hN row s.Y (List.replicate P.N 0)
    s.sumtot h1 h3 hS (by simp) (fun i => by simp [List.getD_eq_getElem?_getD])
  obtain ⟨c1, _⟩ := copy_and_sum_spec P.N _ _ g1 g3
  intro i hi
  unfold apply_bigskip_row
  simp only [hz0]
  rw [c1]
  exact g4 i hi

/-- With exactly one bit set, `apply_bigskip` leaves the vector that one row of the
table produces from `Vin`, whatever `Vout` held. -/
theorem apply_bigskip_one_bit_eq (P : Params) (hP : P.ok) (hT : TableOk P) (hN : 3 ≤ P.N)
    (Vout Vin : List Nat) (hVout : Vout.length = P.N) (hVin : Vin.length = P.N)
    (hR : Residues Vin) (clusterID machineID runID streamID L r : Nat) (hL : L < 4)
    (hbit : [streamID, runID, machineID, clusterID].getD L 0 = 2 ^ r)
    (hzero : ∀ k, k ≠ L → [streamID, runID, machineID, clusterID].getD k 0 = 0) :
    apply_bigskip P Vout Vin clusterID machineID runID streamID
      = ((apply_bigskip_row P (r + L * ID_BITS)
            { Y := Vin, cum := List.replicate P.N 0, sumtot := mod128 Vin.tail.sum }).Y,
          mod128 (apply_bigskip_row P (r + L * ID_BITS)
            { Y := Vin, cum := List.replicate P.N 0,
              sumtot := mod128 Vin.tail.sum }).Y.tail.sum) := by
  obtain ⟨c1, c2⟩ := copy_and_sum_spec P.N Vin (List.replicate P.N 0) hVin (by simp)
  have hs0 : SkipInv P
      { Y := Vin, cum := List.replicate P.N 0, sumtot := mod128 Vin.tail.sum } :=
    ⟨hVin, by simp, hR, rfl⟩
  obtain ⟨g1, _, g3, _⟩ := apply_bigskip_row_inv P hP hT hN (r + L * ID_BITS) _ hs0
  obtain ⟨d1, d2⟩ := copy_and_sum_spec P.N _ Vout g1 hVout
  unfold apply_bigskip
  simp only [c1, c2, sub128_sum P.N hP.1 Vin hVin hR,
    apply_bigskip_levels_one_bit P [streamID, runID, machineID, clusterID] L r hL hbit hzero,
    d1, d2, sub128_sum P.N hP.1 _ g1 g3]

/-! ## No output is zero -/

theorem tempV_at_ne_zero (Y : List Nat) (S : Nat) (hY : Residues Y) (hS : S ≤ MERSBASE)
    (h0 : Y.getD 0 0 ≠ 0 ∨ S ≠ 0) : ∀ i, tempV_at Y S i ≠ 0
  | 0 => by
    show modadd (Y.getD 0 0) S ≠ 0
    rw [Ne, modadd_eq_zero_iff _ _ (getD_le_of_residues Y hY 0) hS]
    omega
  | i + 1 => by
    show modadd (tempV_at Y S i) (tempP_at Y (i + 1)) ≠ 0
    rw [Ne, modadd_eq_zero_iff _ _ (tempV_at_le Y S hY hS i) (tempP_at_le Y hY _)]
    exact fun h => tempV_at_ne_zero Y S hY hS h0 i h.1

theorem Y_new_ne_zero (P : Params) (hP : P.ok) (Y : List Nat) (S : Nat) (hY : Residues Y)
    (hS : S ≤ MERSBASE) (h0 : Y.getD 0 0 ≠ 0 ∨ S ≠ 0) (j : Nat) : Y_new P Y S j ≠ 0 := by
  unfold Y_new
  cases hf : P.MOD_MULSPEC with
  | none => exact tempV_at_ne_zero Y S hY hS h0 j
  | some f =>
    show (if j = 2 then modadd (tempV_at Y S 2) (f (Y.getD 1 0)) else tempV_at Y S j) ≠ 0
    split
    · rw [Ne, modadd_eq_zero_iff _ _ (tempV_at_le Y S hY hS 2)
        (hP.2 f hf _ (getD_le_of_residues Y hY 1))]
      exact fun h => tempV_at_ne_zero Y S hY hS h0 2 h.1
    · exact tempV_at_ne_zero Y S hY hS h0 j

/-- One raw iteration of a valid, non-degenerate state leaves no zero element. -/
theorem iterate_step_live (P : Params) (hP : P.ok) (hN : 3 ≤ P.N) (X : rng_state_t)
    (hX : Valid P X) (h0 : Nondegenerate X) :
    Valid P (iterate_step P X) ∧ (∀ i, i < P.N → (iterate_step P X).V.getD i 0 ≠ 0) ∧
    Nondegenerate (iterate_step P X) := by
  obtain ⟨_, h2, _⟩ := iterate_raw_vec_spec P X.V X.sumtot hN hX.1
  have hnz : ∀ i, i < P.N → (iterate_step P X).V.getD i 0 ≠ 0 := by
    intro i hi
    show (iterate_raw_vec P X.V X.sumtot).1.getD i 0 ≠ 0
    rw [h2 i hi]
    exact Y_new_ne_zero P hP X.V X.sumtot hX.2.1 hX.2.2.1 h0 i
  exact ⟨(iterate_step_valid P hP hN X hX).1, hnz, Or.inl (hnz 0 (by omega))⟩

theorem iterate_loop_live (P : Params) (hP : P.ok) (hN : 3 ≤ P.N) (n : Nat)
    (X : rng_state_t) (hX : Valid P X) (h0 : Nondegenerate X) :
    Valid P (forLoop 0 n (fun _ X => iterate_step P X) X) ∧
    Nondegenerate (forLoop 0 n (fun _ X => iterate_step P X) X) ∧
    (1 ≤ n → ∀ i, i < P.N →
      (forLoop 0 n (fun _ X => iterate_step P X) X).V.getD i 0 ≠ 0) ∧
    (forLoop 0 n (fun _ X => iterate_step P X) X).counter = X.counter :=
  forLoop_inv 0 n (fun _ X => iterate_step P X)
    (fun k t => Valid P t ∧ Nondegenerate t ∧ (1 ≤ k → ∀ i, i < P.N → t.V.getD i 0 ≠ 0) ∧
      t.counter = X.counter) X (Nat.zero_le _)
    ⟨hX, h0, fun h => absurd h (by omega), rfl⟩
    (fun _ t _ _ ⟨h1, h2, _, h4⟩ =>
      ⟨(iterate_step_live P hP hN t h1 h2).1, (iterate_step_live P hP hN t h1 h2).2.2,
        fun _ => (iterate_step_live P hP hN t h1 h2).2.1, h4⟩)

theorem iterate_live (P : Params) (hP : P.ok) (hN : 3 ≤ P.N) (hk : 1 ≤ niter P)
    (X : rng_state_t) (hX : Valid P X) (h0 : Nondegenerate X) :
    Valid P (iterate P X) ∧ Nondegenerate (iterate P X) ∧
    (∀ i, i < P.N → (iterate P X).V.getD i 0 ≠ 0) ∧ (iterate P X).counter = X.counter := by
  obtain ⟨h1, h2, h3, h4⟩ := iterate_loop_live P hP hN (niter P) X hX h0
  exact ⟨h1, h2, h3 hk, h4⟩

theorem int64_of_positive (v : Nat) (h1 : v ≠ 0) (h2 : v ≤ MERSBASE) :
    Positive (int64_of v) := by
  unfold Positive int64_of
  rw [MERSBASE_eq] at *
  have hv : v % W64 = v := Nat.mod_eq_of_lt (by rw [W64_eq]; omega)
  rw [hv, if_pos (by omega)]
  omega

theorem get_next_live (P : Params) (hP : P.ok) (hN : 3 ≤ P.N) (hk : 1 ≤ niter P)
    (X : rng_state_t) (hX : Live P X) :
    Live P (get_next P X).2 ∧ (get_next P X).1 ≠ 0 ∧ (get_next P X).1 ≤ MERSBASE := by
  obtain ⟨hv, h0, hc⟩ := hX
  unfold get_next
  by_cases hlt : X.counter < P.N
  · simp only [if_pos hlt]
    exact ⟨⟨⟨hv.1, hv.2.1, hv.2.2.1, hlt⟩, h0, fun _ => hc hlt⟩, hc hlt _ hlt,
      getD_le_of_residues _ hv.2.1 _⟩
  · simp only [if_neg hlt]
    obtain ⟨⟨g1, g2, g3, _⟩, g5, g6, _⟩ := iterate_live P hP hN hk X hv h0
    exact ⟨⟨⟨g1, g2, g3, by show 2 ≤ P.N; omega⟩, g5, fun _ => g6⟩, g6 1 (by omega),
      getD_le_of_residues _ g2 _⟩

theorem iterate_and_fill_array_snd_eq (P : Params) (X : rng_state_t) (array : List Int)
    (off : Nat) :
    (iterate_and_fill_array P X array off).2
      = match P.MOD_MULSPEC with
        | none =>
          (forLoop 1 P.N (iterate_and_fill_array_body off)
            { Y := X.V.set 0 (tempV_at X.V X.sumtot 0), tempP := 0,
              tempV := tempV_at X.V X.sumtot 0, sumtot := 0, array := array }).array
        | some _ =>
          (forLoop 1 P.N (iterate_and_fill_array_body off)
            { Y := X.V.set 0 (tempV_at X.V X.sumtot 0), tempP := 0,
              tempV := tempV_at X.V X.sumtot 0, sumtot := 0, array := array }).array.set
            (off + 2) (int64_of ((iterate_and_fill_array P X array off).1.V.getD 2 0)) := by
  unfold iterate_and_fill_array
  cases P.MOD_MULSPEC with
  | none => rfl
  | some f => rfl

/-- The values that `iterate_and_fill_array` writes, in any configuration, are
positive: the `N-1` positions from `off` on hold positive values, and a position
that held a positive value still does. -/
theorem iterate_and_fill_array_positive (P : Params) (hP : P.ok) (hN : 3 ≤ P.N)
    (X : rng_state_t) (hX : Valid P X) (h0 : Nondegenerate X) (array : List Int)
    (off : Nat) :
    (iterate_and_fill_array P X array off).2.length = array.length ∧
    (∀ j, off ≤ j → j < off + (P.N - 1) → j < array.length →
      Positive ((iterate_and_fill_array P X array off).2.getD j 0)) ∧
    (∀ j, Positive (array.getD j 0) →
      Positive ((iterate_and_fill_array P X array off).2.getD j 0)) := by
  obtain ⟨h1, h2⟩ := fill_loop_array X.V X.sumtot P.N off array (by omega) hX.1
  have hfst := iterate_and_fill_array_fst P X array off
  obtain ⟨lv, lnz, _⟩ := iterate_step_live P hP hN X hX h0
  have htv : ∀ i, Positive (int64_of (tempV_at X.V X.sumtot i)) := fun i =>
    int64_of_positive _ (tempV_at_ne_zero X.V X.sumtot hX.2.1 hX.2.2.1 h0 i)
      (tempV_at_le X.V X.sumtot hX.2.1 hX.2.2.1 i)
  have hloopW : ∀ j, off ≤ j → j < off + (P.N - 1) → j < array.length →
      Positive ((forLoop 1 P.N (iterate_and_fill_array_body off)
        { Y := X.V.set 0 (tempV_at X.V X.sumtot 0), tempP := 0,
          tempV := tempV_at X.V X.sumtot 0, sumtot := 0, array := array }).array.getD j 0) := by
    intro j a b c
    rw [h2 j, if_pos ⟨a, b, c⟩]
    exact htv _
  have hloopQ : ∀ j, Positive (array.getD j 0) →
      Positive ((forLoop 1 P.N (iterate_and_fill_array_body off)
        { Y := X.V.set 0 (tempV_at X.V X.sumtot 0), tempP := 0,
          tempV := tempV_at X.V X.sumtot 0, sumtot := 0, array := array }).array.getD j 0) := by
    intro j hq
    rw [h2 j]
    split
    · exact htv _
    · exact hq
  have hY2 : Positive (int64_of ((iterate_and_fill_array P X array off).1.V.getD 2 0)) := by
    rw [hfst]
    exact int64_of_positive _ (lnz 2 (by omega)) (getD_le_of_residues _ lv.2.1 2)
  rw [iterate_and_fill_array_snd_eq]
  cases P.MOD_MULSPEC with
  | none => exact ⟨h1, hloopW, hloopQ⟩
  | some f =>
    refine ⟨by simp only [List.length_set]; exact h1, ?_, ?_⟩
    · intro j a b c
      simp only []
      rw [getD_set_int]
      split
      · exact hY2
      · exact hloopW j a b c
    · intro j hq
      simp only []
      rw [getD_set_int]
      split
      · exact hY2
      · exact hloopQ j hq

/-- One block of `fill_array` in any configuration: the window holds positive values
and positive values elsewhere stay positive. -/
theorem fill_block_positive (P : Params) (hP : P.ok) (hN : 3 ≤ P.N) (hk : 1 ≤ niter P)
    (Z : rng_state_t) (hZ : Valid P Z) (h0 : Nondegenerate Z) (arr : List Int) (off : Nat) :
    (forLoop 0 (niter P) (fun _ s => iterate_and_fill_array P s.1 s.2 off) (Z, arr)).2.length
      = arr.length ∧
    (∀ j, off ≤ j → j < off + (P.N - 1) → j < arr.length →
      Positive ((forLoop 0 (niter P)
        (fun _ s => iterate_and_fill_array P s.1 s.2 off) (Z, arr)).2.getD j 0)) ∧
    (∀ j, Positive (arr.getD j 0) →
      Positive ((forLoop 0 (niter P)
        (fun _ s => iterate_and_fill_array P s.1 s.2 off) (Z, arr)).2.getD j 0)) := by
  have key := forLoop_inv 0 (niter P) (fun _ s => iterate_and_fill_array P s.1 s.2 off)
    (fun i (t : rng_state_t × List Int) => Valid P t.1 ∧ Nondegenerate t.1 ∧
      t.2.length = arr.length ∧
      (1 ≤ i → ∀ j, off ≤ j → j < off + (P.N - 1) → j < arr.length →
        Positive (t.2.getD j 0)) ∧
      (∀ j, Positive (arr.getD j 0) → Positive (t.2.getD j 0)))
    (Z, arr) (Nat.zero_le _)
    ⟨hZ, h0, rfl, fun h => absurd h (by omega), fun _ h => h⟩ ?_
  · exact ⟨key.2.2.1, key.2.2.2.1 hk, key.2.2.2.2⟩
  · intro i t _ _ ⟨h1, h2, h3, _, h5⟩
    obtain ⟨g1, g2, g3⟩ := iterate_and_fill_array_positive P hP hN t.1 h1 h2 t.2 off
    have hf := iterate_and_fill_array_fst P t.1 t.2 off
    obtain ⟨lv, _, lnd⟩ := iterate_step_live P hP hN t.1 h1 h2
    refine ⟨?_, ?_, g1.trans h3, ?_, ?_⟩
    · show Valid P (iterate_and_fill_array P t.1 t.2 off).1
      rw [hf]; exact lv
    · show Nondegenerate (iterate_and_fill_array P t.1 t.2 off).1
      rw [hf]; exact lnd
    · intro _ j a b c
      exact g2 j a b (by rw [h3]; exact c)
    · intro j hq
      exact g3 j (h5 j hq)

theorem fill_block_fst (P : Params) (Z : rng_state_t) (arr : List Int) (off : Nat) :
    (forLoop 0 (niter P) (fun _ s => iterate_and_fill_array P s.1 s.2 off) (Z, arr)).1
      = iterate P Z :=
  forLoop_map Prod.fst (fun _ s => iterate_and_fill_array P s.1 s.2 off)
    (fun _ X => iterate_step P X)
    (fun _ s => iterate_and_fill_array_fst P s.1 s.2 _) 0 (niter P) (Z, arr)

theorem fill_blocks_positive (P : Params) (hP : P.ok) (hN : 3 ≤ P.N) (hk : 1 ≤ niter P)
    (X : rng_state_t) (hX : Valid P X) (h0 : Nondegenerate X) (array : List Int) (q : Nat) :
    Valid P (forLoop 0 q (fun i s => forLoop 0 (niter P)
        (fun _ s => iterate_and_fill_array P s.1 s.2 (i * (P.N - 1))) s) (X, array)).1 ∧
    Nondegenerate (forLoop 0 q (fun i s => forLoop 0 (niter P)
        (fun _ s => iterate_and_fill_array P s.1 s.2 (i * (P.N - 1))) s) (X, array)).1 ∧
    (forLoop 0 q (fun i s => forLoop 0 (niter P)
        (fun _ s => iterate_and_fill_array P s.1 s.2 (i * (P.N - 1))) s) (X, array)).2.length
      = array.length ∧
    ∀ j, j < q * (P.N - 1) → j < array.length →
      Positive ((forLoop 0 q (fun i s => forLoop 0 (niter P)
        (fun _ s => iterate_and_fill_array P s.1 s.2 (i * (P.N - 1))) s)
          (X, array)).2.getD j 0) := by
  refine forLoop_inv 0 q (fun i s => forLoop 0 (niter P)
        (fun _ s => iterate_and_fill_array P s.1 s.2 (i * (P.N - 1))) s)
    (fun i (t : rng_state_t × List Int) => Valid P t.1 ∧ Nondegenerate t.1 ∧
      t.2.length = array.length ∧
      ∀ j, j < i * (P.N - 1) → j < array.length → Positive (t.2.getD j 0))
    (X, array) (Nat.zero_le _)
    ⟨hX, h0, rfl, fun j hj => absurd hj (by omega)⟩ ?_
  intro i t _ _ ⟨h1, h2, h3, h4⟩
  obtain ⟨g1, g2, g3⟩ := fill_block_positive P hP hN hk t.1 h1 h2 t.2 (i * (P.N - 1))
  have hf := fill_block_fst P t.1 t.2 (i * (P.N - 1))
  obtain ⟨lv, lnd, _, _⟩ := iterate_live P hP hN hk t.1 h1 h2
  have hsucc : (i + 1) * (P.N - 1) = i * (P.N - 1) + (P.N - 1) := by
    rw [Nat.add_mul, Nat.one_mul]
  refine ⟨?_, ?_, g1.trans h3, ?_⟩
  · show Valid P (forLoop 0 (niter P) _ t).1
    rw [hf]; exact lv
  · show Nondegenerate (forLoop 0 (niter P) _ t).1
    rw [hf]; exact lnd
  · intro j hj hjl
    show Positive ((forLoop 0 (niter P) _ t).2.getD j 0)
    by_cases hw : j < i * (P.N - 1)
    · exact g3 j (h4 j hw hjl)
    · exact g2 j (by omega) (by omega) (by rw [h3]; exact hjl)

/-- Every value that `fill_array` writes for a valid, non-degenerate state is
positive, and the state it leaves is live. -/
theorem fill_array_positive (P : Params) (hP : P.ok) (hN : 3 ≤ P.N) (hk : 1 ≤ niter P)
    (X : rng_state_t) (hX : Valid P X) (h0 : Nondegenerate X) (n : Nat)
    (array : List Int) (harr : array.length = n) :
    (fill_array P X n array).2.length = n ∧
    ∀ j, j < n → Positive ((fill_array P X n array).2.getD j 0) := by
  obtain ⟨b1, b2, b3, b4⟩ := fill_blocks_positive P hP hN hk X hX h0 array (n / (P.N - 1))
  have hdm := Nat.div_add_mod n (P.N - 1)
  have hcomm : (P.N - 1) * (n / (P.N - 1)) = n / (P.N - 1) * (P.N - 1) := Nat.mul_comm _ _
  have hmlt : n % (P.N - 1) < P.N - 1 := Nat.mod_lt _ (by omega)
  unfold fill_array
  by_cases hrem : n % (P.N - 1) ≠ 0
  · simp only [if_pos hrem]
    obtain ⟨lv, _, lnz, _⟩ := iterate_live P hP hN hk _ b1 b2
    obtain ⟨r1, r2⟩ := fill_rem_loop
      (iterate P (forLoop 0 (n / (P.N - 1)) (fun i s => forLoop 0 (niter P)
        (fun _ s => iterate_and_fill_array P s.1 s.2 (i * (P.N - 1))) s) (X, array)).1).V
      ((P.N - 1) * (n / (P.N - 1))) (n % (P.N - 1))
      (forLoop 0 (n / (P.N - 1)) (fun i s => forLoop 0 (niter P)
        (fun _ s => iterate_and_fill_array P s.1 s.2 (i * (P.N - 1))) s) (X, array)).2
    refine ⟨by rw [r1, b3, harr], ?_⟩
    intro j hj
    rw [r2 j, b3, harr]
    by_cases hw : j < n / (P.N - 1) * (P.N - 1)
    · rw [if_neg (by omega)]
      exact b4 j hw (by omega)
    · rw [if_pos ⟨by omega, by omega, hj⟩]
      exact int64_of_positive _ (lnz _ (by omega)) (getD_le_of_residues _ lv.2.1 _)
  · simp only [if_neg hrem]
    refine ⟨by rw [b3, harr], ?_⟩
    intro j hj
    exact b4 j (by omega) (by omega)

theorem fill_array_live (P : Params) (hP : P.ok) (hN : 3 ≤ P.N) (hk : 1 ≤ niter P)
    (X : rng_state_t) (hX : Live P X) (n : Nat) (array : List Int) :
    Live P (fill_array P X n array).1 := by
  obtain ⟨hv, h0, _⟩ := hX
  have hblocks := forLoop_inv 0 (n / (P.N - 1)) (fun _ X => iterate P X)
    (fun _ t => Valid P t ∧ Nondegenerate t) X (Nat.zero_le _) ⟨hv, h0⟩
    (fun _ t _ _ ⟨h1, h2⟩ =>
      ⟨(iterate_live P hP hN hk t h1 h2).1, (iterate_live P hP hN hk t h1 h2).2.1⟩)
  rw [fill_array_state]
  by_cases hrem : n % (P.N - 1) ≠ 0
  · rw [if_pos hrem]
    obtain ⟨⟨g1, g2, g3, _⟩, g5, g6, _⟩ := iterate_live P hP hN hk _ hblocks.1 hblocks.2
    have hlt : n % (P.N - 1) < P.N - 1 := Nat.mod_lt _ (by omega)
    exact ⟨⟨g1, g2, g3, by show n % (P.N - 1) ≤ P.N; omega⟩, g5, fun _ => g6⟩
  · rw [if_neg hrem]
    obtain ⟨⟨g1, g2, g3, _⟩, g5⟩ := hblocks
    exact ⟨⟨g1, g2, g3, Nat.le_refl _⟩, g5,
      fun h => absurd h (by show ¬ P.N < P.N; omega)⟩

theorem spbox_second_ne_zero (seed : Nat) (hs : seed ≠ 0) (hlt : seed < 2 ^ 64)
    (h0 : seed &&& MERSBASE = 0) : lcg_at seed 1 &&& MERSBASE ≠ 0 := by
  rw [and_MERSBASE] at h0
  have hdm := Nat.div_add_mod seed (2 ^ 61)
  obtain ⟨k, hk⟩ : ∃ k, seed / 2 ^ 61 = k := ⟨_, rfl⟩
  have hk1 : 1 ≤ k := by omega
  have hk7 : k ≤ 7 := by omega
  have hseed : seed = 2 ^ 61 * k := by omega
  subst hseed
  interval_cases k <;> decide

theorem spbox_nondegenerate (N seed : Nat) (hN : 2 ≤ N) (hN2 : N < 2 ^ 31) (hs : seed ≠ 0)
    (hlt : seed < 2 ^ 64) :
    (spbox_vector N seed).getD 0 0 ≠ 0 ∨ mod128 (spbox_vector N seed).tail.sum ≠ 0 := by
  have hget : ∀ i, i < N → (spbox_vector N seed).getD i 0 = lcg_at seed i &&& MERSBASE :=
    fun i hi => getD_map_range N _ i hi
  by_cases h0 : seed &&& MERSBASE = 0
  · right
    have h1 := spbox_second_ne_zero seed hs hlt h0
    have hlen : (spbox_vector N seed).length = N := by simp [spbox_vector]
    have hsum := residues_sum_lt N hN2 _ hlen (spbox_vector_residues N seed)
    rw [Ne, mod128_eq_zero_iff _ (by omega), tail_sum_eq, hlen, Finset.sum_eq_zero_iff]
    intro h
    have := h 1 (Finset.mem_Ico.mpr ⟨Nat.le_refl _, by omega⟩)
    rw [hget 1 (by omega)] at this
    exact h1 this
  · left
    rw [hget 0 (by omega)]
    exact h0

/-- Every legally constructed state is live when `nskip >= 0`. -/
theorem legal_live (P : Params) (hP : P.ok) (hN : 3 ≤ P.N) (hk : 1 ≤ niter P)
    (X : rng_state_t) (hL : Legal P X) : Live P X := by
  induction hL with
  | seed_vielbein X0 index X hlen heq =>
    by_cases hi : index < P.N
    · obtain ⟨X1, e1, v1, _⟩ := seed_vielbein_valid P X0 index hlen hi
      rw [heq] at e1
      cases e1
      refine ⟨v1, ?_, ?_⟩
      · rw [seed_vielbein_eq P X0 index hlen, if_pos hi] at heq
        cases heq
        show ((List.replicate P.N 0).set index 1).getD 0 0 ≠ 0 ∨ (if index = 0 then 0 else 1) ≠ 0
        by_cases h0 : index = 0
        · left
          rw [getD_basis, if_pos ⟨h0.symm, hi⟩]
          decide
        · right
          rw [if_neg h0]
          decide
      · rw [seed_vielbein_eq P X0 index hlen, if_pos hi] at heq
        cases heq
        intro h
        exact absurd h (by show ¬ P.N < P.N; omega)
    · rw [seed_vielbein_eq P X0 index hlen, if_neg hi] at heq
      cases heq
  | seed_spbox X0 seed X hlen hlt heq =>
    by_cases hs : seed = 0
    · rw [seed_spbox_eq P X0 seed (by omega) hP.1 hlen, if_pos hs] at heq
      cases heq
    · obtain ⟨X1, e1, v1, _⟩ := seed_spbox_valid P hP hN X0 seed hlen hs
      rw [heq] at e1
      cases e1
      rw [seed_spbox_eq P X0 seed (by omega) hP.1 hlen, if_neg hs] at heq
      cases heq
      exact ⟨v1, spbox_nondegenerate P.N seed (by omega) hP.1 hs (by rw [← W64_eq]; exact hlt),
        fun h => absurd h (by show ¬ P.N < P.N; omega)⟩
  | iterate X _ ih =>
    obtain ⟨g1, g2, g3, _⟩ := iterate_live P hP hN hk X ih.1 ih.2.1
    exact ⟨g1, g2, fun _ => g3⟩
  | get_next X _ ih => exact (get_next_live P hP hN hk X ih).1
  | fill_array X n array _ ih => exact fill_array_live P hP hN hk X ih n array

/-! ## Skip-ahead: the derived vectors are a matter of the table -/

theorem apply_bigskip_row_congr_table (P : Params) (row1 row2 : Nat)
    (h : ∀ j, P.skipMat row1 j = P.skipMat row2 j) (s : SkipSt) :
    apply_bigskip_row P row1 s = apply_bigskip_row P row2 s := by
  have hb : (fun j (s : SkipSt) =>
      ({ Y := (iterate_raw_vec P s.Y s.sumtot).1,
         cum := FUSEDMODMULVEC P.N (P.skipMat row1 j) s.Y s.cum,
         sumtot := (iterate_raw_vec P s.Y s.sumtot).2 } : SkipSt))
      = (fun j (s : SkipSt) =>
      ({ Y := (iterate_raw_vec P s.Y s.sumtot).1,
         cum := FUSEDMODMULVEC P.N (P.skipMat row2 j) s.Y s.cum,
         sumtot := (iterate_raw_vec P s.Y s.sumtot).2 } : SkipSt)) := by
    funext j t
    rw [h j]
  unfold apply_bigskip_row
  simp only [hb]

/-- Whether `seed_uniquestream` with the identifiers `(0, 0, 0, 1)` and `(0, 0, 0, 2)`
yields different vectors is decided by the skip table, which is data outside the
function: for a table whose rows `0` and `1` are equal the two states are equal, for
every `N >= 3` (`N = 256` included). -/
theorem seed_uniquestream_equal_rows (P : Params) (hP : P.ok) (hT : TableOk P)
    (hN : 3 ≤ P.N) (X : rng_state_t) (hX : X.V.length = P.N)
    (h : ∀ j, P.skipMat 0 j = P.skipMat 1 j) :
    seed_uniquestream P X 0 0 0 1 = seed_uniquestream P X 0 0 0 2 := by
  have hv := seed_vielbein_eq P X 0 hX
  rw [if_pos (by omega : 0 < P.N)] at hv
  have hz1 : ∀ k, k ≠ 0 → ([1, 0, 0, 0] : List Nat).getD k 0 = 0 := fun k hk =>
    match k, hk with
    | 0, h => absurd rfl h
    | 1, _ => rfl
    | 2, _ => rfl
    | 3, _ => rfl
    | _ + 4, _ => rfl
  have hz2 : ∀ k, k ≠ 0 → ([2, 0, 0, 0] : List Nat).getD k 0 = 0 := fun k hk =>
    match k, hk with
    | 0, h => absurd rfl h
    | 1, _ => rfl
    | 2, _ => rfl
    | 3, _ => rfl
    | _ + 4, _ => rfl
  have e1 := apply_bigskip_one_bit_eq P hP hT hN ((List.replicate P.N 0).set 0 1)
    ((List.replicate P.N 0).set 0 1) (by simp) (by simp) (basis_residues P.N 0) 0 0 0 1 0 0
    (by decide) rfl hz1
  have e2 := apply_bigskip_one_bit_eq P hP hT hN ((List.replicate P.N 0).set 0 1)
    ((List.replicate P.N 0).set 0 1) (by simp) (by simp) (basis_residues P.N 0) 0 0 0 2 0 1
    (by decide) rfl hz2
  have hrow := apply_bigskip_row_congr_table P (0 + 0 * ID_BITS) (1 + 0 * ID_BITS) h
  unfold seed_uniquestream
  rw [hv]
  simp only [e1, e2, hrow]

/-- In every configuration with a `SPECIAL` term, `iterate_and_fill_array` leaves in
`array[2]` the new `V[2]`, the value that belongs in `array[1]`. -/
theorem iterate_and_fill_array_slot_two (P : Params) (f : Nat → Nat)
    (hf : P.MOD_MULSPEC = some f) (hN : 3 ≤ P.N) (X : rng_state_t)
    (hlen : X.V.length = P.N) (array : List Int) (off : Nat) (harr : off + 2 < array.length) :
    (iterate_and_fill_array P X array off).2.getD (off + 2) 0
      = int64_of ((iterate_step P X).V.getD 2 0) := by
  obtain ⟨h1, _⟩ := fill_loop_array X.V X.sumtot P.N off array (by omega) hlen
  rw [iterate_and_fill_array_snd_eq, iterate_and_fill_array_fst]
  simp only [hf]
  rw [getD_set_int, if_pos ⟨rfl, by rw [h1]; exact harr⟩]

/-! ## The arithmetic kernel: `mod128`, `modadd`, `modmulM61`, `fmodmulM61` -/

/-- C1: for every 128-bit `s <= MERSBASE*MERSBASE + MERSBASE`, `mod128 s` is computed
without 64-bit overflow (the product `(s>>64)*8`, the sum `s1` and the final
`MOD_MERSENNE` sum all stay below `2^64`, so that `mod128 s` is the value of the
same expressions over the unbounded integers), its result `r` satisfies
`r <= MERSBASE`, and `r` is congruent to `s` modulo `MERSBASE`. -/
theorem mod128_correct (s : Nat) (hs : s ≤ MERSBASE * MERSBASE + MERSBASE) :
    (s >>> 64) * 8 < 2 ^ 64 ∧
    ((s % 2 ^ 64) &&& MERSBASE) + (s >>> 64) * 8 + ((s % 2 ^ 64) >>> BITS) < 2 ^ 64 ∧
    mod128 s =
      ((((s % 2 ^ 64) &&& MERSBASE) + (s >>> 64) * 8 + ((s % 2 ^ 64) >>> BITS)) &&& MERSBASE)
        + ((((s % 2 ^ 64) &&& MERSBASE) + (s >>> 64) * 8 + ((s % 2 ^ 64) >>> BITS)) >>> BITS) ∧
    mod128 s ≤ MERSBASE ∧
    mod128 s % MERSBASE = s % MERSBASE := by
  have hs' : s ≤ 5316911983139663489309385231907684352 := by
    have : MERSBASE * MERSBASE + MERSBASE = 5316911983139663489309385231907684352 := by
      decide
    omega
  have hw := mod128_s1_wide_eq s
  obtain ⟨hlt, hle⟩ := mod128_le s hs
  have hhi : (s >>> 64) * 8 < 2 ^ 64 := by
    rw [Nat.shiftRight_eq_div_pow]; omega
  have hwide : ((s % 2 ^ 64) &&& MERSBASE) + (s >>> 64) * 8 + ((s % 2 ^ 64) >>> BITS)
      = mod128_s1_wide s := by
    rw [hw, and_MERSBASE, BITS, Nat.shiftRight_eq_div_pow, Nat.shiftRight_eq_div_pow]
    omega
  refine ⟨hhi, ?_, ?_, hle, (mod128_congr s (by omega)).2⟩
  · rw [hwide]; exact hlt
  · rw [hwide, mod128_eq, Nat.mod_eq_of_lt hlt]
    unfold MOD_MERSENNE
    rw [W64_eq, and_MERSBASE, BITS, Nat.shiftRight_eq_div_pow]
    omega

/-- Witness of C1 at the largest admitted argument, `MERSBASE*MERSBASE + MERSBASE`,
where the result is the representative `MERSBASE` of zero. -/
theorem mod128_correct_witness :
    MERSBASE * MERSBASE + MERSBASE ≤ MERSBASE * MERSBASE + MERSBASE ∧
    mod128 (MERSBASE * MERSBASE + MERSBASE) ≤ MERSBASE ∧
    mod128 (MERSBASE * MERSBASE + MERSBASE) % MERSBASE
      = (MERSBASE * MERSBASE + MERSBASE) % MERSBASE :=
  ⟨Nat.le_refl _, (mod128_correct _ (Nat.le_refl _)).2.2.2⟩

/-- C2: for residues `a`, `b` in `[0, MERSBASE]`, `modadd a b` is again in
`[0, MERSBASE]` and is congruent to `a + b` modulo `MERSBASE`. -/
theorem modadd_correct (a b : Nat) (ha : a ≤ MERSBASE) (hb : b ≤ MERSBASE) :
    modadd a b ≤ MERSBASE ∧ modadd a b % MERSBASE = (a + b) % MERSBASE :=
  ⟨modadd_le a b ha hb, modadd_congr a b ha hb⟩

/-- Witness of C2 at `a = b = MERSBASE`. -/
theorem modadd_correct_witness :
    MERSBASE ≤ MERSBASE ∧ MERSBASE ≤ MERSBASE ∧
    modadd MERSBASE MERSBASE ≤ MERSBASE ∧
    modadd MERSBASE MERSBASE % MERSBASE = (MERSBASE + MERSBASE) % MERSBASE :=
  ⟨Nat.le_refl _, Nat.le_refl _, modadd_correct MERSBASE MERSBASE (Nat.le_refl _) (Nat.le_refl _)⟩

/-- C3: for residues `cum`, `a`, `b` in `[0, MERSBASE]`, `fmodmulM61 cum a b` is in
`[0, MERSBASE]` and congruent to `cum + a*b` modulo `MERSBASE`, and
`modmulM61 a b = fmodmulM61 0 a b`, a residue congruent to `a*b`. -/
theorem fmodmulM61_correct (cum a b : Nat) (hc : cum ≤ MERSBASE) (ha : a ≤ MERSBASE)
    (hb : b ≤ MERSBASE) :
    fmodmulM61 cum a b ≤ MERSBASE ∧
    fmodmulM61 cum a b % MERSBASE = (cum + a * b) % MERSBASE ∧
    modmulM61 a b = fmodmulM61 0 a b ∧
    modmulM61 a b ≤ MERSBASE ∧
    modmulM61 a b % MERSBASE = (a * b) % MERSBASE := by
  have h0 : modmulM61 a b = fmodmulM61 0 a b := by
    unfold modmulM61 fmodmulM61
    simp only [Nat.add_zero, Nat.mod_mod]
  refine ⟨fmodmulM61_le cum a b hc ha hb, fmodmulM61_congr cum a b hc ha hb, h0, ?_, ?_⟩
  · rw [h0]; exact fmodmulM61_le 0 a b (Nat.zero_le _) ha hb
  · rw [h0, fmodmulM61_congr 0 a b (Nat.zero_le _) ha hb, Nat.zero_add]

/-- Witness of C3 at `cum = a = b = MERSBASE`. -/
theorem fmodmulM61_correct_witness :
    MERSBASE ≤ MERSBASE ∧
    fmodmulM61 MERSBASE MERSBASE MERSBASE ≤ MERSBASE ∧
    fmodmulM61 MERSBASE MERSBASE MERSBASE % MERSBASE
      = (MERSBASE + MERSBASE * MERSBASE) % MERSBASE ∧
    modmulM61 MERSBASE MERSBASE = fmodmulM61 0 MERSBASE MERSBASE ∧
    modmulM61 MERSBASE MERSBASE ≤ MERSBASE ∧
    modmulM61 MERSBASE MERSBASE % MERSBASE = (MERSBASE * MERSBASE) % MERSBASE :=
  ⟨Nat.le_refl _,
    fmodmulM61_correct MERSBASE MERSBASE MERSBASE (Nat.le_refl _) (Nat.le_refl _)
      (Nat.le_refl _)⟩

/-! ## The iteration step as a linear recurrence -/

/-- Witness of C4 on the vector `[1, 2, 3, 4]` with checksum `9 = 2 + 3 + 4`, in a
configuration with a `SPECIAL` term, at the components `0` and `2`. -/
theorem iterate_raw_vec_linear_witness :
    exampleParams.ok ∧ 3 ≤ exampleParams.N ∧ [1, 2, 3, 4].length = exampleParams.N ∧
    Residues [1, 2, 3, 4] ∧ 9 ≤ MERSBASE ∧
    (iterate_raw_vec exampleParams [1, 2, 3, 4] 9).1.getD 0 0 % MERSBASE
      = ([1, 2, 3, 4].getD 0 0 + 9) % MERSBASE ∧
    (iterate_raw_vec exampleParams [1, 2, 3, 4] 9).1.getD 2 0 % MERSBASE
      = (∑ k in Finset.range exampleParams.N, matA 2 k * [1, 2, 3, 4].getD k 0
          + special_term exampleParams [1, 2, 3, 4] 2) % MERSBASE :=
  ⟨exampleParams_ok, by decide, by decide, by decide, by decide,
    (iterate_raw_vec_linear exampleParams exampleParams_ok [1, 2, 3, 4] 9 (by decide)
      (by decide) (by decide) (by decide)).1,
    (iterate_raw_vec_linear exampleParams exampleParams_ok [1, 2, 3, 4] 9 (by decide)
      (by decide) (by decide) (by decide)).2.2 (by decide) 2 (by decide)⟩

/-! ## The checksum invariant -/

/-- Every reachable state is valid and satisfies the checksum invariant. -/
theorem reachable_valid (P : Params) (hP : P.ok) (hT : TableOk P) (hN : 3 ≤ P.N)
    (X : rng_state_t) (hR : Reachable P X) : Valid P X ∧ ChecksumInv X := by
  induction hR with
  | seed_vielbein X0 index X hlen heq =>
    by_cases hi : index < P.N
    · obtain ⟨X1, e1, v1, c1⟩ := seed_vielbein_valid P X0 index hlen hi
      rw [heq] at e1
      cases e1
      exact ⟨v1, c1⟩
    · rw [seed_vielbein_eq P X0 index hlen, if_neg hi] at heq
      cases heq
  | seed_spbox X0 seed X hlen _ heq =>
    by_cases hs : seed = 0
    · rw [seed_spbox_eq P X0 seed (by omega) hP.1 hlen, if_pos hs] at heq
      cases heq
    · obtain ⟨X1, e1, v1, c1⟩ := seed_spbox_valid P hP hN X0 seed hlen hs
      rw [heq] at e1
      cases e1
      exact ⟨v1, c1⟩
  | get_next X _ ih =>
    exact ⟨(get_next_valid P hP hN X ih.1).1, (get_next_valid P hP hN X ih.1).2 ih.2⟩
  | fill_array X n array _ ih =>
    exact ⟨(fill_array_valid P hP hN X n array ih.1).1,
      (fill_array_valid P hP hN X n array ih.1).2 ih.2⟩
  | iterate X _ ih =>
    exact ⟨(iterate_valid P hP hN X ih.1).1, (iterate_valid P hP hN X ih.1).2.1 ih.2⟩
  | skip X IDvec _ ih =>
    exact branch_inplace_valid P hP hT hN X IDvec ih.1

/-- C6, as stated, fails: after `seed_vielbein(X, 0)` (here `N = 4`) the vector is
`(1, 0, 0, 0)` and `sumtot = 0`, while the sum of all `N` elements, element 0
included, is `1`. Moreover the checksum is a representative in `[0, MERSBASE]`, not
the remainder: after `seed_spbox(X, 6802899411188449398)` with `N = 3`,
`V[1] + V[2] = MERSBASE` and `sumtot = MERSBASE`, whereas the sum of `V[1..N)`
modulo `MERSBASE` is `0`. -/
theorem checksum_all_elements_counterexample :
    (Reachable exampleParams { V := [1, 0, 0, 0], sumtot := 0, counter := 4 } ∧
      ¬ ((0 : Nat) = [1, 0, 0, 0].sum % MERSBASE)) ∧
    (Reachable smallParams
        { V := [2191213392761061494, 1439637570027247333, 866205439186446618],
          sumtot := 2305843009213693951, counter := 3 } ∧
      ¬ (2305843009213693951
          = [1439637570027247333, 866205439186446618].sum % MERSBASE)) :=
  ⟨⟨Reachable.seed_vielbein exampleState 0 _ (by decide) rfl, by decide⟩,
    ⟨Reachable.seed_spbox smallState 6802899411188449398 _ (by decide) (by decide) rfl,
      by decide⟩⟩

/-- C6 (amended): for every state obtained by `seed_vielbein` or `seed_spbox`
followed by any sequence of `get_next`, `fill_array`, `iterate` and skip
(`branch_inplace`, the in-place `apply_bigskip`) calls, `sumtot` is congruent modulo
`MERSBASE` to the sum of `V[1..N)`, element 0 excluded, and lies in `[0, MERSBASE]`. -/
theorem reachable_checksum (P : Params) (hP : P.ok) (hT : TableOk P) (hN : 3 ≤ P.N)
    (X : rng_state_t) (hR : Reachable P X) :
    X.sumtot % MERSBASE = X.V.tail.sum % MERSBASE ∧ X.sumtot ≤ MERSBASE :=
  ⟨(reachable_valid P hP hT hN X hR).2, (reachable_valid P hP hT hN X hR).1.2.2.1⟩

/-- Witness of C6 (amended): the state reached from `seed_vielbein(X, 0)` by one
`get_next`, with `N = 4` and a `SPECIAL` term. -/
theorem reachable_checksum_witness :
    exampleParams.ok ∧ TableOk exampleParams ∧ 3 ≤ exampleParams.N ∧
    Reachable exampleParams
      (get_next exampleParams { V := [1, 0, 0, 0], sumtot := 0, counter := 4 }).2 ∧
    (get_next exampleParams { V := [1, 0, 0, 0], sumtot := 0, counter := 4 }).2.sumtot
        % MERSBASE
      = (get_next exampleParams { V := [1, 0, 0, 0], sumtot := 0, counter := 4 }).2.V.tail.sum
        % MERSBASE ∧
    (get_next exampleParams { V := [1, 0, 0, 0], sumtot := 0, counter := 4 }).2.sumtot
      ≤ MERSBASE :=
  ⟨exampleParams_ok, exampleParams_table, by decide,
    Reachable.get_next _ (Reachable.seed_vielbein exampleState 0 _ (by decide) rfl),
    reachable_checksum exampleParams exampleParams_ok exampleParams_table (by decide) _
      (Reachable.get_next _ (Reachable.seed_vielbein exampleState 0 _ (by decide) rfl))⟩

/-! ## Invariants I2 and I3 -/

/-- C7: the predicate `Valid` (every `V[i]` in `[0, MERSBASE]`, `sumtot` in
`[0, MERSBASE]`, `counter` in `[0, N]`, for a vector of `N` elements) holds after
`seed_vielbein` with `index < N` and after `seed_spbox` with a non-zero seed, and is
preserved by `iterate_raw_vec` (`iterate_step`), `iterate`, `get_next` and
`fill_array` for every `n`, which leaves `counter = n mod (N-1)` when that remainder
is non-zero and `counter = N` otherwise; assuming `N >= 3` and that `MOD_MULSPEC`
maps residues to residues (`Params.ok`). -/
theorem valid_invariant (P : Params) (hP : P.ok) (hN : 3 ≤ P.N)
    (X0 : rng_state_t) (hX0 : X0.V.length = P.N)
    (index : Nat) (hindex : index < P.N) (seed : Nat) (hseed : seed ≠ 0)
    (X : rng_state_t) (hX : Valid P X) (n : Nat) (array : List Int) :
    (∃ X1, seed_vielbein P X0 index = Except.ok X1 ∧ Valid P X1) ∧
    (∃ X2, seed_spbox P X0 seed = Except.ok X2 ∧ Valid P X2) ∧
    ((iterate_raw_vec P X.V X.sumtot).1.length = P.N ∧
      Residues (iterate_raw_vec P X.V X.sumtot).1 ∧
      (iterate_raw_vec P X.V X.sumtot).2 ≤ MERSBASE) ∧
    Valid P (iterate_step P X) ∧
    Valid P (iterate P X) ∧
    Valid P (get_next P X).2 ∧
    Valid P (fill_array P X n array).1 ∧
    (fill_array P X n array).1.counter
      = (if n % (P.N - 1) ≠ 0 then n % (P.N - 1) else P.N) := by
  obtain ⟨X1, e1, v1, _⟩ := seed_vielbein_valid P X0 index hX0 hindex
  obtain ⟨X2, e2, v2, _⟩ := seed_spbox_valid P hP hN X0 seed hX0 hseed
  obtain ⟨r1, r2, r3, _⟩ := iterate_raw_vec_valid P hP X.V X.sumtot hN hX.1 hX.2.1 hX.2.2.1
  exact ⟨⟨X1, e1, v1⟩, ⟨X2, e2, v2⟩, ⟨r1, r2, r3⟩, (iterate_step_valid P hP hN X hX).1,
    (iterate_valid P hP hN X hX).1, (get_next_valid P hP hN X hX).1,
    (fill_array_valid P hP hN X n array hX).1, fill_array_counter P X n array⟩

/-- Witness of C7 in the configuration `exampleParams` (with a `SPECIAL` term), on
the exhausted state `exampleState`, for `fill_array` with `n = 5`. -/
theorem valid_invariant_witness :
    exampleParams.ok ∧ 3 ≤ exampleParams.N ∧ exampleState.V.length = exampleParams.N ∧
    1 < exampleParams.N ∧ 7 ≠ 0 ∧ Valid exampleParams exampleState ∧
    (∃ X1, seed_vielbein exampleParams exampleState 1 = Except.ok X1 ∧
      Valid exampleParams X1) ∧
    (∃ X2, seed_spbox exampleParams exampleState 7 = Except.ok X2 ∧
      Valid exampleParams X2) ∧
    ((iterate_raw_vec exampleParams exampleState.V exampleState.sumtot).1.length
        = exampleParams.N ∧
      Residues (iterate_raw_vec exampleParams exampleState.V exampleState.sumtot).1 ∧
      (iterate_raw_vec exampleParams exampleState.V exampleState.sumtot).2 ≤ MERSBASE) ∧
    Valid exampleParams (iterate_step exampleParams exampleState) ∧
    Valid exampleParams (iterate exampleParams exampleState) ∧
    Valid exampleParams (get_next exampleParams exampleState).2 ∧
    Valid exampleParams (fill_array exampleParams exampleState 5 [0, 0, 0, 0, 0]).1 ∧
    (fill_array exampleParams exampleState 5 [0, 0, 0, 0, 0]).1.counter
      = (if 5 % (exampleParams.N - 1) ≠ 0 then 5 % (exampleParams.N - 1)
          else exampleParams.N) :=
  ⟨exampleParams_ok, by decide, by decide, by decide, by decide, exampleState_valid,
    valid_invariant exampleParams exampleParams_ok (by decide) exampleState (by decide)
      1 (by decide) 7 (by decide) exampleState exampleState_valid 5 [0, 0, 0, 0, 0]⟩

/-! ## Single-value extraction -/

/-- C8: for a state `X` with `counter <= N`: if `counter < N`, `get_next` returns
`V[counter]`, increments `counter` and leaves `V` and `sumtot` unchanged; if
`counter = N`, it replaces `(V, sumtot)` by the result of `nskip + 1` successive
`iterate_raw_vec` steps (`iterate_step`), which is the update of `iterate(X)` and is
three steps for the default `nskip = 2`, sets `counter` to 2 and returns the new
`V[1]`. The number `nskip + 1` is assumed to be a count (`nskip >= -1`). -/
theorem get_next_spec (P : Params) (hs : -1 ≤ P.nskip) (X : rng_state_t)
    (hc : X.counter ≤ P.N) :
    get_next P X
      = (if X.counter < P.N then
          (X.V.getD X.counter 0,
            { V := X.V, sumtot := X.sumtot, counter := X.counter + 1 })
        else
          (((iterate_step P)^[niter P] X).V.getD 1 0,
            { V := ((iterate_step P)^[niter P] X).V,
              sumtot := ((iterate_step P)^[niter P] X).sumtot, counter := 2 })) ∧
    (¬ X.counter < P.N ↔ X.counter = P.N) ∧
    iterate P X = (iterate_step P)^[niter P] X ∧
    (niter P : Int) = P.nskip + 1 ∧
    niter { P with nskip := 2 } = 3 := by
  have hit : forLoop 0 (niter P) (fun _ X => iterate_step P X) X
      = (iterate_step P)^[niter P] X := forLoop_iterate (iterate_step P) (niter P) X
  refine ⟨?_, by omega, hit, ?_, rfl⟩
  · unfold get_next
    by_cases h : X.counter < P.N
    · simp only [if_pos h]
    · simp only [if_neg h, hit]
  · unfold niter
    omega

/-- Witness of C8 on the exhausted state `exampleState` (`counter = N = 4`). -/
theorem get_next_spec_witness :
    -1 ≤ exampleParams.nskip ∧ exampleState.counter ≤ exampleParams.N ∧
    get_next exampleParams exampleState
      = (if exampleState.counter < exampleParams.N then
          (exampleState.V.getD exampleState.counter 0,
            { V := exampleState.V, sumtot := exampleState.sumtot,
              counter := exampleState.counter + 1 })
        else
          (((iterate_step exampleParams)^[niter exampleParams] exampleState).V.getD 1 0,
            { V := ((iterate_step exampleParams)^[niter exampleParams] exampleState).V,
              sumtot := ((iterate_step exampleParams)^[niter exampleParams] exampleState).sumtot,
              counter := 2 })) ∧
    (¬ exampleState.counter < exampleParams.N ↔ exampleState.counter = exampleParams.N) ∧
    iterate exampleParams exampleState
      = (iterate_step exampleParams)^[niter exampleParams] exampleState ∧
    (niter exampleParams : Int) = exampleParams.nskip + 1 ∧
    niter { exampleParams with nskip := 2 } = 3 :=
  ⟨by decide, by decide, get_next_spec exampleParams (by decide) exampleState (by decide)⟩

/-! ## Seeding with a basis vector -/

/-- C10: `seed_vielbein(X, index)` succeeds if and only if `index < N`, and fails
with `ARRAY_INDEX_OUT_OF_BOUNDS` otherwise (`index = N` included); on success
`V[index] = 1`, `V[i] = 0` for every other `i`, `counter = N`, and `sumtot` is `0`
when `index = 0` and `1` otherwise. `X->V` is an array of `N` elements. -/
theorem seed_vielbein_spec (P : Params) (X : rng_state_t) (index : Nat)
    (hlen : X.V.length = P.N) :
    seed_vielbein P X index
      = (if index < P.N then
          Except.ok { V := (List.replicate P.N 0).set index 1,
                      sumtot := if index = 0 then 0 else 1, counter := P.N }
        else Except.error ExitCode.ARRAY_INDEX_OUT_OF_BOUNDS) ∧
    ((∃ X1, seed_vielbein P X index = Except.ok X1) ↔ index < P.N) ∧
    seed_vielbein P X P.N = Except.error ExitCode.ARRAY_INDEX_OUT_OF_BOUNDS ∧
    ((List.replicate P.N 0).set index 1).length = P.N ∧
    (∀ i, ((List.replicate P.N 0).set index 1).getD i 0
      = if i = index ∧ index < P.N then 1 else 0) := by
  have h := seed_vielbein_eq P X index hlen
  refine ⟨h, ?_, ?_, by simp, getD_basis P.N index⟩
  · rw [h]
    by_cases hi : index < P.N
    · simp [hi]
    · simp [hi]
  · rw [seed_vielbein_eq P X P.N hlen, if_neg (Nat.lt_irrefl _)]

/-- Witness of C10 for `N = 3` and `index = 2`. -/
theorem seed_vielbein_spec_witness :
    smallState.V.length = smallParams.N ∧
    seed_vielbein smallParams smallState 2
      = (if 2 < smallParams.N then
          Except.ok { V := (List.replicate smallParams.N 0).set 2 1,
                      sumtot := if 2 = 0 then 0 else 1, counter := smallParams.N }
        else Except.error ExitCode.ARRAY_INDEX_OUT_OF_BOUNDS) ∧
    ((∃ X1, seed_vielbein smallParams smallState 2 = Except.ok X1) ↔ 2 < smallParams.N) ∧
    seed_vielbein smallParams smallState smallParams.N
      = Except.error ExitCode.ARRAY_INDEX_OUT_OF_BOUNDS ∧
    ((List.replicate smallParams.N 0).set 2 1).length = smallParams.N ∧
    (∀ i, ((List.replicate smallParams.N 0).set 2 1).getD i 0
      = if i = 2 ∧ 2 < smallParams.N then 1 else 0) :=
  ⟨by decide, seed_vielbein_spec smallParams smallState 2 (by decide)⟩

/-! ## Bulk extraction against sequential extraction -/

/-- C9, as stated, fails. (a) With `N = 3`, `SPECIAL == 0`, `nskip = 2`, after
`seed_vielbein(X, 0)` and for `n = N = 3`, `fill_array` writes `17, 27, 1087` (the
last value is `V[0]` of the next iterated vector) while three `get_next_float` calls
return `17, 27, 1410` (`V[1]` of it). (b) With `N = 4` and a `SPECIAL` term, for
`n = N - 1 = 3`, `fill_array` writes `30, 41, 36` while the calls return `30, 36, 62`.
(c) With `nskip = -1` no iteration takes place: `fill_array` leaves the array as it
was, `0, 0`, while the calls return `V[1], V[2] = 1, 0`. -/
theorem fill_array_vs_get_next_counterexample :
    (seed_vielbein smallParams smallState 0
        = Except.ok { V := [1, 0, 0], sumtot := 0, counter := 3 } ∧
      (fill_array smallParams { V := [1, 0, 0], sumtot := 0, counter := 3 } 3 [0, 0, 0]).2
        = [17, 27, 1087] ∧
      (get_next_float_seq smallParams 3 { V := [1, 0, 0], sumtot := 0, counter := 3 }).1
        = [17, 27, 1410]) ∧
    (seed_vielbein exampleParams exampleState 0
        = Except.ok { V := [1, 0, 0, 0], sumtot := 0, counter := 4 } ∧
      (fill_array exampleParams { V := [1, 0, 0, 0], sumtot := 0, counter := 4 } 3
          [0, 0, 0]).2 = [30, 41, 36] ∧
      (get_next_float_seq exampleParams 3
          { V := [1, 0, 0, 0], sumtot := 0, counter := 4 }).1 = [30, 36, 62]) ∧
    (seed_vielbein { smallParams with nskip := -1 } smallState 1
        = Except.ok { V := [0, 1, 0], sumtot := 1, counter := 3 } ∧
      (fill_array { smallParams with nskip := -1 }
          { V := [0, 1, 0], sumtot := 1, counter := 3 } 2 [0, 0]).2 = [0, 0] ∧
      (get_next_float_seq { smallParams with nskip := -1 } 2
          { V := [0, 1, 0], sumtot := 1, counter := 3 }).1 = [1, 0]) :=
  ⟨⟨rfl, rfl, rfl⟩, ⟨rfl, rfl, rfl⟩, ⟨rfl, rfl, rfl⟩⟩

/-- C9 (amended): with `SPECIAL == 0` and `nskip >= 0`, for every `n` and every
state whose counter is `N` (as `seed_vielbein` and `seed_spbox` leave it), the
integers returned by `n` sequential `get_next_float` calls are, block after block,
`V[1..N)` of the successive iterated vectors; `fill_array` writes the same values
at the first `n - n mod (N-1)` positions, and at the last `n mod (N-1)` positions it
writes `V[0..)` of the next iterated vector, where the calls return `V[1..)`. Hence
the two outputs agree on the first `n - n mod (N-1)` positions, and when `n` is a
multiple of `N-1` (`n = 0`, `N-1`, `2(N-1)`, ...) the outputs and the states left
behind are equal. -/
theorem fill_array_vs_get_next (P : Params) (hnone : P.MOD_MULSPEC = none)
    (hskip : 0 ≤ P.nskip) (hN : 3 ≤ P.N) (X : rng_state_t) (hlen : X.V.length = P.N)
    (hc : X.counter = P.N) (n : Nat) (array : List Int) (harr : array.length = n) :
    (get_next_float_seq P n X).1
      = (List.range n).map (fun j =>
          int64_of ((block_vector P X (j / (P.N - 1) + 1)).getD (j % (P.N - 1) + 1) 0)) ∧
    (fill_array P X n array).2
      = (List.range n).map (fun j =>
          if j < n - n % (P.N - 1) then
            int64_of ((block_vector P X (j / (P.N - 1) + 1)).getD (j % (P.N - 1) + 1) 0)
          else
            int64_of ((block_vector P X (j / (P.N - 1) + 1)).getD (j % (P.N - 1)) 0)) ∧
    (fill_array P X n array).2.take (n - n % (P.N - 1))
      = (get_next_float_seq P n X).1.take (n - n % (P.N - 1)) ∧
    (n % (P.N - 1) = 0 →
      (fill_array P X n array).2 = (get_next_float_seq P n X).1 ∧
      (fill_array P X n array).1 = (get_next_float_seq P n X).2) := by
  have hk : 1 ≤ niter P := by unfold niter; omega
  have hM : 0 < P.N - 1 := by omega
  have hseq := get_next_float_seq_spec P (by omega) n X (by omega) (by omega)
  have hfill := fill_array_snd P hnone hk hN X hlen n array harr
  have hseq1 : (get_next_float_seq P n X).1
      = (List.range n).map (fun j =>
          int64_of ((block_vector P X (j / (P.N - 1) + 1)).getD (j % (P.N - 1) + 1) 0)) := by
    rw [hseq]
    apply List.map_congr_left
    intro j _
    rw [hc, Nat.add_div_left j hM, Nat.add_mod_left]
  refine ⟨hseq1, hfill, ?_, ?_⟩
  · rw [hseq1, hfill, ← List.map_take, ← List.map_take]
    apply List.map_congr_left
    intro j hj
    rw [List.take_range] at hj
    have hj2 : j < n - n % (P.N - 1) := by
      have := List.mem_range.mp hj
      omega
    rw [if_pos hj2]
  · intro hrem
    refine ⟨?_, ?_⟩
    · rw [hseq1, hfill]
      apply List.map_congr_left
      intro j hj
      have hj2 : j < n - n % (P.N - 1) := by
        have := List.mem_range.mp hj
        omega
      rw [if_pos hj2]
    · rw [fill_array_state, if_neg (by omega), forLoop_iterate, hseq]
      have hdm := Nat.div_add_mod n (P.N - 1)
      have e1 : X.counter - 2 + n = (P.N - 1 - 1) + n / (P.N - 1) * (P.N - 1) := by
        rw [Nat.mul_comm (n / (P.N - 1))]; omega
      have e2 : (P.N - 1 - 1 + n / (P.N - 1) * (P.N - 1)) / (P.N - 1) = n / (P.N - 1) := by
        rw [Nat.add_mul_div_right _ _ hM, Nat.div_eq_of_lt (by omega), Nat.zero_add]
      have e3 : (P.N - 1 - 1 + n / (P.N - 1) * (P.N - 1)) % (P.N - 1) + 2 = P.N := by
        rw [Nat.add_mul_mod_self_right, Nat.mod_eq_of_lt (by omega)]; omega
      simp only [e1, e2, e3]

/-- Witness of C9 (amended): `N = 3`, `SPECIAL == 0`, `nskip = 2`, the state left by
`seed_vielbein(X, 0)`, and `n = 4 = 2(N-1)`. -/
theorem fill_array_vs_get_next_witness :
    smallParams.MOD_MULSPEC = none ∧ 0 ≤ smallParams.nskip ∧ 3 ≤ smallParams.N ∧
    seed_vielbein smallParams smallState 0
      = Except.ok { V := [1, 0, 0], sumtot := 0, counter := 3 } ∧
    [0, 0, 0, 0].length = 4 ∧ 4 % (smallParams.N - 1) = 0 ∧
    (fill_array smallParams { V := [1, 0, 0], sumtot := 0, counter := 3 } 4 [0, 0, 0, 0]).2
      = (get_next_float_seq smallParams 4 { V := [1, 0, 0], sumtot := 0, counter := 3 }).1 ∧
    (fill_array smallParams { V := [1, 0, 0], sumtot := 0, counter := 3 } 4 [0, 0, 0, 0]).1
      = (get_next_float_seq smallParams 4 { V := [1, 0, 0], sumtot := 0, counter := 3 }).2 :=
  ⟨rfl, by decide, by decide, rfl, rfl, by decide,
    (fill_array_vs_get_next smallParams rfl (by decide) (by decide)
      { V := [1, 0, 0], sumtot := 0, counter := 3 } rfl rfl 4 [0, 0, 0, 0] rfl).2.2.2
      (by decide)⟩

/-! ## Seeding with the linear congruential generator -/

/-- C11: `seed_spbox(X, seed)` fails, with `SEED_WAS_ZERO`, if and only if `seed = 0`;
for every seed `!= 0` it sets `V[0] = seed & MERSBASE` and, for `1 <= i < N`,
`V[i] = l_i & MERSBASE`, where `l_0 = seed` and
`l_i = swap32(l_{i-1} * 6364136223846793005 mod 2^64)` with
`swap32(x) = ((x << 32) mod 2^64) xor (x >> 32)` (`lcg_at`), sets `counter = N`, and
sets `sumtot = mod128(sum of V[1..N))`. `X->V` is an array of `N` elements and `N`
is a positive `int`. -/
theorem seed_spbox_spec (P : Params) (X : rng_state_t) (seed : Nat) (hN : 1 ≤ P.N)
    (hN2 : P.N < 2 ^ 31) (hlen : X.V.length = P.N) :
    seed_spbox P X seed
      = (if seed = 0 then Except.error ExitCode.SEED_WAS_ZERO
        else Except.ok { V := spbox_vector P.N seed,
                         sumtot := mod128 (spbox_vector P.N seed).tail.sum,
                         counter := P.N }) ∧
    ((∃ e, seed_spbox P X seed = Except.error e) ↔ seed = 0) ∧
    (spbox_vector P.N seed).length = P.N ∧
    (spbox_vector P.N seed).getD 0 0 = seed &&& MERSBASE ∧
    (∀ i, i < P.N → (spbox_vector P.N seed).getD i 0 = lcg_at seed i &&& MERSBASE) ∧
    lcg_at seed 0 = seed ∧
    (∀ i, lcg_at seed (i + 1)
      = ((((lcg_at seed i * 6364136223846793005) % 2 ^ 64) <<< 32) % 2 ^ 64)
          ^^^ (((lcg_at seed i * 6364136223846793005) % 2 ^ 64) >>> 32)) := by
  have h := seed_spbox_eq P X seed hN hN2 hlen
  have hget : ∀ i, i < P.N → (spbox_vector P.N seed).getD i 0 = lcg_at seed i &&& MERSBASE :=
    fun i hi => getD_map_range P.N _ i hi
  refine ⟨h, ?_, by simp [spbox_vector], hget 0 (by omega), hget, rfl, fun _ => rfl⟩
  rw [h]
  by_cases hs : seed = 0
  · simp [hs]
  · simp [hs]

/-- Witness of C11 for `N = 3` and `seed = 1`. -/
theorem seed_spbox_spec_witness :
    1 ≤ smallParams.N ∧ smallParams.N < 2 ^ 31 ∧ smallState.V.length = smallParams.N ∧
    seed_spbox smallParams smallState 1
      = (if 1 = 0 then Except.error ExitCode.SEED_WAS_ZERO
        else Except.ok { V := spbox_vector smallParams.N 1,
                         sumtot := mod128 (spbox_vector smallParams.N 1).tail.sum,
                         counter := smallParams.N }) ∧
    ((∃ e, seed_spbox smallParams smallState 1 = Except.error e) ↔ 1 = 0) ∧
    (spbox_vector smallParams.N 1).length = smallParams.N ∧
    (spbox_vector smallParams.N 1).getD 0 0 = 1 &&& MERSBASE :=
  ⟨by decide, by decide, by decide,
    (seed_spbox_spec smallParams smallState 1 (by decide) (by decide) (by decide)).1,
    (seed_spbox_spec smallParams smallState 1 (by decide) (by decide) (by decide)).2.1,
    (seed_spbox_spec smallParams smallState 1 (by decide) (by decide) (by decide)).2.2.1,
    (seed_spbox_spec smallParams smallState 1 (by decide) (by decide) (by decide)).2.2.2.1⟩

/-! ## The two checksum routines -/

/-- C20: for every vector `V` of `N` residues in `[0, MERSBASE]` (`N` a positive
`int`, which covers `N <= 3150`), `precalc`, which folds `MOD_MERSENNE` over `V[1..N)`
one element at a time, returns the same value as `mod128` applied to the exact sum of
`V[1..N)`, and stores it in `sumtot`. The common value is `0` exactly when every
`V[i]`, `i >= 1`, is `0`, and otherwise it is the representative in `[1, MERSBASE]` of
the sum (`canon`), so a non-zero sum that is a multiple of `MERSBASE` yields
`MERSBASE`, not `0`. -/
theorem precalc_eq_mod128 (P : Params) (hN : 1 ≤ P.N) (hN2 : P.N < 2 ^ 31)
    (X : rng_state_t) (hlen : X.V.length = P.N) (hV : Residues X.V) :
    (precalc P X).1 = mod128 X.V.tail.sum ∧
    (precalc P X).2 = { X with sumtot := mod128 X.V.tail.sum } ∧
    mod128 X.V.tail.sum
      = (if X.V.tail.sum = 0 then 0 else (X.V.tail.sum - 1) % MERSBASE + 1) ∧
    (mod128 X.V.tail.sum = 0 ↔ ∀ v ∈ X.V.tail, v = 0) ∧
    mod128 X.V.tail.sum ≤ MERSBASE ∧
    mod128 X.V.tail.sum % MERSBASE = X.V.tail.sum % MERSBASE ∧
    (X.V.tail.sum ≠ 0 → 1 ≤ mod128 X.V.tail.sum) ∧
    (X.V.tail.sum ≠ 0 → X.V.tail.sum % MERSBASE = 0 → mod128 X.V.tail.sum = MERSBASE) := by
  have hlt := residues_sum_lt P.N hN2 X.V hlen hV
  have hm := mod128_canon _ hlt
  have hp := precalc_eq P hN X hlen hV
  have hz : mod128 X.V.tail.sum = 0 ↔ X.V.tail.sum = 0 := mod128_eq_zero_iff _ (by omega)
  refine ⟨?_, ?_, hm, ?_, (mod128_small _ hlt).1, (mod128_small _ hlt).2, ?_, ?_⟩
  · rw [hp, hm]
  · rw [hp, hm]
  · rw [hz, List.sum_eq_zero_iff]
  · intro h
    have : mod128 X.V.tail.sum ≠ 0 := fun e => h (hz.mp e)
    omega
  · intro h1 h2
    rw [hm]
    unfold canon
    rw [if_neg h1, MERSBASE_eq] at *
    omega

/-- Witness of C20 on a vector of `N = 3` residues with `V[1] + V[2] = MERSBASE`: both
routines return `MERSBASE`. -/
theorem precalc_eq_mod128_witness :
    1 ≤ smallParams.N ∧ smallParams.N < 2 ^ 31 ∧
    [2191213392761061494, 1439637570027247333, 866205439186446618].length = smallParams.N ∧
    Residues [2191213392761061494, 1439637570027247333, 866205439186446618] ∧
    [1439637570027247333, 866205439186446618].sum ≠ 0 ∧
    [1439637570027247333, 866205439186446618].sum % MERSBASE = 0 ∧
    (precalc smallParams
      { V := [2191213392761061494, 1439637570027247333, 866205439186446618],
        sumtot := 0, counter := 3 }).1
      = mod128 [1439637570027247333, 866205439186446618].sum ∧
    mod128 [1439637570027247333, 866205439186446618].sum = MERSBASE :=
  ⟨by decide, by decide, by decide, by decide, by decide, by decide,
    (precalc_eq_mod128 smallParams (by decide) (by decide)
      { V := [2191213392761061494, 1439637570027247333, 866205439186446618],
        sumtot := 0, counter := 3 } (by decide) (by decide)).1,
    (precalc_eq_mod128 smallParams (by decide) (by decide)
      { V := [2191213392761061494, 1439637570027247333, 866205439186446618],
        sumtot := 0, counter := 3 } (by decide) (by decide)).2.2.2.2.2.2.2 (by decide)
      (by decide)⟩

/-! ## Skip-ahead: unset bits are the identity -/

/-- C13: `read_state` does not reject every residue greater than `MERSBASE`. With
`N = 3`: a file whose `V[0]` is `MERSBASE + 1` is accepted and that value is installed
(`V[0]` is never compared with `MERSBASE`); a file whose `V[1]` is `MERSBASE + 1` is
accepted too (the message is printed and the loop goes on, `X->V[1]` keeping the value
it had, here `0`, from which the checksum is then recomputed). The other checks are
made: a counter `N + 1` fails with `ERROR_READING_STATE_COUNTER`, a checksum that
differs from the recomputed one fails with `ERROR_READING_STATE_CHECKSUM`, and a
residue equal to `MERSBASE` with a counter equal to `N` is accepted. -/
theorem read_state_accepts_invalid :
    MERSBASE < 2305843009213693952 ∧
    read_state smallParams smallState
        { N := 3, V := [2305843009213693952, 0, 0], counter := 3, sumtot := 0 }
      = Except.ok { V := [2305843009213693952, 0, 0], sumtot := 0, counter := 3 } ∧
    read_state smallParams smallState
        { N := 3, V := [0, 2305843009213693952, 0], counter := 3, sumtot := 0 }
      = Except.ok { V := [0, 0, 0], sumtot := 0, counter := 3 } ∧
    read_state smallParams smallState
        { N := 3, V := [0, MERSBASE, 0], counter := 4, sumtot := MERSBASE }
      = Except.error ExitCode.ERROR_READING_STATE_COUNTER ∧
    read_state smallParams smallState
        { N := 3, V := [0, MERSBASE, 0], counter := 3, sumtot := 0 }
      = Except.error ExitCode.ERROR_READING_STATE_CHECKSUM ∧
    read_state smallParams smallState
        { N := 3, V := [0, MERSBASE, 0], counter := 3, sumtot := MERSBASE }
      = Except.ok { V := [0, MERSBASE, 0], sumtot := MERSBASE, counter := 3 } :=
  ⟨by decide, rfl, rfl, rfl, rfl, rfl⟩

/-- C14: for every legally constructed state `X` (`seed_vielbein` or `seed_spbox`
followed by any sequence of `iterate`, `get_next` and `fill_array` calls),
`print_state` exports `(N, V, counter, sumtot)`, the checksum that `precalc`
recomputes equals the stored `sumtot` exactly, and `read_state` on the exported
numbers succeeds and yields a state with identical `V`, `counter` and `sumtot`. -/
theorem read_print_roundtrip (P : Params) (hP : P.ok) (hN : 3 ≤ P.N) (X : rng_state_t)
    (hL : Legal P X) (X0 : rng_state_t) (hlen0 : X0.V.length = P.N) :
    print_state P X = { N := P.N, V := X.V, counter := X.counter, sumtot := X.sumtot } ∧
    (precalc P X).1 = X.sumtot ∧
    read_state P X0 (print_state P X) = Except.ok X := by
  obtain ⟨⟨h1, h2, h3, h4⟩, h5⟩ := legal_valid P hP hN X hL
  have hp := print_state_eq P (by omega) X h1
  refine ⟨hp, ?_, ?_⟩
  · rw [precalc_eq P (by omega) X h1 h2]
    exact h5.symm
  · rw [hp, read_state_eq P (by omega) X0 _ hlen0 h1 h2]
    simp only [if_pos h4]
    rw [if_neg (by rw [← h5]; exact fun h => h rfl), ← h5]

/-- Witness of C14: the state reached from `seed_vielbein(X, 0)` by one `get_next`,
with `N = 4` and a `SPECIAL` term. -/
theorem read_print_roundtrip_witness :
    exampleParams.ok ∧ 3 ≤ exampleParams.N ∧
    Legal exampleParams
      (get_next exampleParams { V := [1, 0, 0, 0], sumtot := 0, counter := 4 }).2 ∧
    exampleState.V.length = exampleParams.N ∧
    read_state exampleParams exampleState
      (print_state exampleParams
        (get_next exampleParams { V := [1, 0, 0, 0], sumtot := 0, counter := 4 }).2)
      = Except.ok (get_next exampleParams { V := [1, 0, 0, 0], sumtot := 0, counter := 4 }).2 :=
  ⟨exampleParams_ok, by decide,
    Legal.get_next _ (Legal.seed_vielbein exampleState 0 _ (by decide) rfl), by decide,
    (read_print_roundtrip exampleParams exampleParams_ok (by decide) _
      (Legal.get_next _ (Legal.seed_vielbein exampleState 0 _ (by decide) rfl))
      exampleState (by decide)).2.2⟩

/-! ## The fused routine and `rng_copy` against their descriptions -/

/-- C17: with a `SPECIAL` term, `iterate_and_fill_array` does not write the newly
computed `V[i]` to `out[i-1]` for every `i`. With `N = 4`,
`MOD_MULSPEC(k) = MERSBASE - k`, `V = (1, 2, 3, 4)` and `sumtot = 9`, it leaves
`(V, sumtot)` equal to the result `((10, 12, 15, 26), 53)` of `iterate_raw_vec`, but
the array is `12, 17, 15`: `out[1]` holds the value of `V[2]` before the `SPECIAL`
correction (`17`, not `15`) and `out[2]` holds the new `V[2]` (`15`), not the new
`V[3]` (`26`), because the corrected `Y[2]` is written to `array[2]`. -/
theorem iterate_and_fill_array_special :
    iterate_raw_vec exampleParams [1, 2, 3, 4] 9 = ([10, 12, 15, 26], 53) ∧
    iterate_and_fill_array exampleParams { V := [1, 2, 3, 4], sumtot := 9, counter := 4 }
        [0, 0, 0] 0
      = ({ V := [10, 12, 15, 26], sumtot := 53, counter := 4 }, [12, 17, 15]) ∧
    ([12, 17, 15] : List Int).getD 1 0 ≠ int64_of (([10, 12, 15, 26] : List Nat).getD 2 0) ∧
    ([12, 17, 15] : List Int).getD 2 0 ≠ int64_of (([10, 12, 15, 26] : List Nat).getD 3 0) :=
  ⟨rfl, rfl, by decide, by decide⟩

/-- C19: `rng_copy` does not set the counter to zero: it sets it to `2`, for every
configuration and every `Y`. With `N = 4` and `Y = (1, 2, 3, 4)` it returns `V = Y`,
`sumtot = 9 = mod128(2 + 3 + 4)` and `counter = 2`, so the next `N = 4` `get_next`
calls return `3, 4` and then the newly iterated `458, 548`, not `1, 2, 3, 4`. -/
theorem rng_copy_counter :
    (∀ (P : Params) (Y : List Nat), (rng_copy P Y).counter = 2) ∧
    rng_copy exampleParams [1, 2, 3, 4] = { V := [1, 2, 3, 4], sumtot := 9, counter := 2 } ∧
    (rng_copy exampleParams [1, 2, 3, 4]).counter ≠ 0 ∧
    (get_next exampleParams (rng_copy exampleParams [1, 2, 3, 4])).1 = 3 ∧
    (get_next_float_seq exampleParams 4 (rng_copy exampleParams [1, 2, 3, 4])).1
      = [3, 4, 458, 548] :=
  ⟨fun _ _ => rfl, rfl, by decide, rfl, rfl⟩

/-! ## Skip-ahead: one bit of one identifier -/

/-- C12: for every skip table with entries in `[0, MERSBASE]`, every mother vector
`Vin` of `N` residues and every tuple of 32-bit identifiers with exactly one set bit
(bit `r` of the identifier of level `L`, `L = 0` for `streamID`, ..., `3` for
`clusterID`), `apply_bigskip` produces `Vout` with every `Vout[i]` in `[0, MERSBASE]`
and congruent modulo `MERSBASE` to `sum_{j=0..N-1} row[j] * (T^j Vin)[i]`, where
`row = skipMat[r + 32*L]` and `T^j` is `j` successive `iterate_raw_vec` steps started
from `Vin` with the checksum `mod128(sum of Vin[1..N))` (`raw_iter`); it returns
`mod128(sum of Vout[1..N))`; and the result is the same when `Vin` is `Vout` itself. -/
theorem apply_bigskip_one_bit (P : Params) (hP : P.ok) (hT : TableOk P) (hN : 3 ≤ P.N)
    (Vout Vin : List Nat) (hVout : Vout.length = P.N) (hVin : Vin.length = P.N)
    (hR : Residues Vin) (clusterID machineID runID streamID L r : Nat) (hL : L < 4)
    (hr : r < 32)
    (hbit : [streamID, runID, machineID, clusterID].getD L 0 = 2 ^ r)
    (hzero : ∀ k, k ≠ L → [streamID, runID, machineID, clusterID].getD k 0 = 0) :
    (apply_bigskip P Vout Vin clusterID machineID runID streamID).1.length = P.N ∧
    Residues (apply_bigskip P Vout Vin clusterID machineID runID streamID).1 ∧
    (∀ i, i < P.N →
      (apply_bigskip P Vout Vin clusterID machineID runID streamID).1.getD i 0 ≤ MERSBASE ∧
      (apply_bigskip P Vout Vin clusterID machineID runID streamID).1.getD i 0 % MERSBASE
        = (∑ j in Finset.range P.N,
            P.skipMat (r + 32 * L) j
              * (raw_iter P j Vin (mod128 Vin.tail.sum)).1.getD i 0) % MERSBASE) ∧
    (apply_bigskip P Vout Vin clusterID machineID runID streamID).2
      = mod128 (apply_bigskip P Vout Vin clusterID machineID runID streamID).1.tail.sum ∧
    apply_bigskip P Vin Vin clusterID machineID runID streamID
      = apply_bigskip P Vout Vin clusterID machineID runID streamID := by
  have _hid : (2 : Nat) ^ r < 2 ^ 32 := Nat.pow_lt_pow_right (by decide) hr
  have heq := apply_bigskip_one_bit_eq P hP hT hN Vout Vin hVout hVin hR clusterID machineID
    runID streamID L r hL hbit hzero
  have heq2 := apply_bigskip_one_bit_eq P hP hT hN Vin Vin hVin hVin hR clusterID machineID
    runID streamID L r hL hbit hzero
  obtain ⟨v1, v2, v3⟩ := apply_bigskip_valid P hP hT hN Vout Vin clusterID machineID runID
    streamID hVout hVin hR
  have hs0 : SkipInv P
      { Y := Vin, cum := List.replicate P.N 0, sumtot := mod128 Vin.tail.sum } :=
    ⟨hVin, by simp, hR, rfl⟩
  have hrow := (apply_bigskip_row_spec P hP hT hN (r + L * ID_BITS) _ hs0).2
  have hidx : r + L * ID_BITS = r + 32 * L := by
    show r + L * 32 = r + 32 * L
    omega
  refine ⟨v1, v2, ?_, v3, heq2.trans heq.symm⟩
  intro i hi
  refine ⟨getD_le_of_residues _ v2 i, ?_⟩
  rw [heq, ← hidx]
  exact hrow i hi

/-- Witness of C12: `N = 4`, a table of ones, the mother vector `(1, 2, 3, 4)` and
`runID = 4` (bit 2 of level 1), all other identifiers zero. -/
theorem apply_bigskip_one_bit_witness :
    exampleParams.ok ∧ TableOk exampleParams ∧ 3 ≤ exampleParams.N ∧
    [0, 0, 0, 0].length = exampleParams.N ∧ [1, 2, 3, 4].length = exampleParams.N ∧
    Residues [1, 2, 3, 4] ∧ 1 < 4 ∧ 2 < 32 ∧
    ([0, 4, 0, 0] : List Nat).getD 1 0 = 2 ^ 2 ∧
    (∀ k, k ≠ 1 → ([0, 4, 0, 0] : List Nat).getD k 0 = 0) ∧
    Residues (apply_bigskip exampleParams [0, 0, 0, 0] [1, 2, 3, 4] 0 0 4 0).1 ∧
    (apply_bigskip exampleParams [0, 0, 0, 0] [1, 2, 3, 4] 0 0 4 0).1.getD 3 0 % MERSBASE
      = (∑ j in Finset.range exampleParams.N,
          exampleParams.skipMat (2 + 32 * 1) j
            * (raw_iter exampleParams j [1, 2, 3, 4]
                (mod128 [1, 2, 3, 4].tail.sum)).1.getD 3 0) % MERSBASE ∧
    apply_bigskip exampleParams [1, 2, 3, 4] [1, 2, 3, 4] 0 0 4 0
      = apply_bigskip exampleParams [0, 0, 0, 0] [1, 2, 3, 4] 0 0 4 0 :=
  have hz : ∀ k, k ≠ 1 → ([0, 4, 0, 0] : List Nat).getD k 0 = 0 := fun k hk =>
    match k, hk with
    | 0, _ => rfl
    | 1, h => absurd rfl h
    | 2, _ => rfl
    | 3, _ => rfl
    | _ + 4, _ => rfl
  ⟨exampleParams_ok, exampleParams_table, by decide, by decide, by decide, by decide,
    by decide, by decide, by decide, hz,
    (apply_bigskip_one_bit exampleParams exampleParams_ok exampleParams_table (by decide)
      [0, 0, 0, 0] [1, 2, 3, 4] (by decide) (by decide) (by decide) 0 0 4 0 1 2 (by decide)
      (by decide) (by decide) hz).2.1,
    ((apply_bigskip_one_bit exampleParams exampleParams_ok exampleParams_table (by decide)
      [0, 0, 0, 0] [1, 2, 3, 4] (by decide) (by decide) (by decide) 0 0 4 0 1 2 (by decide)
      (by decide) (by decide) hz).2.2.1 3 (by decide)).2,
    (apply_bigskip_one_bit exampleParams exampleParams_ok exampleParams_table (by decide)
      [0, 0, 0, 0] [1, 2, 3, 4] (by decide) (by decide) (by decide) 0 0 4 0 1 2 (by decide)
      (by decide) (by decide) hz).2.2.2.2⟩

/-! ## Outputs are in `(0, 1]` -/

/-- C15: with `nskip >= 0`, for every legally constructed state (`seed_vielbein` with
`index < N` or `seed_spbox` with a non-zero seed, followed by any sequence of
`iterate`, `get_next` and `fill_array` calls), the residue that `get_next` returns is
in `[1, MERSBASE]`, never `0`, it is unchanged by the cast to `int64_t` of
`get_next_float`, so the value scaled by `1/MERSBASE` (as a rational number) is
strictly positive and at most `1`; and every one of the `n` values that `fill_array`
writes is in `[1, MERSBASE]`. -/
theorem outputs_positive (P : Params) (hP : P.ok) (hN : 3 ≤ P.N) (hskip : 0 ≤ P.nskip)
    (X : rng_state_t) (hL : Legal P X) (n : Nat) (array : List Int)
    (harr : array.length = n) :
    1 ≤ (get_next P X).1 ∧ (get_next P X).1 ≤ MERSBASE ∧
    (get_next_float P X).1 = (((get_next P X).1 : Nat) : Int) ∧
    (0 : ℚ) < (((get_next P X).1 : Nat) : ℚ) / ((MERSBASE : Nat) : ℚ) ∧
    (((get_next P X).1 : Nat) : ℚ) / ((MERSBASE : Nat) : ℚ) ≤ 1 ∧
    (fill_array P X n array).2.length = n ∧
    (∀ z ∈ (fill_array P X n array).2, 1 ≤ z ∧ z ≤ ((MERSBASE : Nat) : Int)) := by
  have hk : 1 ≤ niter P := by unfold niter; omega
  have hlive := legal_live P hP hN hk X hL
  obtain ⟨_, g1, g2⟩ := get_next_live P hP hN hk X hlive
  obtain ⟨f1, f2⟩ := fill_array_positive P hP hN hk X hlive.1 hlive.2.1 n array harr
  have hpos : 1 ≤ (get_next P X).1 := by omega
  have hM : (0 : ℚ) < ((MERSBASE : Nat) : ℚ) := by
    have : 0 < MERSBASE := by decide
    exact_mod_cast this
  refine ⟨hpos, g2, ?_, ?_, ?_, f1, ?_⟩
  · show int64_of (get_next P X).1 = _
    unfold int64_of
    have hv : (get_next P X).1 % W64 = (get_next P X).1 :=
      Nat.mod_eq_of_lt (by rw [W64_eq]; rw [MERSBASE_eq] at g2; omega)
    rw [hv, if_pos (by rw [MERSBASE_eq] at g2; omega)]
  · apply div_pos _ hM
    exact_mod_cast hpos
  · rw [div_le_one hM]
    exact_mod_cast g2
  · intro z hz
    obtain ⟨j, hj, rfl⟩ := List.getElem_of_mem hz
    have := f2 j (by rw [f1] at hj; exact hj)
    rwa [List.getD_eq_getElem?_getD, List.getElem?_eq_getElem hj] at this

/-- Witness of C15: `N = 4` with a `SPECIAL` term, `nskip = 2`, the state left by
`seed_vielbein(X, 0)`, and `fill_array` with `n = 5`. -/
theorem outputs_positive_witness :
    exampleParams.ok ∧ 3 ≤ exampleParams.N ∧ 0 ≤ exampleParams.nskip ∧
    Legal exampleParams { V := [1, 0, 0, 0], sumtot := 0, counter := 4 } ∧
    [0, 0, 0, 0, 0].length = 5 ∧
    1 ≤ (get_next exampleParams { V := [1, 0, 0, 0], sumtot := 0, counter := 4 }).1 ∧
    (get_next exampleParams { V := [1, 0, 0, 0], sumtot := 0, counter := 4 }).1 ≤ MERSBASE ∧
    (fill_array exampleParams { V := [1, 0, 0, 0], sumtot := 0, counter := 4 } 5
      [0, 0, 0, 0, 0]).2.length = 5 ∧
    (∀ z ∈ (fill_array exampleParams { V := [1, 0, 0, 0], sumtot := 0, counter := 4 } 5
        [0, 0, 0, 0, 0]).2, 1 ≤ z ∧ z ≤ ((MERSBASE : Nat) : Int)) :=
  ⟨exampleParams_ok, by decide, by decide,
    Legal.seed_vielbein exampleState 0 _ (by decide) rfl, rfl,
    (outputs_positive exampleParams exampleParams_ok (by decide) (by decide) _
      (Legal.seed_vielbein exampleState 0 _ (by decide) rfl) 5 [0, 0, 0, 0, 0] rfl).1,
    (outputs_positive exampleParams exampleParams_ok (by decide) (by decide) _
      (Legal.seed_vielbein exampleState 0 _ (by decide) rfl) 5 [0, 0, 0, 0, 0] rfl).2.1,
    (outputs_positive exampleParams exampleParams_ok (by decide) (by decide) _
      (Legal.seed_vielbein exampleState 0 _ (by decide) rfl) 5 [0, 0, 0, 0, 0] rfl).2.2.2.2.2⟩

end Mixmax
